import Mathlib

/-!
Verification of the constraint-based pointer-safety inference engine of the
CConv (3C) sources in this repository.  The definitions below are a shallow
embedding of the relevant parts of
`clang/lib/CConv/ProgramInfo.cpp`,
`clang/lib/CConv/ConstraintResolver.cpp` and
`clang/lib/CConv/ArrayBoundsInferenceConsumer.cpp`.
Machinery that those files use but that is not part of the available sources
(the constraint solver in `Constraints.cpp`, `ConstraintVariables.cpp`,
the `DisjointSet` container, the persistent expression-constraint cache and
the call-site constraint generation in `ConstraintBuilder.cpp`) is modelled
from the specification; each such definition carries a doc comment starting
with `Modelled from the spec:`.
-/

namespace CConv

/-- The four pointer safety classes of the engine
(`Ptr`, `NTArr`, `Arr`, `Wild` in `Atom::getKind`), ordered by safety
`Wild < Arr < NTArr < Ptr`. -/
inductive PtrClass where
  | Ptr
  | NTArr
  | Arr
  | Wild
  deriving DecidableEq, Repr

/-- Permissiveness rank of a safety class: `Ptr` is the strongest (rank 0),
`Wild` the weakest (rank 3).  A `Geq` constraint `Geq(a, b)` requires
`taint a >= taint b`; the solver only ever raises ranks toward `Wild`. -/
def taint : PtrClass → Nat
  | .Ptr => 0
  | .NTArr => 1
  | .Arr => 2
  | .Wild => 3

/-- Right-hand side of a `Geq` constraint: either a solver unknown
(`VarAtom`, identified by its key) or a fixed class (`ConstAtom`). -/
inductive GRhs where
  | var (v : Nat)
  | const (c : PtrClass)
  deriving DecidableEq, Repr

/-- One `Geq` constraint of the graph, with the diagnostic reason string that
`constrainToWild` records.  The left-hand side is always a solver unknown
(a `VarAtom` key), matching how the constraints are generated and consumed
in `ProgramInfo.cpp`. -/
structure GEdge where
  lhs : Nat
  rhs : GRhs
  reason : String
  deriving DecidableEq, Repr

/-- An assignment of safety classes to solver unknowns, as a finite map;
unknowns not present are at their initial strongest class `Ptr`. -/
abbrev Assignment := List (Nat × PtrClass)

/-- Class of an unknown under an assignment (`Ptr` when absent, the
initialisation of §4.2). -/
def lookupA (A : Assignment) (x : Nat) : PtrClass :=
  ((A.find? (fun p => p.1 == x)).map (fun p => p.2)).getD .Ptr

/-- Pointwise update of an assignment. -/
def updA (A : Assignment) (l : Nat) (v : PtrClass) : Assignment :=
  (l, v) :: A.filter (fun p => !(p.1 == l))

/-- Value of a constraint right-hand side under an assignment. -/
def evalRhs (A : Assignment) : GRhs → PtrClass
  | .var v => lookupA A v
  | .const c => c

/-- Modelled from the spec: one pass of the monotone worklist solver of §4.2
(`Constraints.cpp` is not part of the available sources).  For each
`Geq(a, b)` edge, if `a` currently resolves below `b`, `a` is raised to `b`;
classes only ever move toward `Wild`. -/
def solveStep (edges : List GEdge) (A : Assignment) : Assignment :=
  edges.foldl
    (fun A e =>
      let rv := evalRhs A e.rhs
      if taint (lookupA A e.lhs) < taint rv then updA A e.lhs rv else A)
    A

/-- Iterated solver passes. -/
def solveN : Nat → List GEdge → Assignment → Assignment
  | 0, _, A => A
  | n + 1, edges, A => solveN n edges (solveStep edges A)

/-- Modelled from the spec: the fixpoint solver of §4.2.  Every unknown
starts at the strongest class `Ptr` and passes are repeated; the spec bounds
the number of useful passes by four per unknown, and `4 * |edges| + 4`
passes are certainly enough since each pass that changes anything raises at
least one unknown mentioned in some edge. -/
def solve (edges : List GEdge) (x : Nat) : PtrClass :=
  lookupA (solveN (4 * edges.length + 4) edges []) x

/-- Function-shaped constraint variable (`FVConstraint`): the atoms of its
return-value constraint variables, the atoms of each parameter's constraint
variables, and the `hasBody` / `hasProtoType` flags used by
`ProgramInfo::link`. -/
structure FVCon where
  fname : String
  retAtoms : List Nat
  paramAtoms : List (List Nat)
  hasBody : Bool
  hasProto : Bool
  deriving DecidableEq, Repr

instance : Inhabited FVCon := ⟨⟨"", [], [], false, false⟩⟩

/-- Translation of `ProgramInfo::isExternOkay` (ProgramInfo.cpp): the
recognized-safe list of external functions. -/
def isExternOkay (ext : String) : Bool :=
  ext == "malloc" || ext == "free"

/-- Wild forcings emitted for the return-value atoms of an unresolved
external function in `ProgramInfo::link`: each return constraint variable is
`constrainToWild`ed with the recorded reason string.  Modelled from the spec:
`constrainToWild` (§4.3, `ConstraintVariables.cpp` not in the sources) forces
every atom owned by the variable via a `Geq(atom, Wild)` edge tagged with the
reason. -/
def constrainFVRetWild (u : String) (g : FVCon) : List GEdge :=
  g.retAtoms.map (fun a => ⟨a, .const .Wild, "Return value of an external function:" ++ u⟩)

/-- Wild forcings emitted for all parameter atoms of an unresolved external
function in `ProgramInfo::link` (reason string from ProgramInfo.cpp). -/
def constrainFVParamsWild (g : FVCon) : List GEdge :=
  g.paramAtoms.flatten.map (fun a => ⟨a, .const .Wild, "Inner pointer of a parameter to external function."⟩)

/-- Lookup in the `ExternalFunctionDeclFVCons` map (function name to the set
of declaration `FVConstraint`s). -/
def lookupDecls (m : List (String × List FVCon)) (u : String) : List FVCon :=
  ((m.find? (fun p => p.1 == u)).map (fun p => p.2)).getD []

/-- Translation of the final loop of `ProgramInfo::link`
(ProgramInfo.cpp lines 472-498): for every global symbol that was seen but
never with a body, and that is not on the recognized-safe list, every
declaration `FVConstraint`'s return atoms and parameter atoms are forced
`Wild` with the recorded reasons. -/
def linkExternWild (externFunctions : List (String × Bool))
    (declFVCons : List (String × List FVCon)) : List GEdge :=
  externFunctions.foldr
    (fun u acc =>
      if u.2 == false && isExternOkay u.1 == false then
        ((lookupDecls declFVCons u.1).foldr
          (fun g acc2 => constrainFVRetWild u.1 g ++ constrainFVParamsWild g ++ acc2) []) ++ acc
      else acc)
    []

/-- Modelled from the spec: `constrainConsVarGeq` with the `Same_to_Same`
policy (§4.5) links two atom sequences level by level with inequalities in
both directions (`ConstraintVariables.cpp` is not in the sources). -/
def sameLinkAtoms (xs ys : List Nat) (rsn : String) : List GEdge :=
  (xs.zip ys).foldr (fun p acc => ⟨p.1, .var p.2, rsn⟩ :: ⟨p.2, .var p.1, rsn⟩ :: acc) []

/-- Wild forcing of a whole `FVConstraint`: `FVConstraint::constrainToWild`
forces the return atoms and every parameter atom (modelled from the spec,
§4.3: recursively through nested return and parameter variables). -/
def constrainFVAllWild (g : FVCon) (rsn : String) : List GEdge :=
  (g.retAtoms ++ g.paramAtoms.flatten).map (fun a => ⟨a, .const .Wild, rsn⟩)

/-- Translation of the multiple-declaration pairing loop of
`ProgramInfo::link` (ProgramInfo.cpp lines 416-469).  The iterators `I` and
`J` walk the declaration set; a declaration with a body is skipped via the
`Gap` flag.  For a pair of bodyless declarations the return values are
equated; parameters are equated only when the arities agree, and when both
carry prototypes but the arities differ, both sides are wholly forced `Wild`
with the reason built from the first declaration's name. -/
def linkDeclsLoop (ps : List FVCon) (i j : Nat) (gap : Bool) : Nat → List GEdge
  | 0 => []
  | fuel + 1 =>
    if j < ps.length then
      let p1 := ps.getD i default
      let p2 := ps.getD j default
      if p2.hasBody then linkDeclsLoop ps i (j + 1) true fuel
      else
        let emitted :=
          if !p1.hasBody && !p2.hasBody then
            sameLinkAtoms p1.retAtoms p2.retAtoms "" ++
            (if p1.paramAtoms.length == p2.paramAtoms.length then
              (p1.paramAtoms.zip p2.paramAtoms).foldr
                (fun q acc => sameLinkAtoms q.1 q.2 "" ++ acc) []
            else if p1.hasProto && p2.hasProto then
              constrainFVAllWild p1 ("Return value of function:" ++ p1.fname) ++
              constrainFVAllWild p2 ("Return value of function:" ++ p1.fname)
            else [])
          else []
        emitted ++
          (if !gap then linkDeclsLoop ps (i + 1) (j + 1) false fuel
           else linkDeclsLoop ps (i + 1) j false fuel)
    else []

/-- Translation of the declaration-merging part of `ProgramInfo::link`
(guarded by `!SeperateMultipleFuncDecls`) for one external symbol's
declaration set. -/
def linkMultiDecls (seperateMultipleFuncDecls : Bool) (ps : List FVCon) : List GEdge :=
  if seperateMultipleFuncDecls then []
  else if 1 < ps.length then linkDeclsLoop ps 0 1 false (2 * ps.length + 2) else []

/-- The `FVConstraint` of the bodyless external declaration of `strcpy` in
the end-to-end example program: atom 0 is the return value `char *`, atom 1
the parameter `dst`, atom 2 the parameter `src`. -/
def strcpyFV : FVCon := ⟨"strcpy", [0], [[1], [2]], false, true⟩

/-- The `ExternFunctions` map for the example program: `strcpy` was seen
without a body, `f` with a body. -/
def exampleExterns : List (String × Bool) := [("strcpy", false), ("f", true)]

/-- The `ExternalFunctionDeclFVCons` map for the example program. -/
def exampleDeclCons : List (String × List FVCon) := [("strcpy", [strcpyFV])]

/-- Modelled from the spec: call-site argument constraint generation for
`strcpy(p, "hi")` inside `f` (`ConstraintBuilder.cpp` is not part of the
sources).  Per §4.5 each argument is linked to its parameter with edges in
both directions; atom 3 is the parameter `p` of `f`, atom 4 the constraint
variable of the string literal `"hi"`, which is additionally constrained to
`NTArr` (§4.4). -/
def exampleCallEdges : List GEdge :=
  [⟨1, .var 3, "arg 1 of call to strcpy"⟩,
   ⟨3, .var 1, "arg 1 of call to strcpy"⟩,
   ⟨2, .var 4, "arg 2 of call to strcpy"⟩,
   ⟨4, .var 2, "arg 2 of call to strcpy"⟩,
   ⟨4, .const .NTArr, "string literal"⟩]

/-- The whole constraint graph of the example program: the linking forcings
plus the call-site edges. -/
def exampleProgramEdges : List GEdge :=
  linkExternWild exampleExterns exampleDeclCons ++ exampleCallEdges

/-! Root-cause (disjoint-set) analysis: `ProgramInfo::computePointerDisjointSet`
(ProgramInfo.cpp lines 1092-1163).  The `DisjointSet` container is declared
outside the available sources, so the union-find itself is modelled from the
spec (§4.7) as a flat atom-to-leader map; the phases of
`computePointerDisjointSet` are translated from the source. -/

/-- Modelled from the spec: the union-find state of §4.7, a flat map from
each `Unknown` atom id to the leader of its group.  Leaders map to
themselves. -/
abbrev LeaderMap := List (Nat × Nat)

/-- Leader of an atom, `none` if the atom is in no group. -/
def lmLookup (m : LeaderMap) (x : Nat) : Option Nat :=
  (m.find? (fun p => p.1 == x)).map (fun p => p.2)

/-- Re-pointing of a whole group: every atom whose leader is `l0` gets the
new leader `d`. -/
def remapTo (m : LeaderMap) (l0 d : Nat) : LeaderMap :=
  m.map (fun p => if p.2 == l0 then (p.1, d) else p)

/-- Modelled from the spec: `DisjointSet::AddElements` — union the groups of
`a` and `b`, keeping `a`'s leader when both exist; atoms not yet present are
registered, a fresh pair forming a new group led by `a`. -/
def dsAdd (m : LeaderMap) (a b : Nat) : LeaderMap :=
  match lmLookup m a, lmLookup m b with
  | some la, some lb => if la == lb then m else remapTo m lb la
  | some la, none => (b, la) :: m
  | none, some lb => (a, lb) :: m
  | none, none => if a == b then (a, a) :: m else (a, a) :: (b, a) :: m

/-- Insertion into a sorted duplicate-free list of atom keys, modelling the
ordered `std::set<ConstraintKey>` / `std::map` key order in which the direct
wild pointers are collected and iterated. -/
def insSorted (x : Nat) : List Nat → List Nat
  | [] => [x]
  | y :: t => if x < y then x :: y :: t else if x = y then y :: t else y :: insSorted x t

/-- Translation of the first loop of `computePointerDisjointSet`
(lines 1099-1117): every `Geq` whose right side is the `Wild` constant
records its left side as a directly-forced atom (`WildPtrs` and the reasons
map share this key set); every `Geq` between two unknowns is unioned; a
`Geq` against any other constant is ignored. -/
def collectStep (st : LeaderMap × List Nat) (e : GEdge) : LeaderMap × List Nat :=
  match e.rhs with
  | .const c => if c == .Wild then (st.1, insSorted e.lhs st.2) else st
  | .var v => (dsAdd st.1 e.lhs v, st.2)

/-- The whole first loop of `computePointerDisjointSet`. -/
def collectPhase (edges : List GEdge) : LeaderMap × List Nat :=
  edges.foldl collectStep ([], [])

/-- Translation of one step of the leader-adjustment loop
(lines 1121-1141): for a directly-forced atom `d` that belongs to a group
whose current leader is not itself directly forced, the whole group is
re-pointed at `d`. -/
def adjustStep (direct : List Nat) (m : LeaderMap) (d : Nat) : LeaderMap :=
  match lmLookup m d with
  | none => m
  | some l => if direct.contains l then m else remapTo m l d

/-- Translation of the indirectly-wild computation (lines 1144-1163): all
members of groups whose leader is a directly-forced atom, minus the
directly-forced atoms themselves. -/
def computeIndirect (m : LeaderMap) (direct : List Nat) : List Nat :=
  ((m.filter (fun p => direct.contains p.2)).map (fun p => p.1)).filter
    (fun a => !direct.contains a)

/-- Translation of `ProgramInfo::computePointerDisjointSet`: returns the
adjusted leader map, the directly-forced atom set (in its sorted iteration
order) and the indirectly-wild report. -/
def computePointerDisjointSet (edges : List GEdge) :
    LeaderMap × List Nat × List Nat :=
  let st := collectPhase edges
  let direct := st.2
  let m := direct.foldl (adjustStep direct) st.1
  (m, direct, computeIndirect m direct)

/-! The C type fragment needed by the cast-safety check and the allocator
heuristics.  `charT` is both a character and an integer type, as in clang
(`isCharType` and `isIntegerType` both hold for `char`). -/

/-- The C types the embedding distinguishes: `void`, the three scalar
arithmetic kinds the cast-safety check tests for, and pointers. -/
inductive CType where
  | void
  | charT
  | intT
  | floatT
  | ptr (t : CType)
  deriving DecidableEq, Repr

/-- Clang's `isCharType` on the embedded types. -/
def isCharTy : CType → Bool
  | .charT => true
  | _ => false

/-- Clang's `isIntegerType` on the embedded types (`char` is an integer
type). -/
def isIntTy : CType → Bool
  | .charT => true
  | .intT => true
  | _ => false

/-- Clang's `isFloatingType` on the embedded types. -/
def isFloatTy : CType → Bool
  | .floatT => true
  | _ => false

/-- Clang's `isScalarType` on the embedded types: arithmetic types and
pointers are scalar, `void` is not. -/
def isScalarTy : CType → Bool
  | .void => false
  | _ => true

/-- Clang's `isPointerType` on the embedded types. -/
def isPtrTy : CType → Bool
  | .ptr _ => true
  | _ => false

/-- Clang's `isArithmeticType` on the embedded types. -/
def isArithTy : CType → Bool
  | .charT => true
  | .intT => true
  | .floatT => true
  | _ => false

/-- Translation of `ProgramInfo::isExplicitCastSafe` (ProgramInfo.cpp lines
330-364), the cast-safety check behind the resolver's `isCastSafe`: equal
types are safe; two pointers recurse on the pointees; a pointer against a
non-pointer is unsafe; two non-scalar types must be the same type; and two
scalars are compatible exactly when they agree on being character, integer
and floating types. -/
def isExplicitCastSafe (dstType srcType : CType) : Bool :=
  if srcType = dstType then true
  else
    match dstType, srcType with
    | .ptr d, .ptr s => isExplicitCastSafe d s
    | .ptr _, _ => false
    | _, .ptr _ => false
    | d, s =>
      if !(isScalarTy s && isScalarTy d) then decide (s = d)
      else
        let bothNotChar := xor (isCharTy s) (isCharTy d)
        let bothNotInt := xor (isIntTy s) (isIntTy d)
        let bothNotFloat := xor (isFloatTy s) (isFloatTy d)
        !(bothNotChar || bothNotInt || bothNotFloat)

/-! Expressions as seen by the array-bounds engine and the allocator
analysis (`ArrayBoundsInferenceConsumer.cpp`, `analyzeAllocExpr`). -/

/-- The expression fragment the allocator heuristics inspect: variable
references (`DeclRefExpr`), integer literals, implicit casts, `sizeof`
expressions, multiplications and calls. -/
inductive AExpr where
  | varA (name : String)
  | intLitA (n : Int)
  | implCastA (ty : CType) (sub : AExpr)
  | sizeofA (t : CType)
  | mulA (l r : AExpr)
  | callA (fn : String) (args : List AExpr)

/-- Strip the implicit casts around an expression (`removeAuxillaryCasts` /
`IgnoreParenImpCasts`). -/
def stripImpCasts : AExpr → AExpr
  | .implCastA _ s => stripImpCasts s
  | e => e

/-- Translation of `getSizeOfArg` (ConstraintResolver.cpp lines 125-132): a
`sizeof(T)` expression yields `T`. -/
def getSizeOfArg : AExpr → Option CType
  | .sizeofA t => some t
  | _ => none

/-- Model of clang's `evaluateToInt` constant evaluator on the embedded
fragment: integer literals, possibly behind implicit casts. -/
def evalToInt : AExpr → Option Int
  | .intLitA n => some n
  | .implCastA _ s => evalToInt s
  | _ => none

/-- Translation of `analyzeAllocExpr` (ConstraintResolver.cpp lines
134-181) on a call to allocator `fname` with arguments `args`: for `calloc`
the second argument must be a `sizeof`, and the result is `Ptr` when the
first argument constant-evaluates to 1, else `Arr`; otherwise the size
argument (`malloc`'s first, `realloc`'s second) is inspected, a
multiplication with a `sizeof` factor yielding `Arr` and a bare `sizeof`
yielding `Ptr`; anything else is unclassified (`nullptr`). -/
def analyzeAllocExpr (fname : String) (args : List AExpr) : Option (PtrClass × CType) :=
  if fname == "calloc" then
    match getSizeOfArg (args.getD 1 (.intLitA 0)) with
    | none => none
    | some t =>
      if evalToInt (args.getD 0 (.intLitA 0)) == some 1 then some (.Ptr, t)
      else some (.Arr, t)
  else
    let e0 := if fname == "realloc" then args.getD 1 (.intLitA 0) else args.getD 0 (.intLitA 0)
    match stripImpCasts e0 with
    | .mulA l r =>
      (match getSizeOfArg l with
       | some t => some (.Arr, t)
       | none =>
         match getSizeOfArg r with
         | some t => some (.Arr, t)
         | none => none)
    | e =>
      match getSizeOfArg e with
      | some t => some (.Ptr, t)
      | none => none

/-- The constraint-variable outcome of the allocator branch of
`ConstraintResolver::getExprConstraintVars` for a call: either a fresh
pointer variable of the computed type whose outermost atom is constrained to
the computed class, or the wild pointer constraint variable. -/
inductive AllocCV where
  | classified (cls : PtrClass) (resTy : CType)
  | wildCV
  deriving DecidableEq, Repr

/-- Translation of the allocator-call branch of
`ConstraintResolver::getExprConstraintVars` (ConstraintResolver.cpp lines
462-489): with at least one argument, a successful `analyzeAllocExpr` yields
a fresh constraint variable of type `T*` constrained to the computed class
(`constrainOuterTo`); otherwise the result is
`PVConstraint::getWildPVConstraint`. -/
def allocatorCallRet (fname : String) (args : List AExpr) : AllocCV :=
  if 0 < args.length then
    match analyzeAllocExpr fname args with
    | some (a, argTy) => .classified a (.ptr argTy)
    | none => .wildCV
  else .wildCV

/-! Array-bounds engine (`ArrayBoundsInferenceConsumer.cpp`): allocator-site
bounds, parameter heuristics and structure-field heuristics. -/

/-- A bound recorded by the bounds engine (`ABounds`): an element count
(`CountBound`) or a byte count (`ByteBound`) described by another bounds
key. -/
inductive ABounds where
  | countBound (k : Nat)
  | byteBound (k : Nat)
  deriving DecidableEq, Repr

/-- A program variable as the bounds engine sees it (`ProgramVar`): its
scope identifier and whether it is a numeric constant. -/
structure ProgVar where
  scope : Nat
  isNumConstant : Bool
  deriving DecidableEq, Repr

/-- The bounds-engine environment: `AVarBoundsInfo::getVariable` on a
variable reference, and `AVarBoundsInfo::getProgramVar` on a bounds key. -/
structure BEnv where
  varKey : String → Option Nat
  progVar : Nat → ProgVar

/-- The `AllocatorSizeAssoc` map (ArrayBoundsInferenceConsumer.cpp lines
148-150): the indexes of the size parameters of each known allocator. -/
def allocatorSizeIdx (s : String) : Option (List Nat) :=
  if s == "malloc" then some [0]
  else if s == "calloc" then some [0, 1]
  else none

/-- Decomposition of one size argument in `isAllocatorCall` (lines 179-193):
a multiplication contributes both factors, a `sizeof` contributes itself,
anything else aborts the classification. -/
def decomposeSizeArg : AExpr → Option (List AExpr)
  | .mulA l r => some [l, r]
  | .sizeofA t => some [.sizeofA t]
  | _ => none

/-- The base-expression filter of `isAllocatorCall` (lines 196-208): every
base expression must be a variable reference or a `sizeof`. -/
def baseOk : AExpr → Bool
  | .varA _ => true
  | .sizeofA _ => true
  | _ => false

/-- Translation of `isAllocatorCall` (ArrayBoundsInferenceConsumer.cpp lines
165-212): the expression, with auxiliary casts removed, must be a call to a
known allocator; each size argument decomposes into base expressions, all of
which must be variable references or `sizeof` expressions; the collected
base expressions are returned. -/
def isAllocatorCall (e : AExpr) : Option (List AExpr) :=
  match stripImpCasts e with
  | .callA fn args =>
    match allocatorSizeIdx fn with
    | none => none
    | some idxs =>
      let bases := idxs.foldl
        (fun acc i =>
          match acc with
          | none => none
          | some l =>
            match decomposeSizeArg (args.getD i (.intLitA 0)) with
            | none => none
            | some bs => some (l ++ bs))
        (some [])
      match bases with
      | none => none
      | some bs =>
        if bs.isEmpty then some []
        else if bs.all baseOk then some bs else none
  | _ => none

/-- Translation of the argument loop of `handleAllocatorCall` (lines
227-253), with the state `(FoundKey, IsByteBound, RK)`: a `sizeof` whose
pointed-to type matches the assigned type clears `IsByteBound`, a
mismatching `sizeof` aborts (`FoundKey = false` and break); a variable with
a bounds key is recorded once, a second variable or an unrecognized
expression aborts. -/
def allocArgLoop (env : BEnv) (lhsTy : CType) :
    List AExpr → Bool → Bool → Nat → Bool × Bool × Nat
  | [], foundKey, isByte, rk => (foundKey, isByte, rk)
  | te :: rest, foundKey, isByte, rk =>
    match te with
    | .sizeofA t =>
      if lhsTy == .ptr t then allocArgLoop env lhsTy rest foundKey false rk
      else (false, isByte, rk)
    | .varA n =>
      match env.varKey n with
      | some k =>
        if !foundKey then allocArgLoop env lhsTy rest true isByte k
        else (false, isByte, rk)
      | none => (false, isByte, rk)
    | _ => (false, isByte, rk)

/-- Translation of `handleAllocatorCall` (ArrayBoundsInferenceConsumer.cpp
lines 214-275) for the assignment of expression `e` to the variable with
bounds key `lk` of type `lhsTy`; returns the bound merged for `lk` (starting
from no existing bound), or `none` when no binding is made.  A binding
requires the found key's variable to be in the same scope as the assigned
variable or a numeric constant. -/
def handleAllocatorCall (env : BEnv) (lhsTy : CType) (lk : Nat) (e : AExpr) :
    Option ABounds :=
  match isAllocatorCall e with
  | none => none
  | some argVals =>
    let r := allocArgLoop env lhsTy argVals false true 0
    if r.1 then
      let lv := env.progVar lk
      let rv := env.progVar r.2.2
      if lv.scope == rv.scope || rv.isNumConstant then
        some (if r.2.1 then .byteBound r.2.2 else .countBound r.2.2)
      else none
    else none

/-! Name-based heuristics (ArrayBoundsInferenceConsumer.cpp lines 18-97). -/

/-- Lower-cased character list of a string (the `std::tolower` transforms). -/
def lowerList (s : String) : List Char := s.toList.map Char.toLower

/-- Whether `pre` occurs at position 0 of `s`
(C++ `s.rfind(pre, 0) == 0`). -/
def strStartsWith (s pre : String) : Bool :=
  pre.toList.isPrefixOf s.toList

/-- Whether `needle` occurs as a contiguous substring of `hay`
(C++ `hay.find(needle) != npos`). -/
def containsSub (hay needle : List Char) : Bool :=
  match hay with
  | [] => needle.isEmpty
  | _ :: t => needle.isPrefixOf hay || containsSub t needle

/-- The `LengthVarNamesPrefixes` set, in its sorted `std::set` order. -/
def lengthVarNamesPrefixList : List String := ["count", "len", "num", "siz", "size"]

/-- Translation of `hasNameMatch` (lines 26-32): the candidate field name
starts with the pointer's name. -/
def hasNameMatch (ptrName fieldName : String) : Bool :=
  strStartsWith fieldName ptrName

/-- Modelled from the spec: `longestCommonSubsequence` (declared outside the
available sources) is the classic longest-common-subsequence length. -/
def lcsLen : List Char → List Char → Nat
  | [], _ => 0
  | _, [] => 0
  | x :: xs, y :: ys =>
    if x = y then 1 + lcsLen xs ys
    else max (lcsLen (x :: xs) ys) (lcsLen xs (y :: ys))

/-- Translation of `nameSubStringMatch` (lines 50-66): the lower-cased
longest common subsequence must cover at least 80 percent of the pointer
name (`COMMONSUBSEQUENCEPERCMATCH`); the floating-point comparison agrees
with the rational one at these magnitudes. -/
def nameSubStringMatch (ptrName fieldName : String) : Bool :=
  let p := lowerList ptrName
  let f := lowerList fieldName
  let subSeqLen := lcsLen p f
  if 0 < subSeqLen then 80 * p.length ≤ 100 * subSeqLen else false

/-- Translation of `fieldNameMatch` (lines 68-82): the lower-cased name
starts with one of the length prefixes or contains `length`. -/
def fieldNameMatch (fieldName : String) : Bool :=
  let f := lowerList fieldName
  lengthVarNamesPrefixList.any (fun p => p.toList.isPrefixOf f) ||
    containsSub f "length".toList

/-- Translation of `hasLengthKeyword` (lines 84-97): the lower-cased name
contains one of the length keywords (all tested with `find`, i.e. substring
containment). -/
def hasLengthKeyword (varName : String) : Bool :=
  let v := lowerList varName
  (lengthVarNamesPrefixList ++ ["length"]).any (fun p => containsSub v p.toList)

/-! The parameter and field heuristics of `GlobalABVisitor`
(ArrayBoundsInferenceConsumer.cpp lines 301-477). -/

/-- The bounds-engine state accumulated by the visitors: the bounds map
(`replaceBounds` results, keyed by bounds key) and the three statistics sets
touched by these heuristics (`NeighbourParamMatch`, `NamePrefixMatch`,
`VariableNameMatch`). -/
structure BState where
  bounds : List (Nat × ABounds)
  neighbourParamMatch : List Nat
  namePrefixMatch : List Nat
  variableNameMatch : List Nat
  deriving DecidableEq, Repr

/-- Translation of `AVarBoundsInfo::replaceBounds`: the bound stored for a
key is replaced outright. -/
def replaceBounds (st : BState) (k : Nat) (b : ABounds) : BState :=
  { st with bounds := (k, b) :: st.bounds.filter (fun p => !(p.1 == k)) }

/-- Bound recorded for a key. -/
def lookupBounds (st : BState) (k : Nat) : Option ABounds :=
  (st.bounds.find? (fun p => p.1 == k)).map (fun p => p.2)

/-- Insertion into the `NeighbourParamMatch` statistic. -/
def addNeighbourStat (st : BState) (k : Nat) : BState :=
  { st with neighbourParamMatch := k :: st.neighbourParamMatch }

/-- Insertion into the `NamePrefixMatch` statistic. -/
def addNamePrefixStat (st : BState) (k : Nat) : BState :=
  { st with namePrefixMatch := k :: st.namePrefixMatch }

/-- Insertion into the `VariableNameMatch` statistic. -/
def addVariableNameStat (st : BState) (k : Nat) : BState :=
  { st with variableNameMatch := k :: st.variableNameMatch }

/-- A function parameter as `GlobalABVisitor::VisitFunctionDecl` sees it:
its name, its bounds key, whether the solved constraints classify it as an
array or an NT array needing bounds, whether its type is an integer type,
and whether the prior pass excluded it as a non-length parameter
(`LocalVarABVisitor::isNonLengthParameter`: enumeration type or observed as
an equality-test or switch discriminant). -/
structure ParamSpec where
  pname : String
  key : Nat
  isArr : Bool
  isNtArr : Bool
  isInt : Bool
  nonLength : Bool
  deriving DecidableEq, Repr

/-- Translation of `GlobalABVisitor::IsPotentialLengthVar` (lines 307-312):
an integer-typed parameter not excluded as a non-length parameter. -/
def isPotentialLengthVar (p : ParamSpec) : Bool :=
  p.isInt && !p.nonLength

/-- An index-keyed map over the parameters passing a filter, in index order
(the `std::map<unsigned, std::pair<std::string, BoundsKey>>` maps of
`VisitFunctionDecl`, which iterate in ascending index order). -/
def buildIndexed (f : ParamSpec → Bool) : List ParamSpec → Nat → List (Nat × String × Nat)
  | [], _ => []
  | p :: rest, i =>
    if f p then (i, p.pname, p.key) :: buildIndexed f rest (i + 1)
    else buildIndexed f rest (i + 1)

/-- Lookup of an index in such a map (`LengthParams.find(PIdx + 1)`). -/
def lengthAt (lps : List (Nat × String × Nat)) (i : Nat) : Option (String × Nat) :=
  (lps.find? (fun q => q.1 == i)).map (fun q => q.2)

/-- Translation of the name-correspondence loop over the length parameters
(lines 421-440): a name match (`hasNameMatch`) binds and breaks; a common
subsequence match (`nameSubStringMatch`) binds and continues; each binding
inserts the array key into the `NamePrefixMatch` statistic. -/
def nameMatchLoop (arrName : String) (akey : Nat) :
    List (Nat × String × Nat) → BState → Bool → BState × Bool
  | [], st, foundLen => (st, foundLen)
  | q :: rest, st, foundLen =>
    if hasNameMatch arrName q.2.1 then
      (addNamePrefixStat (replaceBounds st akey (.countBound q.2.2)) akey, true)
    else if nameSubStringMatch arrName q.2.1 then
      nameMatchLoop arrName akey rest
        (addNamePrefixStat (replaceBounds st akey (.countBound q.2.2)) akey) true
    else nameMatchLoop arrName akey rest st foundLen

/-- Translation of the keyword fallback loop (lines 443-451): every length
parameter whose name passes `fieldNameMatch` binds (the last one wins) and
inserts into the `VariableNameMatch` statistic. -/
def keywordMatchLoop (akey : Nat) (lps : List (Nat × String × Nat))
    (st : BState) : BState × Bool :=
  lps.foldl
    (fun acc q =>
      if fieldNameMatch q.2.1 then
        (addVariableNameStat (replaceBounds acc.1 akey (.countBound q.2.2)) akey, true)
      else acc)
    (st, false)

/-- Translation of the body of the array-parameter loop (lines 407-459) for
one array parameter: an adjacent length parameter binds unconditionally with
the `NeighbourParamMatch` statistic and `continue`s; otherwise the
name-correspondence loop runs, and if it found nothing, the keyword
fallback. -/
def arrParamStep (lps : List (Nat × String × Nat)) (st : BState)
    (q : Nat × String × Nat) : BState :=
  match lengthAt lps (q.1 + 1) with
  | some pr => addNeighbourStat (replaceBounds st q.2.2 (.countBound pr.2)) q.2.2
  | none =>
    let r := nameMatchLoop q.2.1 q.2.2 lps st false
    if r.2 then r.1 else (keywordMatchLoop q.2.2 lps r.1).1

/-- Translation of the NT-array loop (lines 462-473): an NT-array parameter
whose adjacent parameter is a length parameter passing `fieldNameMatch`
binds with the `VariableNameMatch` statistic. -/
def ntArrParamStep (lps : List (Nat × String × Nat)) (st : BState)
    (q : Nat × String × Nat) : BState :=
  match lengthAt lps (q.1 + 1) with
  | some pr =>
    if fieldNameMatch pr.1 then
      addVariableNameStat (replaceBounds st q.2.2 (.countBound pr.2)) q.2.2
    else st
  | none => st

/-- Translation of `GlobalABVisitor::VisitFunctionDecl`
(ArrayBoundsInferenceConsumer.cpp lines 371-477) for a function definition
with the given parameters, starting from an empty bounds state. -/
def visitFunctionDecl (params : List ParamSpec) : BState :=
  let pa := buildIndexed (fun p => p.isArr) params 0
  let nta := buildIndexed (fun p => p.isNtArr) params 0
  let lps := buildIndexed isPotentialLengthVar params 0
  let st0 : BState := ⟨[], [], [], []⟩
  let st1 := if !pa.isEmpty && !lps.isEmpty then pa.foldl (arrParamStep lps) st0 else st0
  nta.foldl (ntArrParamStep lps) st1

/-! The structure-field heuristics of `GlobalABVisitor::VisitRecordDecl`
(lines 315-369). -/

/-- A structure field as `VisitRecordDecl` sees it: its name, bounds key,
whether its type is an integer type, and whether the solved constraints
classify it as an array needing bounds. -/
structure FieldSpec where
  fname : String
  key : Nat
  isInt : Bool
  isArr : Bool
  deriving DecidableEq, Repr

/-- Lexicographic strict order on character lists (the `std::string`
comparison, which agrees with it on this ASCII data). -/
def charListBelow : List Char → List Char → Bool
  | [], [] => false
  | [], _ :: _ => true
  | _ :: _, [] => false
  | c :: cs, d :: ds =>
    if c.toNat < d.toNat then true
    else if d.toNat < c.toNat then false
    else charListBelow cs ds

/-- The strict order of `std::pair<std::string, BoundsKey>` used by the
`std::set`s of `VisitRecordDecl`. -/
def pairBelow (a b : String × Nat) : Bool :=
  charListBelow a.1.toList b.1.toList || (a.1 == b.1 && a.2 < b.2)

/-- Ordered duplicate-free insertion, modelling `std::set::insert`. -/
def insertPairSorted (x : String × Nat) : List (String × Nat) → List (String × Nat)
  | [] => [x]
  | y :: t =>
    if pairBelow x y then x :: y :: t
    else if x == y then y :: t
    else y :: insertPairSorted x t

/-- The ordered set of name-and-key pairs collected from a field list. -/
def setOfPairs (l : List (String × Nat)) : List (String × Nat) :=
  l.foldl (fun acc x => insertPairSorted x acc) []

/-- Translation of the candidate loop of `VisitRecordDecl` (lines 341-356)
for one array field: a candidate whose name starts with the array field's
name binds; if it moreover carries a length keyword the binding is final
(`NamePrefixMatch` statistic and break), otherwise the search continues with
the `VariableNameMatch` statistic, a later prefix match being allowed to
overwrite.  The keyword-only fallback of the original design is commented
out in the source and therefore absent. -/
def fieldMatchLoop (arrName : String) (akey : Nat) :
    List (String × Nat) → BState → BState
  | [], st => st
  | q :: rest, st =>
    if hasNameMatch arrName q.1 then
      if hasLengthKeyword q.1 then
        addNamePrefixStat (replaceBounds st akey (.countBound q.2)) akey
      else
        fieldMatchLoop arrName akey rest
          (addVariableNameStat (replaceBounds st akey (.countBound q.2)) akey)
    else fieldMatchLoop arrName akey rest st

/-- Translation of `GlobalABVisitor::VisitRecordDecl`
(ArrayBoundsInferenceConsumer.cpp lines 315-369) on a structure's fields,
starting from an empty bounds state: the integer fields form the potential
length set, the array fields needing bounds form the array set, and each
array field runs the candidate loop. -/
def visitRecordDecl (fields : List FieldSpec) : BState :=
  let potLen := setOfPairs ((fields.filter (fun f => f.isInt)).map (fun f => (f.fname, f.key)))
  let arrVars := setOfPairs ((fields.filter (fun f => f.isArr)).map (fun f => (f.fname, f.key)))
  let st0 : BState := ⟨[], [], [], []⟩
  if 0 < arrVars.length && 0 < potLen.length then
    arrVars.foldl (fun st pf => fieldMatchLoop pf.1 pf.2 potLen st) st0
  else st0

/-! The expression constraint resolver
(`ConstraintResolver::getExprConstraintVars`, ConstraintResolver.cpp lines
183-209 and 220-628) on the expression fragment with variable references,
integer literals, string literals and the two cast forms. -/

/-- The resolver's expression fragment.  Each value is one AST node; the
memoization cache is keyed by it. -/
inductive RExpr where
  | varRef (name : String) (ty : CType)
  | intLit (n : Int)
  | strLit (s : String)
  | implicitCast (ty : CType) (sub : RExpr)
  | explicitCast (ty : CType) (sub : RExpr)
  deriving DecidableEq, Repr

/-- Static type of a resolver expression (string literals decay to
`char *` in this fragment). -/
def typeOfR : RExpr → CType
  | .varRef _ ty => ty
  | .intLit _ => .intT
  | .strLit _ => .ptr .charT
  | .implicitCast ty _ => ty
  | .explicitCast ty _ => ty

/-- Whether the node is an `ExplicitCastExpr`. -/
def isExplicitCastE : RExpr → Bool
  | .explicitCast _ _ => true
  | _ => false

/-- Model of clang's `isNULLExpression`: an integer literal 0, possibly
behind casts, is a null pointer constant. -/
def isNULLExprR : RExpr → Bool
  | .intLit n => n == 0
  | .implicitCast _ s => isNULLExprR s
  | .explicitCast _ s => isNULLExprR s
  | _ => false

/-- Printable name of a type, used in the recorded cast reasons. -/
def tyName : CType → String
  | .void => "void"
  | .charT => "char"
  | .intT => "int"
  | .floatT => "float"
  | .ptr t => tyName t ++ " *"

/-- A pointer-shaped constraint variable of the resolver: its atom
sequence, one solver unknown per indirection level. -/
structure RPvc where
  atoms : List Nat
  deriving DecidableEq, Repr

/-- A constraint emitted by the resolver: a `Geq` of an atom against a
constant class with a recorded reason, or a `Same` link between two
atoms. -/
inductive RCon where
  | geqConst (a : Nat) (c : PtrClass) (reason : String)
  | same (a b : Nat)
  deriving DecidableEq, Repr

/-- The resolver-visible analysis state: the persistent expression cache
(`ProgramInfo::hasPersistentConstraints` and friends), the constraint store,
and the fresh-atom counter of `Constraints::getFreshVar`. -/
structure RState where
  memo : List (RExpr × List RPvc)
  cons : List RCon
  fresh : Nat
  deriving DecidableEq, Repr

/-- Modelled from the spec: the constraint store owns a set of constraints
(`Constraints.cpp` is not in the sources; adding an already-present
constraint leaves the set unchanged, so repeated visits generate no
duplicate edges). -/
def insertCon (c : RCon) (st : RState) : RState :=
  if c ∈ st.cons then st else { st with cons := c :: st.cons }

/-- Cache lookup by node identity. -/
def memoLookup (st : RState) (e : RExpr) : Option (List RPvc) :=
  (st.memo.find? (fun q => decide (q.1 = e))).map (fun q => q.2)

/-- Modelled from the spec: the persistent expression-constraint cache
(§3: expression-level constraint variables are cached per expression
identity and are immutable once stored). -/
def memoStore (e : RExpr) (vs : List RPvc) (st : RState) : RState :=
  if (memoLookup st e).isSome then st else { st with memo := (e, vs) :: st.memo }

/-- Number of pointer levels of a type. -/
def ptrDepth : CType → Nat
  | .ptr t => 1 + ptrDepth t
  | _ => 0

/-- A fresh pointer-shaped constraint variable for a type: the
`PVConstraint(QualType, ...)` constructor creates one fresh solver unknown
per pointer level (§3: one atom per indirection level). -/
def freshPvcOfType (ty : CType) (st : RState) : RPvc × RState :=
  let d := ptrDepth ty
  (⟨(List.range d).map (fun i => st.fresh + i)⟩, { st with fresh := st.fresh + d })

/-- `PointerVariableConstraint::constrainToWild`: every atom of the variable
is forced `Wild` with the recorded reason (§4.3). -/
def constrainPvcWild (p : RPvc) (rsn : String) (st : RState) : RState :=
  p.atoms.foldl (fun st a => insertCon (.geqConst a .Wild rsn) st) st

/-- `constraintAllCVarsToWild` (ConstraintResolver.cpp lines 22-42) on a set
of pointer-shaped variables. -/
def constrainAllWild (ps : List RPvc) (rsn : String) (st : RState) : RState :=
  ps.foldl (fun st p => constrainPvcWild p rsn st) st

/-- `constrainConsVarGeq` with the `Same_to_Same` policy between a fresh
variable and the variables of a sub-expression: the atom sequences are
linked level by level (modelled from the spec, §4.5). -/
def constrainSameLink (p : RPvc) (vars : List RPvc) (st : RState) : RState :=
  vars.foldl
    (fun st v => (p.atoms.zip v.atoms).foldl (fun st q => insertCon (.same q.1 q.2) st) st)
    st

/-- `constrainOuterTo`: the outermost atom is constrained against the given
constant class (modelled from the spec, §4.4). -/
def constrainOuter (p : RPvc) (c : PtrClass) (st : RState) : RState :=
  match p.atoms with
  | [] => st
  | a :: _ => insertCon (.geqConst a c "") st

/-- The recorded reason of an invalid cast, built as in
`getInvalidCastPVCons` (lines 202-204) from the sub-expression's type and
the cast's type. -/
def castReason (e : RExpr) : String :=
  let dst := typeOfR e
  let src :=
    match e with
    | .implicitCast _ s => typeOfR s
    | .explicitCast _ s => typeOfR s
    | _ => dst
  "Cast from " ++ tyName src ++ " to " ++ tyName dst

/-- Translation of `ConstraintResolver::getInvalidCastPVCons`
(ConstraintResolver.cpp lines 183-209): cached by node identity; otherwise a
fresh variable of the cast's type is created, wholly forced `Wild` with the
cast reason, stored persistently and returned. -/
def getInvalidCastPVConsR (e : RExpr) (st : RState) : List RPvc × RState :=
  match memoLookup st e with
  | some vs => (vs, st)
  | none =>
    let pr := freshPvcOfType (typeOfR e) st
    let st1 := constrainPvcWild pr.1 (castReason e) pr.2
    let st2 := memoStore e [pr.1] st1
    ([pr.1], st2)

/-- Translation of `ConstraintResolver::getExprConstraintVars`
(ConstraintResolver.cpp lines 220-628) on the embedded fragment.  The
branches, in source order: a node of record or arithmetic type yields the
base non-pointer variable (no atoms); a null expression that is not an
explicit cast yields no variables; an implicit cast recurses and, when it is
an unsafe pointer conversion, forces the sub-expression's variables `Wild`
and returns the invalid-cast variable; a variable reference returns the
declaration's variable; all remaining forms go through the persistent cache,
an explicit unsafe cast yielding the invalid-cast variable without visiting
its sub-expression, a safe explicit cast yielding a fresh rewritable
variable `Same`-linked to the sub-expression's variables, and a string
literal yielding a fresh variable whose outermost atom is constrained
`NTArr`. -/
def resolveExpr (env : String → Option RPvc) (st : RState) (e : RExpr) :
    List RPvc × RState :=
  if isArithTy (typeOfR e) then ([⟨[]⟩], st)
  else if !isExplicitCastE e && isNULLExprR e then ([], st)
  else
    match e with
    | .implicitCast ty2 sub =>
      let rs := resolveExpr env st sub
      if isPtrTy ty2 && !(typeOfR sub == CType.ptr .void) &&
          !isExplicitCastSafe ty2 (typeOfR sub) then
        let st1 := constrainAllWild rs.1 (castReason e) rs.2
        getInvalidCastPVConsR e st1
      else rs
    | .varRef n _ => ((env n).elim [] (fun p => [p]), st)
    | .explicitCast ty2 sub =>
      (match memoLookup st e with
       | some vs => (vs, st)
       | none =>
         let r1 :=
           if !isNULLExprR e && isPtrTy ty2 && !isExplicitCastSafe ty2 (typeOfR sub) then
             getInvalidCastPVConsR e st
           else
             let rs := resolveExpr env st sub
             let pr := freshPvcOfType ty2 rs.2
             let st3 := if !isNULLExprR e then constrainSameLink pr.1 rs.1 pr.2 else pr.2
             ([pr.1], st3)
         (r1.1, memoStore e r1.1 r1.2))
    | .strLit _ =>
      (match memoLookup st e with
       | some vs => (vs, st)
       | none =>
         let pr := freshPvcOfType (.ptr .charT) st
         let st2 := constrainOuter pr.1 .NTArr pr.2
         ([pr.1], memoStore e [pr.1] st2))
    | .intLit _ => ([], st)

/-! The per-declaration constraint-variable registry
(`ProgramInfo::addVariable`, ProgramInfo.cpp lines 683-764). -/

/-- The kind of a constraint variable stored in the `Variables` map. -/
inductive CVKind where
  | fv
  | pv
  deriving DecidableEq, Repr

/-- A declaration as `addVariable` distinguishes them: a function
declaration with its parameter declarations (each parameter carrying its own
source location and whether the created `FVConstraint` has constraint
variables for it), or a variable or field declarator with its type's
pointer-or-array flag. -/
inductive MDecl where
  | funcD (loc : Nat) (params : List (Nat × Bool))
  | varD (loc : Nat) (isPtrOrArr : Bool)

/-- Source location of a declaration (`PersistentSourceLoc::mkPSL`). -/
def declLoc : MDecl → Nat
  | .funcD l _ => l
  | .varD l _ => l

/-- The `ProgramInfo` state relevant to `addVariable`: the `Variables` map
from source locations to the set of constraint variables (each tagged with
its identity and kind), and a counter for fresh constraint-variable
identities. -/
structure PState where
  vars : List (Nat × List (Nat × CVKind))
  freshCV : Nat

/-- The set stored at a location (`Variables[PLoc]`). -/
def lookupVars (st : PState) (l : Nat) : List (Nat × CVKind) :=
  ((st.vars.find? (fun q => q.1 == l)).map (fun q => q.2)).getD []

/-- Insertion of a constraint variable into the set at a location (the
`std::set` inserts; freshly created variables are always new elements). -/
def insertVarAt (st : PState) (l : Nat) (cv : Nat × CVKind) : PState :=
  { st with vars := (l, cv :: lookupVars st l) :: st.vars.filter (fun q => !(q.1 == l)) }

/-- Translation of `ProgramInfo::hasConstraintType` (ProgramInfo.cpp lines
609-617): whether the set contains a variable of the given kind. -/
def hasConstraintType (k : CVKind) (s : List (Nat × CVKind)) : Bool :=
  s.any (fun cv => cv.2 == k)

/-- Insertion of the parameter constraint variables of a freshly created
`FVConstraint` (lines 725-732): each parameter with a nonempty constraint
set has it inserted at the parameter's own source location. -/
def insertParamVars (st : PState) (params : List (Nat × Bool)) (base : Nat) : PState :=
  (params.zip (List.range params.length)).foldl
    (fun st q =>
      if q.1.2 then insertVarAt st q.1.1 (base + 1 + q.2, .pv) else st)
    st

/-- Translation of `ProgramInfo::addVariable` (ProgramInfo.cpp lines
683-764).  For a function declaration, an `FVConstraint` is created and
stored only if the location's set has none, in which case the fresh
function variable's parameter variables are also registered at the
parameters' locations; for a pointer- or array-typed declarator, a
`PVConstraint` is created and stored only if the set has none. -/
def addVariable (st : PState) (d : MDecl) : PState :=
  match d with
  | .funcD loc params =>
    if hasConstraintType .fv (lookupVars st loc) then st
    else
      PState.mk (insertParamVars (insertVarAt st loc (st.freshCV, .fv)) params st.freshCV).vars
        (st.freshCV + 1 + params.length)
  | .varD loc isPtrOrArr =>
    if isPtrOrArr then
      if hasConstraintType .pv (lookupVars st loc) then st
      else PState.mk (insertVarAt st loc (st.freshCV, .pv)).vars (st.freshCV + 1)
    else st

/-- Number of constraint variables of a kind in a set. -/
def countKind (k : CVKind) (s : List (Nat × CVKind)) : Nat :=
  (s.filter (fun cv => cv.2 == k)).length

/-- Source locations of a declaration's parameters. -/
def paramLocs : MDecl → List Nat
  | .funcD _ params => params.map (fun q => q.1)
  | .varD _ _ => []

/-- The atoms mentioned by a resolver constraint. -/
def conAtoms : RCon → List Nat
  | .geqConst a _ _ => [a]
  | .same a b => [a, b]

/-- Structural size of a resolver expression, bounding the cache keys a
resolution can introduce. -/
def rsize : RExpr → Nat
  | .varRef _ _ => 1
  | .intLit _ => 1
  | .strLit _ => 1
  | .implicitCast _ s => rsize s + 1
  | .explicitCast _ s => rsize s + 1

/-- State extension: every cached entry and every stored constraint of the
first state is present in the second. -/
def RExt (s t : RState) : Prop :=
  (∀ e vs, memoLookup s e = some vs → memoLookup t e = some vs) ∧
  (∀ c ∈ s.cons, c ∈ t.cons)

/-! Concrete inputs used by the witness instantiations. -/

/-- The solver fixpoint of the example program's constraint graph. -/
def exFix : Assignment :=
  [(4, .Wild), (3, .Wild), (2, .Wild), (1, .Wild), (0, .Wild)]

/-- A bounds environment with one local variable `n` (bounds key 5) in the
same scope (0) as the assigned array. -/
def c2Env : BEnv :=
  ⟨fun n => if n == "n" then some 5 else none, fun _ => ⟨0, false⟩⟩

/-- The initializer `malloc(n * sizeof(int))`. -/
def c2ExprGood : AExpr := .callA "malloc" [.mulA (.varA "n") (.sizeofA .intT)]

/-- The initializer `malloc(n * sizeof(char))`, whose `sizeof` type does not
match the assigned type `int *`. -/
def c2ExprBad : AExpr := .callA "malloc" [.mulA (.varA "n") (.sizeofA .charT)]

/-- The struct fields `int *data; int count;` of the name-heuristic
example. -/
def c7Fields : List FieldSpec :=
  [⟨"data", 0, false, true⟩, ⟨"count", 1, true, false⟩]

/-- Fields `int *data; int datalen;`: the candidate's name starts with the
array's name and carries a length keyword. -/
def c7FieldsB : List FieldSpec :=
  [⟨"data", 0, false, true⟩, ⟨"datalen", 1, true, false⟩]

/-- Fields `int *data; int dataA; int datalen;`: a keyword-free prefix match
is overwritten by a later keyword-bearing one. -/
def c7FieldsC : List FieldSpec :=
  [⟨"data", 0, false, true⟩, ⟨"dataA", 1, true, false⟩, ⟨"datalen", 2, true, false⟩]

/-- Fields `int *data; int datalen; int dataz;`: the keyword-bearing prefix
match stops the search before the later prefix match. -/
def c7FieldsD : List FieldSpec :=
  [⟨"data", 0, false, true⟩, ⟨"datalen", 1, true, false⟩, ⟨"dataz", 2, true, false⟩]

/-- Parameters `(int *buf, int n)` of the adjacency example: `buf` is an
array needing bounds, `n` an unexcluded integer parameter. -/
def c6Params : List ParamSpec :=
  [⟨"buf", 10, true, false, false, false⟩, ⟨"x", 11, false, false, true, false⟩]

/-- The declaration environment of the resolver examples: one declared
pointer variable `x` of type `char *` whose constraint variable has
atom 5. -/
def c4Env : String → Option RPvc :=
  fun n => if n == "x" then some ⟨[5]⟩ else none

/-- An initial resolver state whose fresh-atom counter is 10. -/
def c4St : RState := ⟨[], [], 10⟩

/-- The unsafe explicit cast `(int *) x` of the resolver examples. -/
def c4ECast : RExpr := .explicitCast (.ptr .intT) (.varRef "x" (.ptr .charT))

/-- The unsafe implicit conversion of `x` to `int *`. -/
def c4ICast : RExpr := .implicitCast (.ptr .intT) (.varRef "x" (.ptr .charT))

/-- A concrete constraint list for the disjoint-set example: atoms 1, 2 and
3 are unioned, atom 3 is directly forced `Wild`, and atom 7 forms a separate
group with 8 and no direct forcing. -/
def c5Edges : List GEdge :=
  [⟨1, .var 2, ""⟩, ⟨3, .const .Wild, "directly forced"⟩, ⟨2, .var 3, ""⟩,
   ⟨7, .var 8, ""⟩, ⟨5, .const .NTArr, "not a wild forcing"⟩]

/-- Two function declarations at location 0 (one with a parameter at
location 1) and a pointer declarator at location 0, for the registry
example. -/
def c10Decls : List MDecl :=
  [.funcD 0 [(1, true)], .funcD 0 [(1, true)], .varD 0 true]

/-- The empty `ProgramInfo` state. -/
def c10St0 : PState := ⟨[], 0⟩

/-- Two atoms are in the same union-find group: they have a common
leader. -/
def sameLeader (m : LeaderMap) (x y : Nat) : Prop :=
  ∃ l, lmLookup m x = some l ∧ lmLookup m y = some l

/-- The union-find invariant: keys are unique and every leader maps to
itself. -/
def DInv (m : LeaderMap) : Prop :=
  (m.map (fun p => p.1)).Nodup ∧ ∀ p ∈ m, (p.2, p.2) ∈ m

/-- A bounds-state transition that does not touch key `K`: the bound and the
statistics memberships of `K` are unchanged. -/
def untouchedAt (K : Nat) (st1 st2 : BState) : Prop :=
  lookupBounds st2 K = lookupBounds st1 K ∧
    (K ∈ st2.neighbourParamMatch ↔ K ∈ st1.neighbourParamMatch) ∧
    (K ∈ st2.namePrefixMatch ↔ K ∈ st1.namePrefixMatch) ∧
    (K ∈ st2.variableNameMatch ↔ K ∈ st1.variableNameMatch)

/-! Theorems.  Each claim of the specification gets one theorem below;
helper lemmas precede them. -/

/-- Membership in the both-direction link list built by `sameLinkAtoms`. -/
theorem mem_pairlink_foldr (l : List (Nat × Nat)) (r : String) (e : GEdge) :
    (e ∈ l.foldr (fun p acc => GEdge.mk p.1 (.var p.2) r :: GEdge.mk p.2 (.var p.1) r :: acc) []) ↔
      ∃ p ∈ l, e = ⟨p.1, .var p.2, r⟩ ∨ e = ⟨p.2, .var p.1, r⟩ := by
  induction l with
  | nil => simp
  | cons x xs ih =>
    simp only [List.foldr_cons, List.mem_cons, ih]
    constructor
    · rintro (rfl | rfl | ⟨p, hp, hc⟩)
      · exact ⟨x, Or.inl rfl, Or.inl rfl⟩
      · exact ⟨x, Or.inl rfl, Or.inr rfl⟩
      · exact ⟨p, Or.inr hp, hc⟩
    · rintro ⟨p, hp | hp, hc⟩
      · subst hp
        tauto
      · exact Or.inr (Or.inr ⟨p, hp, hc⟩)

/-- C9: for every call to `calloc` whose second argument is `sizeof(T)`, a
first argument constant-evaluating to 1 classifies the result as `Ptr` and
anything else as `Arr` (never `NTArr`); and when the second argument is not
a `sizeof` expression the allocator call is unclassified and the call's
result is the wild constraint variable. -/
theorem c9_calloc_classification :
    (∀ (args : List AExpr) (t : CType), 2 ≤ args.length →
      args.getD 1 (.intLitA 0) = .sizeofA t →
      ((evalToInt (args.getD 0 (.intLitA 0)) = some 1 →
          allocatorCallRet "calloc" args = .classified .Ptr (.ptr t)) ∧
        (evalToInt (args.getD 0 (.intLitA 0)) ≠ some 1 →
          allocatorCallRet "calloc" args = .classified .Arr (.ptr t) ∧
            ∀ ty2, allocatorCallRet "calloc" args ≠ .classified .NTArr ty2))) ∧
    (∀ args : List AExpr, 2 ≤ args.length →
      getSizeOfArg (args.getD 1 (.intLitA 0)) = none →
      allocatorCallRet "calloc" args = .wildCV) := by
  constructor
  · intro args t hlen hsz
    match args, hlen with
    | a0 :: a1 :: rest, _ =>
      have e0 : (a0 :: a1 :: rest).getD 0 (.intLitA 0) = a0 := rfl
      have e1 : (a0 :: a1 :: rest).getD 1 (.intLitA 0) = a1 := rfl
      rw [e1] at hsz
      subst hsz
      rw [e0]
      constructor
      · intro h1
        simp [allocatorCallRet, analyzeAllocExpr, getSizeOfArg, e0, e1, h1]
      · intro h1
        have hb : (evalToInt a0 == some 1) = false := by simpa using h1
        constructor
        · simp [allocatorCallRet, analyzeAllocExpr, getSizeOfArg, e0, e1, hb]
        · intro ty2
          simp [allocatorCallRet, analyzeAllocExpr, getSizeOfArg, e0, e1, hb]
  · intro args hlen hns
    match args, hlen with
    | a0 :: a1 :: rest, _ =>
      have e1 : (a0 :: a1 :: rest).getD 1 (.intLitA 0) = a1 := rfl
      rw [e1] at hns
      simp [allocatorCallRet, analyzeAllocExpr, e1, hns]

/-- Witness for C9 at `calloc(1, sizeof(int))`. -/
theorem c9_calloc_classification_witness :
    allocatorCallRet "calloc" [AExpr.intLitA 1, AExpr.sizeofA .intT] =
      .classified .Ptr (.ptr .intT) :=
  (c9_calloc_classification.1 [AExpr.intLitA 1, AExpr.sizeofA .intT] .intT
    (by decide) rfl).1 rfl

/-- C2 counterexample: for `int *p` assigned `malloc(n * sizeof(char))` the
`sizeof` type does not match the assigned element type, and the engine makes
no binding at all — not the `ByteCount(n)` binding the claim states. -/
theorem c2_counterexample :
    handleAllocatorCall c2Env (.ptr .intT) 1 c2ExprBad = none ∧
      handleAllocatorCall c2Env (.ptr .intT) 1 c2ExprBad ≠ some (.byteBound 5) := by
  decide

/-- C2 (amended): for an allocator call decomposing into
`countVar * sizeof(T)`, a matching `sizeof` type binds `ElementCount` of the
count variable's key when the scopes agree or the count is a numeric
constant, and a mismatching `sizeof` type makes no binding at all; in
particular `T *p = malloc(n * sizeof(T))` with `n` a local variable binds
`p` to `ElementCount(n)`. -/
theorem c2_allocator_count_bounds :
    (∀ (env : BEnv) (lhsTy : CType) (lk k : Nat) (nm : String) (t : CType),
      env.varKey nm = some k →
      ((lhsTy = .ptr t →
          handleAllocatorCall env lhsTy lk (.callA "malloc" [.mulA (.varA nm) (.sizeofA t)]) =
            (if (env.progVar lk).scope == (env.progVar k).scope || (env.progVar k).isNumConstant
             then some (.countBound k) else none)) ∧
        (lhsTy ≠ .ptr t →
          handleAllocatorCall env lhsTy lk (.callA "malloc" [.mulA (.varA nm) (.sizeofA t)]) =
            none))) ∧
    handleAllocatorCall c2Env (.ptr .intT) 1 c2ExprGood = some (.countBound 5) := by
  constructor
  · intro env lhsTy lk k nm t hk
    constructor
    · intro hty
      subst hty
      simp [handleAllocatorCall, isAllocatorCall, stripImpCasts, allocatorSizeIdx,
            decomposeSizeArg, baseOk, allocArgLoop, hk]
    · intro hty
      have hb : (lhsTy == CType.ptr t) = false := by simpa using hty
      simp [handleAllocatorCall, isAllocatorCall, stripImpCasts, allocatorSizeIdx,
            decomposeSizeArg, baseOk, allocArgLoop, hk, hb]
  · decide

/-- Witness for C2's amended theorem at the concrete
`int *p = malloc(n * sizeof(int))`. -/
theorem c2_allocator_count_bounds_witness :
    handleAllocatorCall c2Env (.ptr .intT) 1
        (.callA "malloc" [.mulA (.varA "n") (.sizeofA .intT)]) =
      (if (c2Env.progVar 1).scope == (c2Env.progVar 5).scope || (c2Env.progVar 5).isNumConstant
       then some (.countBound 5) else none) :=
  ((c2_allocator_count_bounds.1 c2Env (.ptr .intT) 1 5 "n" .intT rfl).1 rfl)

/-- C3: two bodyless declarations of the same external symbol that both
carry prototypes but disagree on parameter arity have all their return and
parameter atoms forced `Wild` with the descriptive reason, and the linker
emits no other constraint for them beyond equating the return values — no
compromise parameter constraint is guessed. -/
theorem c3_incompatible_arity_forced_wild (p1 p2 : FVCon)
    (h1 : p1.hasBody = false) (h2 : p2.hasBody = false)
    (h3 : p1.hasProto = true) (h4 : p2.hasProto = true)
    (h5 : p1.paramAtoms.length ≠ p2.paramAtoms.length) :
    (∀ a ∈ p1.retAtoms ++ p1.paramAtoms.flatten ++ p2.retAtoms ++ p2.paramAtoms.flatten,
        GEdge.mk a (.const .Wild) ("Return value of function:" ++ p1.fname) ∈
          linkMultiDecls false [p1, p2]) ∧
    (∀ e ∈ linkMultiDecls false [p1, p2],
        e.rhs = .const .Wild ∨
          ∃ a b, a ∈ p1.retAtoms ∧ b ∈ p2.retAtoms ∧
            (e = ⟨a, .var b, ""⟩ ∨ e = ⟨b, .var a, ""⟩)) := by
  have hbeq : (p1.paramAtoms.length == p2.paramAtoms.length) = false := by
    simpa using h5
  have hexp : linkMultiDecls false [p1, p2] =
      sameLinkAtoms p1.retAtoms p2.retAtoms "" ++
        (constrainFVAllWild p1 ("Return value of function:" ++ p1.fname) ++
          constrainFVAllWild p2 ("Return value of function:" ++ p1.fname)) := by
    simp [linkMultiDecls, linkDeclsLoop, h1, h2, h3, h4, hbeq]
  constructor
  · intro a ha
    rw [hexp]
    have hmem : a ∈ p1.retAtoms ++ p1.paramAtoms.flatten ∨
        a ∈ p2.retAtoms ++ p2.paramAtoms.flatten := by
      simp only [List.mem_append] at ha ⊢
      tauto
    rcases hmem with hmem | hmem
    · exact List.mem_append_right _ (List.mem_append_left _
        (List.mem_map.2 ⟨a, hmem, rfl⟩))
    · exact List.mem_append_right _ (List.mem_append_right _
        (List.mem_map.2 ⟨a, hmem, rfl⟩))
  · intro e he
    rw [hexp] at he
    rcases List.mem_append.1 he with he | he
    · rcases (mem_pairlink_foldr _ _ _).1 he with ⟨p, hp, hcase⟩
      have hcomp := List.of_mem_zip hp
      exact Or.inr ⟨p.1, p.2, hcomp.1, hcomp.2, hcase⟩
    · rcases List.mem_append.1 he with he | he <;>
      · rcases List.mem_map.1 he with ⟨a, _, rfl⟩
        exact Or.inl rfl

/-- Witness for C3 at two concrete incompatible bodyless declarations. -/
theorem c3_incompatible_arity_forced_wild_witness :
    GEdge.mk 21 (.const .Wild) ("Return value of function:" ++ "g") ∈
      linkMultiDecls false [⟨"g", [20], [[21]], false, true⟩, ⟨"g", [22], [[23], [24]], false, true⟩] :=
  (c3_incompatible_arity_forced_wild ⟨"g", [20], [[21]], false, true⟩
      ⟨"g", [22], [[23], [24]], false, true⟩ rfl rfl rfl rfl (by decide)).1 21 (by decide)

/-- Splitting a pass count of the solver. -/
theorem solveN_add (edges : List GEdge) (m n : Nat) (A : Assignment) :
    solveN (m + n) edges A = solveN n edges (solveN m edges A) := by
  induction m generalizing A with
  | zero => simp [solveN]
  | succ m ih =>
    have h : m + 1 + n = (m + n) + 1 := by omega
    rw [h]
    show solveN (m + n) edges (solveStep edges A) = _
    rw [ih (solveStep edges A)]
    rfl

/-- A solver fixpoint is preserved by further passes. -/
theorem solveN_fixed (edges : List GEdge) (A : Assignment)
    (h : solveStep edges A = A) : ∀ n, solveN n edges A = A := by
  intro n
  induction n with
  | zero => rfl
  | succ n ih =>
    show solveN n edges (solveStep edges A) = A
    rw [h, ih]

/-- Membership in the linker's wild forcings for an unresolved external
symbol: any forcing produced for one symbol's declaration set is in the
output. -/
theorem mem_linkExternWild (ext : List (String × Bool))
    (decls : List (String × List FVCon)) (u : String) (g : FVCon) (e : GEdge)
    (hu : (u, false) ∈ ext) (hok : isExternOkay u = false)
    (hg : g ∈ lookupDecls decls u)
    (he : e ∈ constrainFVRetWild u g ++ constrainFVParamsWild g) :
    e ∈ linkExternWild ext decls := by
  induction ext with
  | nil => cases hu
  | cons x rest ih =>
    rcases List.mem_cons.1 hu with rfl | hu2
    · have hcond : (false == false && isExternOkay u == false) = true := by
        simp [hok]
      simp only [linkExternWild, List.foldr_cons, hcond, if_pos]
      refine List.mem_append_left _ ?_
      clear ih hu
      generalize lookupDecls decls u = L at hg ⊢
      revert hg
      induction L with
      | nil => intro hg; cases hg
      | cons g2 gs ih2 =>
        intro hg
        rcases List.mem_cons.1 hg with rfl | hg2
        · exact List.mem_append_left _ he
        · exact List.mem_append_right _ (ih2 hg2)
    · have hmem := ih hu2
      simp only [linkExternWild, List.foldr_cons]
      by_cases hx : (x.2 == false && isExternOkay x.1 == false) = true
      · rw [if_pos hx]
        exact List.mem_append_right _ hmem
      · rw [if_neg hx]
        exact hmem

/-- C1: linking forces the return and parameter constraint-variable atoms
of every declared-but-undefined global function not on the recognized-safe
list to `Wild` with a recorded reason; consequently, in the program
`char *strcpy(char *dst, const char *src); void f(char *p)
{ strcpy(p, "hi"); }`, the parameter `p` of `f` (atom 3) is resolved `Wild`,
and the forcing of `strcpy`'s parameter carries its recorded reason. -/
theorem c1_extern_wild_propagation :
    (∀ (ext : List (String × Bool)) (decls : List (String × List FVCon))
        (u : String) (g : FVCon),
      (u, false) ∈ ext → isExternOkay u = false → g ∈ lookupDecls decls u →
      ((∀ a ∈ g.retAtoms,
          GEdge.mk a (.const .Wild) ("Return value of an external function:" ++ u) ∈
            linkExternWild ext decls) ∧
        (∀ a ∈ g.paramAtoms.flatten,
          GEdge.mk a (.const .Wild) "Inner pointer of a parameter to external function." ∈
            linkExternWild ext decls))) ∧
    solve exampleProgramEdges 3 = .Wild ∧
    GEdge.mk 1 (.const .Wild) "Inner pointer of a parameter to external function." ∈
      exampleProgramEdges := by
  refine ⟨?_, ?_, by decide⟩
  · intro ext decls u g hu hok hg
    constructor
    · intro a ha
      refine mem_linkExternWild ext decls u g _ hu hok hg ?_
      exact List.mem_append_left _ (List.mem_map.2 ⟨a, ha, rfl⟩)
    · intro a ha
      refine mem_linkExternWild ext decls u g _ hu hok hg ?_
      exact List.mem_append_right _ (List.mem_map.2 ⟨a, ha, rfl⟩)
  · have hlen : exampleProgramEdges.length = 8 := by decide
    have h2 : solveN 2 exampleProgramEdges [] = exFix := by decide
    have hfix : solveStep exampleProgramEdges exFix = exFix := by decide
    have h36 : 4 * exampleProgramEdges.length + 4 = 2 + 34 := by rw [hlen]
    show lookupA (solveN (4 * exampleProgramEdges.length + 4) exampleProgramEdges []) 3 = .Wild
    rw [h36, solveN_add, h2, solveN_fixed _ _ hfix]
    decide

/-- Witness for C1 at the example program's `strcpy` declaration. -/
theorem c1_extern_wild_propagation_witness :
    GEdge.mk 1 (.const .Wild) "Inner pointer of a parameter to external function." ∈
      linkExternWild exampleExterns exampleDeclCons :=
  (c1_extern_wild_propagation.1 exampleExterns exampleDeclCons "strcpy" strcpyFV
    (by decide) (by decide) (by decide)).2 1 (by decide)

/-- Filtering out the entries of one key does not change the first entry
found for a different key. -/
theorem find?_key_filter {α : Type} (vs : List (Nat × α)) (l loc : Nat) (hne : loc ≠ l) :
    (vs.filter (fun q => !(q.1 == l))).find? (fun q => q.1 == loc) =
      vs.find? (fun q => q.1 == loc) := by
  induction vs with
  | nil => rfl
  | cons v rest ih =>
    by_cases hv : v.1 = l
    · have h1 : (v.1 == l) = true := by simp [hv]
      have h2 : (v.1 == loc) = false := by simp [hv, Ne.symm hne]
      simp [List.filter_cons, h1, List.find?_cons, h2, ih]
    · have h1 : (v.1 == l) = false := by simp [hv]
      by_cases hl : v.1 = loc
      · have h2 : (v.1 == loc) = true := by simp [hl]
        simp [List.filter_cons, h1, List.find?_cons, h2]
      · have h2 : (v.1 == loc) = false := by simp [hl]
        simp [List.filter_cons, h1, List.find?_cons, h2, ih]

/-- The registry entry at a location after an insertion. -/
theorem lookupVars_insertVarAt (st : PState) (l : Nat) (x : Nat × CVKind) (loc : Nat) :
    lookupVars (insertVarAt st l x) loc =
      if loc = l then x :: lookupVars st l else lookupVars st loc := by
  by_cases h : loc = l
  · subst h
    simp [lookupVars, insertVarAt, List.find?_cons]
  · have h2 : (l == loc) = false := by simp [Ne.symm h]
    simp only [lookupVars, insertVarAt, List.find?_cons, h2, if_neg h]
    rw [find?_key_filter _ _ _ h]

/-- A recorded constraint variable survives any insertion. -/
theorem hasConstraintType_insertVarAt (st : PState) (l : Nat) (x : Nat × CVKind)
    (loc : Nat) (k : CVKind)
    (h : hasConstraintType k (lookupVars st loc) = true) :
    hasConstraintType k (lookupVars (insertVarAt st l x) loc) = true := by
  by_cases hl : loc = l
  · subst hl
    rw [lookupVars_insertVarAt, if_pos rfl]
    simp only [hasConstraintType, List.any_cons, Bool.or_eq_true]
    right
    simpa [hasConstraintType] using h
  · rw [lookupVars_insertVarAt, if_neg hl]
    exact h

/-- A recorded constraint variable survives the parameter insertions. -/
theorem hasConstraintType_insertParamVars (params : List (Nat × Bool)) (st : PState)
    (base loc : Nat) (k : CVKind)
    (h : hasConstraintType k (lookupVars st loc) = true) :
    hasConstraintType k (lookupVars (insertParamVars st params base) loc) = true := by
  unfold insertParamVars
  generalize params.zip (List.range params.length) = pz
  induction pz generalizing st with
  | nil => exact h
  | cons q rest ih =>
    simp only [List.foldl_cons]
    by_cases hq : q.1.2 = true
    · rw [if_pos hq]
      exact ih _ (hasConstraintType_insertVarAt _ _ _ _ _ h)
    · rw [if_neg hq]
      exact ih _ h

/-- The registry entry at a location is untouched by parameter insertions at
other locations. -/
theorem lookupVars_insertParamVars_ne (params : List (Nat × Bool)) (st : PState)
    (base loc : Nat) (h : ∀ q ∈ params, q.1 ≠ loc) :
    lookupVars (insertParamVars st params base) loc = lookupVars st loc := by
  unfold insertParamVars
  have h2 : ∀ q ∈ params.zip (List.range params.length), q.1.1 ≠ loc := by
    intro q hq
    exact h q.1 (List.of_mem_zip hq).1
  generalize params.zip (List.range params.length) = pz at h2
  induction pz generalizing st with
  | nil => rfl
  | cons q rest ih =>
    simp only [List.foldl_cons]
    have hq : q.1.1 ≠ loc := h2 q (List.mem_cons_self _ _)
    have hrest : ∀ r ∈ rest, r.1.1 ≠ loc := fun r hr => h2 r (List.mem_cons_of_mem _ hr)
    by_cases hb : q.1.2 = true
    · rw [if_pos hb, ih _ hrest]
      rw [lookupVars_insertVarAt, if_neg (Ne.symm hq)]
    · rw [if_neg hb]
      exact ih _ hrest

/-- An absent kind has count zero. -/
theorem countKind_eq_zero (k : CVKind) (s : List (Nat × CVKind)) :
    hasConstraintType k s = false → countKind k s = 0 := by
  induction s with
  | nil => intro _; rfl
  | cons x rest ih =>
    intro h
    simp only [hasConstraintType, List.any_cons, Bool.or_eq_false_iff] at h
    have hr : countKind k rest = 0 := ih h.2
    simp only [countKind, List.filter_cons, h.1]
    simpa [countKind] using hr

/-- Count of a kind after adding one variable. -/
theorem countKind_cons (k : CVKind) (x : Nat × CVKind) (s : List (Nat × CVKind)) :
    countKind k (x :: s) = countKind k s + if x.2 = k then 1 else 0 := by
  by_cases h : x.2 = k
  · have hb : (x.2 == k) = true := by simp [h]
    simp [countKind, List.filter_cons, hb, h]
  · have hb : (x.2 == k) = false := by simp [h]
    simp [countKind, List.filter_cons, hb, h]

/-- Rebuilding the state with a new fresh counter does not change the
registry. -/
theorem lookupVars_remake (v : PState) (n : Nat) (loc : Nat) :
    lookupVars ⟨v.vars, n⟩ loc = lookupVars v loc := rfl

/-- One `addVariable` call preserves the at-most-one-per-kind bound at its
own location when its parameters live elsewhere. -/
theorem c10_step (st : PState) (d : MDecl) (L : Nat)
    (hL : declLoc d = L) (hp : ∀ q ∈ paramLocs d, q ≠ L)
    (h1 : countKind .fv (lookupVars st L) ≤ 1)
    (h2 : countKind .pv (lookupVars st L) ≤ 1) :
    countKind .fv (lookupVars (addVariable st d) L) ≤ 1 ∧
      countKind .pv (lookupVars (addVariable st d) L) ≤ 1 := by
  cases d with
  | funcD loc params =>
    have hloc : loc = L := hL
    subst hloc
    by_cases hfv : hasConstraintType .fv (lookupVars st loc) = true
    · rw [addVariable, if_pos hfv]
      exact ⟨h1, h2⟩
    · rw [Bool.not_eq_true] at hfv
      rw [addVariable, if_neg (by rw [hfv]; exact Bool.false_ne_true)]
      have hparams : ∀ q ∈ params, q.1 ≠ loc := fun q hq => hp q.1 (List.mem_map_of_mem _ hq)
      rw [lookupVars_remake, lookupVars_insertParamVars_ne _ _ _ _ hparams,
        lookupVars_insertVarAt, if_pos rfl, countKind_cons, countKind_cons,
        countKind_eq_zero _ _ hfv]
      constructor
      · simp
      · simpa using h2
  | varD loc isPtr =>
    have hloc : loc = L := hL
    subst hloc
    cases isPtr with
    | false => exact ⟨h1, h2⟩
    | true =>
      by_cases hpv : hasConstraintType .pv (lookupVars st loc) = true
      · rw [addVariable, if_pos rfl, if_pos hpv]
        exact ⟨h1, h2⟩
      · rw [Bool.not_eq_true] at hpv
        rw [addVariable, if_pos rfl, if_neg (by rw [hpv]; exact Bool.false_ne_true)]
        rw [lookupVars_remake, lookupVars_insertVarAt, if_pos rfl, countKind_cons,
          countKind_cons, countKind_eq_zero _ _ hpv]
        constructor
        · simpa using h1
        · simp

/-- The fold of `addVariable` over declarations at one location keeps both
per-kind counts at most one. -/
theorem c10_fold (ds : List MDecl) (L : Nat) :
    ∀ st0 : PState,
      (∀ d ∈ ds, declLoc d = L) →
      (∀ d ∈ ds, ∀ q ∈ paramLocs d, q ≠ L) →
      countKind .fv (lookupVars st0 L) ≤ 1 →
      countKind .pv (lookupVars st0 L) ≤ 1 →
      countKind .fv (lookupVars (ds.foldl addVariable st0) L) ≤ 1 ∧
        countKind .pv (lookupVars (ds.foldl addVariable st0) L) ≤ 1 := by
  induction ds with
  | nil => intro st0 _ _ hh1 hh2; exact ⟨hh1, hh2⟩
  | cons d rest ih =>
    intro st0 hLs hps hh1 hh2
    simp only [List.foldl_cons]
    have hstep := c10_step st0 d L (hLs d (List.mem_cons_self _ _))
      (hps d (List.mem_cons_self _ _)) hh1 hh2
    exact ih _ (fun d2 h2 => hLs d2 (List.mem_cons_of_mem _ h2))
      (fun d2 h2 => hps d2 (List.mem_cons_of_mem _ h2)) hstep.1 hstep.2

/-- C10: a repeated `addVariable` call with the same declaration leaves the
state unchanged, and any sequence of `addVariable` calls with declarations
at one location (each parameter living at another location) leaves at most
one function-shaped and at most one pointer-shaped constraint variable in
that location's entry of the `Variables` map. -/
theorem c10_addVariable_at_most_one :
    (∀ (st : PState) (d : MDecl), addVariable (addVariable st d) d = addVariable st d) ∧
    (∀ (ds : List MDecl) (st0 : PState) (L : Nat),
      lookupVars st0 L = [] →
      (∀ d ∈ ds, declLoc d = L) →
      (∀ d ∈ ds, ∀ q ∈ paramLocs d, q ≠ L) →
      countKind .fv (lookupVars (ds.foldl addVariable st0) L) ≤ 1 ∧
        countKind .pv (lookupVars (ds.foldl addVariable st0) L) ≤ 1) := by
  constructor
  · intro st d
    cases d with
    | funcD loc params =>
      by_cases hfv : hasConstraintType .fv (lookupVars st loc) = true
      · have hinner : addVariable st (.funcD loc params) = st := by
          rw [addVariable, if_pos hfv]
        rw [hinner]
        exact hinner
      · rw [Bool.not_eq_true] at hfv
        have hinner : addVariable st (.funcD loc params) = PState.mk
            (insertParamVars (insertVarAt st loc (st.freshCV, .fv)) params st.freshCV).vars
            (st.freshCV + 1 + params.length) := by
          rw [addVariable, if_neg (by rw [hfv]; exact Bool.false_ne_true)]
        rw [hinner]
        have hfv2 : hasConstraintType .fv
            (lookupVars (PState.mk
              (insertParamVars (insertVarAt st loc (st.freshCV, .fv)) params st.freshCV).vars
              (st.freshCV + 1 + params.length)) loc) = true := by
          rw [lookupVars_remake]
          refine hasConstraintType_insertParamVars _ _ _ _ _ ?_
          rw [lookupVars_insertVarAt, if_pos rfl]
          simp [hasConstraintType]
        rw [addVariable, if_pos hfv2]
    | varD loc isPtr =>
      cases isPtr with
      | false => rfl
      | true =>
        by_cases hpv : hasConstraintType .pv (lookupVars st loc) = true
        · have hinner : addVariable st (.varD loc true) = st := by
            rw [addVariable, if_pos rfl, if_pos hpv]
          rw [hinner]
          exact hinner
        · rw [Bool.not_eq_true] at hpv
          have hinner : addVariable st (.varD loc true) = PState.mk
              (insertVarAt st loc (st.freshCV, .pv)).vars (st.freshCV + 1) := by
            rw [addVariable, if_pos rfl, if_neg (by rw [hpv]; exact Bool.false_ne_true)]
          rw [hinner]
          have hpv2 : hasConstraintType .pv
              (lookupVars (PState.mk (insertVarAt st loc (st.freshCV, .pv)).vars
                (st.freshCV + 1)) loc) = true := by
            rw [lookupVars_remake, lookupVars_insertVarAt, if_pos rfl]
            simp [hasConstraintType]
          rw [addVariable, if_pos rfl, if_pos hpv2]
  · intro ds st0 L h0 hLs hps
    refine c10_fold ds L st0 hLs hps ?_ ?_ <;>
      rw [h0] <;> simp [countKind]

/-- Witness for C10 at two function declarations and a pointer declarator at
location 0. -/
theorem c10_addVariable_at_most_one_witness :
    countKind .fv (lookupVars (c10Decls.foldl addVariable c10St0) 0) ≤ 1 ∧
      countKind .pv (lookupVars (c10Decls.foldl addVariable c10St0) 0) ≤ 1 :=
  c10_addVariable_at_most_one.2 c10Decls c10St0 0 (by decide)
    (by intro d hd; fin_cases hd <;> rfl)
    (by intro d hd; fin_cases hd <;> decide)

/-- Membership in an ordered-set insertion. -/
theorem mem_insertPairSorted (x y : String × Nat) (l : List (String × Nat)) :
    x ∈ insertPairSorted y l ↔ x = y ∨ x ∈ l := by
  induction l with
  | nil => simp [insertPairSorted]
  | cons z rest ih =>
    by_cases hb : pairBelow y z = true
    · simp [insertPairSorted, hb, List.mem_cons]
    · by_cases he : (y == z) = true
      · have hyz : y = z := by simpa using he
        subst hyz
        simp [insertPairSorted, hb, List.mem_cons]
      · simp only [insertPairSorted, hb, Bool.false_eq_true, if_false, he, List.mem_cons, ih]
        tauto

/-- Membership in the ordered set built from a list. -/
theorem mem_setOfPairs (x : String × Nat) (l : List (String × Nat)) :
    x ∈ setOfPairs l ↔ x ∈ l := by
  have haux : ∀ (l2 : List (String × Nat)) (acc : List (String × Nat)),
      x ∈ l2.foldl (fun acc y => insertPairSorted y acc) acc ↔ x ∈ acc ∨ x ∈ l2 := by
    intro l2
    induction l2 with
    | nil => intro acc; simp
    | cons y rest ih =>
      intro acc
      simp only [List.foldl_cons, ih, mem_insertPairSorted, List.mem_cons]
      tauto
  simpa using haux l []

/-- The candidate loop binds nothing when no candidate name starts with the
array field's name. -/
theorem fieldMatchLoop_no_match (arrName : String) (akey : Nat)
    (lens : List (String × Nat)) (st : BState)
    (h : ∀ q ∈ lens, hasNameMatch arrName q.1 = false) :
    fieldMatchLoop arrName akey lens st = st := by
  induction lens with
  | nil => rfl
  | cons q rest ih =>
    have hq := h q (List.mem_cons_self _ _)
    simp only [fieldMatchLoop, hq, Bool.false_eq_true, if_false]
    exact ih (fun r hr => h r (List.mem_cons_of_mem _ hr))

/-- Replacing another key's bound does not change a lookup. -/
theorem lookupBounds_replace_ne (st : BState) (k : Nat) (b : ABounds) (K : Nat)
    (h : K ≠ k) : lookupBounds (replaceBounds st k b) K = lookupBounds st K := by
  have hb : (k == K) = false := by simp [Ne.symm h]
  simp only [lookupBounds, replaceBounds, List.find?_cons, hb]
  rw [find?_key_filter _ _ _ h]

/-- The candidate loop only ever writes its own array key. -/
theorem fieldMatchLoop_lookup_ne (arrName : String) (akey : Nat)
    (lens : List (String × Nat)) (K : Nat) (h : akey ≠ K) :
    ∀ st : BState, lookupBounds (fieldMatchLoop arrName akey lens st) K = lookupBounds st K := by
  induction lens with
  | nil => intro st; rfl
  | cons q rest ih =>
    intro st
    by_cases h1 : hasNameMatch arrName q.1 = true
    · by_cases h2 : hasLengthKeyword q.1 = true
      · simp only [fieldMatchLoop, h1, h2, if_true]
        show lookupBounds (replaceBounds st akey (.countBound q.2)) K = _
        exact lookupBounds_replace_ne _ _ _ _ (Ne.symm h)
      · rw [Bool.not_eq_true] at h2
        simp only [fieldMatchLoop, h1, h2, if_true, Bool.false_eq_true, if_false]
        rw [ih]
        show lookupBounds (replaceBounds st akey (.countBound q.2)) K = _
        exact lookupBounds_replace_ne _ _ _ _ (Ne.symm h)
    · rw [Bool.not_eq_true] at h1
      simp only [fieldMatchLoop, h1, Bool.false_eq_true, if_false]
      exact ih st

/-- C7 counterexample: for the struct `int *data; int count;` the engine
binds nothing at all — in particular not the `ElementCount(count)` binding
the claim states. -/
theorem c7_counterexample :
    lookupBounds (visitRecordDecl c7Fields) 0 ≠ some (.countBound 1) ∧
      lookupBounds (visitRecordDecl c7Fields) 0 = none ∧
      (visitRecordDecl c7Fields).bounds = [] := by
  refine ⟨?_, by decide, by decide⟩
  decide

/-- C7 (amended): the struct-field keyword-match rule is disabled (commented
out in the source): a struct-field binding happens only for a candidate
whose name starts with the array field's name, so `int *data; int count;`
gets no binding; among prefix-matching candidates, one that also carries a
length keyword is final (it stops the search), while a keyword-free prefix
match can be overwritten by a later candidate. -/
theorem c7_field_heuristics :
    (∀ (fields : List FieldSpec) (f : FieldSpec),
      f ∈ fields → f.isArr = true → (fields.map (fun g => g.key)).Nodup →
      (∀ g ∈ fields, g.isInt = true → hasNameMatch f.fname g.fname = false) →
      lookupBounds (visitRecordDecl fields) f.key = none) ∧
    lookupBounds (visitRecordDecl c7FieldsB) 0 = some (.countBound 1) ∧
    lookupBounds (visitRecordDecl c7FieldsC) 0 = some (.countBound 2) ∧
    lookupBounds (visitRecordDecl c7FieldsD) 0 = some (.countBound 1) := by
  refine ⟨?_, by decide, by decide, by decide⟩
  intro fields f hf hfa hnd hno
  rw [visitRecordDecl]
  by_cases hguard : (0 < (setOfPairs ((fields.filter (fun f => f.isArr)).map
      (fun f => (f.fname, f.key)))).length &&
      0 < (setOfPairs ((fields.filter (fun f => f.isInt)).map
      (fun f => (f.fname, f.key)))).length) = true
  · rw [if_pos hguard]
    generalize hA : setOfPairs ((fields.filter (fun f => f.isArr)).map
      (fun f => (f.fname, f.key))) = arrVars at hguard ⊢
    have hstep : ∀ (l : List (String × Nat)), (∀ pf ∈ l, pf ∈ arrVars) →
        ∀ st : BState, lookupBounds st f.key = none →
        lookupBounds (l.foldl (fun st pf => fieldMatchLoop pf.1 pf.2
          (setOfPairs ((fields.filter (fun f => f.isInt)).map (fun f => (f.fname, f.key)))) st) st)
          f.key = none := by
      intro l
      induction l with
      | nil => intro _ st hst; exact hst
      | cons pf rest ih =>
        intro hl st hst
        simp only [List.foldl_cons]
        refine ih (fun r hr => hl r (List.mem_cons_of_mem _ hr)) _ ?_
        by_cases hk : pf.2 = f.key
        · have hpf : pf ∈ arrVars := hl pf (List.mem_cons_self _ _)
          rw [← hA] at hpf
          rw [mem_setOfPairs] at hpf
          rcases List.mem_map.1 hpf with ⟨g, hgmem, hgeq⟩
          have hgf : g ∈ fields := List.mem_of_mem_filter hgmem
          have hkey : g.key = f.key := by rw [← hgeq] at hk; exact hk
          have hgef : g = f := by
            exact List.inj_on_of_nodup_map hnd hgf hf hkey
          subst hgef
          rw [fieldMatchLoop_no_match]
          · exact hst
          · intro q hq
            rw [mem_setOfPairs] at hq
            rcases List.mem_map.1 hq with ⟨g2, hg2mem, hg2eq⟩
            have hg2f : g2 ∈ fields := List.mem_of_mem_filter hg2mem
            have hg2int : g2.isInt = true := by
              have := List.of_mem_filter hg2mem
              simpa using this
            have hq1 : q.1 = g2.fname := by rw [← hg2eq]
            rw [← hgeq, hq1]
            exact hno g2 hg2f hg2int
        · rw [fieldMatchLoop_lookup_ne _ _ _ _ hk]
          exact hst
    exact hstep arrVars (fun pf h => h) _ (by rfl)
  · rw [if_neg hguard]
    rfl

/-- Witness for C7's amended theorem at the struct `int *data; int count;`. -/
theorem c7_field_heuristics_witness :
    lookupBounds (visitRecordDecl c7Fields) 0 = none :=
  c7_field_heuristics.1 c7Fields ⟨"data", 0, false, true⟩ (by decide) rfl (by decide)
    (by intro g hg hint; fin_cases hg <;> revert hint <;> decide)

/-- `untouchedAt` is reflexive. -/
theorem untouchedAt_refl (K : Nat) (st : BState) : untouchedAt K st st :=
  ⟨rfl, Iff.rfl, Iff.rfl, Iff.rfl⟩

/-- `untouchedAt` composes. -/
theorem untouchedAt_trans {K : Nat} {s1 s2 s3 : BState}
    (h1 : untouchedAt K s1 s2) (h2 : untouchedAt K s2 s3) : untouchedAt K s1 s3 :=
  ⟨h2.1.trans h1.1, h2.2.1.trans h1.2.1, h2.2.2.1.trans h1.2.2.1,
    h2.2.2.2.trans h1.2.2.2⟩

/-- Other keys are untouched by a `replaceBounds`. -/
theorem untouchedAt_replaceBounds (K k : Nat) (b : ABounds) (h : k ≠ K) (st : BState) :
    untouchedAt K st (replaceBounds st k b) :=
  ⟨lookupBounds_replace_ne st k b K (Ne.symm h), Iff.rfl, Iff.rfl, Iff.rfl⟩

/-- Other keys are untouched by the `NeighbourParamMatch` statistic. -/
theorem untouchedAt_addNeighbour (K k : Nat) (h : k ≠ K) (st : BState) :
    untouchedAt K st (addNeighbourStat st k) := by
  refine ⟨rfl, ?_, Iff.rfl, Iff.rfl⟩
  show K ∈ k :: st.neighbourParamMatch ↔ _
  simp [List.mem_cons, Ne.symm h]

/-- Other keys are untouched by the `NamePrefixMatch` statistic. -/
theorem untouchedAt_addNamePrefix (K k : Nat) (h : k ≠ K) (st : BState) :
    untouchedAt K st (addNamePrefixStat st k) := by
  refine ⟨rfl, Iff.rfl, ?_, Iff.rfl⟩
  show K ∈ k :: st.namePrefixMatch ↔ _
  simp [List.mem_cons, Ne.symm h]

/-- Other keys are untouched by the `VariableNameMatch` statistic. -/
theorem untouchedAt_addVariableName (K k : Nat) (h : k ≠ K) (st : BState) :
    untouchedAt K st (addVariableNameStat st k) := by
  refine ⟨rfl, Iff.rfl, Iff.rfl, ?_⟩
  show K ∈ k :: st.variableNameMatch ↔ _
  simp [List.mem_cons, Ne.symm h]

/-- The name-correspondence loop of another array parameter leaves `K`
untouched. -/
theorem nameMatchLoop_untouched (arrName : String) (akey K : Nat) (h : akey ≠ K)
    (lps : List (Nat × String × Nat)) :
    ∀ (st : BState) (fl : Bool),
      untouchedAt K st (nameMatchLoop arrName akey lps st fl).1 := by
  induction lps with
  | nil => intro st fl; exact untouchedAt_refl K st
  | cons q rest ih =>
    intro st fl
    by_cases h1 : hasNameMatch arrName q.2.1 = true
    · simp only [nameMatchLoop, h1, if_true]
      exact untouchedAt_trans (untouchedAt_replaceBounds K akey _ h st)
        (untouchedAt_addNamePrefix K akey h _)
    · rw [Bool.not_eq_true] at h1
      by_cases h2 : nameSubStringMatch arrName q.2.1 = true
      · simp only [nameMatchLoop, h1, Bool.false_eq_true, if_false, h2, if_true]
        exact untouchedAt_trans
          (untouchedAt_trans (untouchedAt_replaceBounds K akey _ h st)
            (untouchedAt_addNamePrefix K akey h _)) (ih _ _)
      · rw [Bool.not_eq_true] at h2
        simp only [nameMatchLoop, h1, Bool.false_eq_true, if_false, h2]
        exact ih st fl

/-- The keyword fallback loop of another array parameter leaves `K`
untouched. -/
theorem keywordMatchLoop_untouched (akey K : Nat) (h : akey ≠ K)
    (lps : List (Nat × String × Nat)) (st : BState) :
    untouchedAt K st (keywordMatchLoop akey lps st).1 := by
  have haux : ∀ (l : List (Nat × String × Nat)) (z : BState × Bool),
      untouchedAt K z.1 (l.foldl (fun acc q =>
        if fieldNameMatch q.2.1 then
          (addVariableNameStat (replaceBounds acc.1 akey (.countBound q.2.2)) akey, true)
        else acc) z).1 := by
    intro l
    induction l with
    | nil => intro z; exact untouchedAt_refl K z.1
    | cons q rest ih =>
      intro z
      by_cases h1 : fieldNameMatch q.2.1 = true
      · simp only [List.foldl_cons, h1, if_true]
        refine untouchedAt_trans ?_ (ih _)
        exact untouchedAt_trans (untouchedAt_replaceBounds K akey _ h z.1)
          (untouchedAt_addVariableName K akey h _)
      · rw [Bool.not_eq_true] at h1
        simp only [List.foldl_cons, h1, Bool.false_eq_true, if_false]
        exact ih z
  exact haux lps (st, false)

/-- One array-parameter step for another parameter leaves `K` untouched. -/
theorem arrParamStep_untouched (lps : List (Nat × String × Nat)) (K : Nat)
    (e : Nat × String × Nat) (h : e.2.2 ≠ K) (st : BState) :
    untouchedAt K st (arrParamStep lps st e) := by
  rw [arrParamStep]
  cases hL : lengthAt lps (e.1 + 1) with
  | some pr =>
    exact untouchedAt_trans (untouchedAt_replaceBounds K e.2.2 _ h st)
      (untouchedAt_addNeighbour K e.2.2 h _)
  | none =>
    have h1 := nameMatchLoop_untouched e.2.1 e.2.2 K h lps st false
    by_cases h2 : (nameMatchLoop e.2.1 e.2.2 lps st false).2 = true
    · simp only [h2, if_true]
      exact h1
    · rw [Bool.not_eq_true] at h2
      simp only [h2, Bool.false_eq_true, if_false]
      exact untouchedAt_trans h1 (keywordMatchLoop_untouched e.2.2 K h lps _)

/-- One NT-array step for another parameter leaves `K` untouched. -/
theorem ntArrParamStep_untouched (lps : List (Nat × String × Nat)) (K : Nat)
    (e : Nat × String × Nat) (h : e.2.2 ≠ K) (st : BState) :
    untouchedAt K st (ntArrParamStep lps st e) := by
  rw [ntArrParamStep]
  cases hL : lengthAt lps (e.1 + 1) with
  | some pr =>
    by_cases h1 : fieldNameMatch pr.1 = true
    · simp only [h1, if_true]
      exact untouchedAt_trans (untouchedAt_replaceBounds K e.2.2 _ h st)
        (untouchedAt_addVariableName K e.2.2 h _)
    · rw [Bool.not_eq_true] at h1
      simp only [h1, Bool.false_eq_true, if_false]
      exact untouchedAt_refl K st
  | none => exact untouchedAt_refl K st

/-- A fold of array-parameter steps over entries with other keys leaves `K`
untouched. -/
theorem foldl_arrParamStep_untouched (lps : List (Nat × String × Nat)) (K : Nat)
    (l : List (Nat × String × Nat)) (h : ∀ e ∈ l, e.2.2 ≠ K) :
    ∀ st : BState, untouchedAt K st (l.foldl (arrParamStep lps) st) := by
  induction l with
  | nil => intro st; exact untouchedAt_refl K st
  | cons e rest ih =>
    intro st
    simp only [List.foldl_cons]
    exact untouchedAt_trans (arrParamStep_untouched lps K e (h e (List.mem_cons_self _ _)) st)
      (ih (fun e2 h2 => h e2 (List.mem_cons_of_mem _ h2)) _)

/-- A fold of NT-array steps over entries with other keys leaves `K`
untouched. -/
theorem foldl_ntArrParamStep_untouched (lps : List (Nat × String × Nat)) (K : Nat)
    (l : List (Nat × String × Nat)) (h : ∀ e ∈ l, e.2.2 ≠ K) :
    ∀ st : BState, untouchedAt K st (l.foldl (ntArrParamStep lps) st) := by
  induction l with
  | nil => intro st; exact untouchedAt_refl K st
  | cons e rest ih =>
    intro st
    simp only [List.foldl_cons]
    exact untouchedAt_trans (ntArrParamStep_untouched lps K e (h e (List.mem_cons_self _ _)) st)
      (ih (fun e2 h2 => h e2 (List.mem_cons_of_mem _ h2)) _)

/-- Characterization of the index-keyed parameter maps. -/
theorem buildIndexed_mem (f : ParamSpec → Bool) :
    ∀ (l : List ParamSpec) (i : Nat) (e : Nat × String × Nat),
      e ∈ buildIndexed f l i →
      ∃ k r, l.get? k = some r ∧ e = (i + k, r.pname, r.key) ∧ f r = true := by
  intro l
  induction l with
  | nil => intro i e h; cases h
  | cons x rest ih =>
    intro i e h
    by_cases hf : f x = true
    · simp only [buildIndexed, hf, if_true] at h
      rcases List.mem_cons.1 h with rfl | h2
      · exact ⟨0, x, rfl, by simp, hf⟩
      · rcases ih (i + 1) e h2 with ⟨k, r, hg, he, hfr⟩
        refine ⟨k + 1, r, by simpa using hg, ?_, hfr⟩
        rw [he]
        have harith : i + 1 + k = i + (k + 1) := by omega
        rw [harith]
    · rw [Bool.not_eq_true] at hf
      simp only [buildIndexed, hf, Bool.false_eq_true, if_false] at h
      rcases ih (i + 1) e h with ⟨k, r, hg, he, hfr⟩
      refine ⟨k + 1, r, by simpa using hg, ?_, hfr⟩
      rw [he]
      have harith : i + 1 + k = i + (k + 1) := by omega
      rw [harith]

/-- A passing parameter appears in the index-keyed map. -/
theorem buildIndexed_mem_of (f : ParamSpec → Bool) :
    ∀ (l : List ParamSpec) (i k : Nat) (r : ParamSpec),
      l.get? k = some r → f r = true → (i + k, r.pname, r.key) ∈ buildIndexed f l i := by
  intro l
  induction l with
  | nil => intro i k r hg; simp at hg
  | cons x rest ih =>
    intro i k r hg hf
    cases k with
    | zero =>
      have hx : x = r := by simpa using hg
      subst hx
      simp [buildIndexed, hf]
    | succ k =>
      have hg2 : rest.get? k = some r := by simpa using hg
      have harith : i + (k + 1) = (i + 1) + k := by omega
      rw [harith]
      by_cases hfx : f x = true
      · simp only [buildIndexed, hfx, if_true]
        exact List.mem_cons_of_mem _ (ih (i + 1) k r hg2 hf)
      · rw [Bool.not_eq_true] at hfx
        simp only [buildIndexed, hfx, Bool.false_eq_true, if_false]
        exact ih (i + 1) k r hg2 hf

/-- Indexes in the index-keyed maps are at least the start index. -/
theorem buildIndexed_fst_ge (f : ParamSpec → Bool) (l : List ParamSpec) (i : Nat)
    (e : Nat × String × Nat) (h : e ∈ buildIndexed f l i) : i ≤ e.1 := by
  rcases buildIndexed_mem f l i e h with ⟨k, r, _, he, _⟩
  rw [he]
  simp

/-- The indexes of the index-keyed maps are distinct. -/
theorem buildIndexed_index_nodup (f : ParamSpec → Bool) :
    ∀ (l : List ParamSpec) (i : Nat),
      ((buildIndexed f l i).map (fun e => e.1)).Nodup := by
  intro l
  induction l with
  | nil => intro i; simp [buildIndexed]
  | cons x rest ih =>
    intro i
    by_cases hf : f x = true
    · simp only [buildIndexed, hf, if_true, List.map_cons, List.nodup_cons]
      refine ⟨?_, ih (i + 1)⟩
      intro hmem
      rcases List.mem_map.1 hmem with ⟨e, he, hfst⟩
      have := buildIndexed_fst_ge f rest (i + 1) e he
      omega
    · rw [Bool.not_eq_true] at hf
      simp only [buildIndexed, hf, Bool.false_eq_true, if_false]
      exact ih (i + 1)

/-- A key-unique entry is the one `find?` returns. -/
theorem find?_fst_eq_of_nodup {β : Type} (l : List (Nat × β)) (j : Nat) (v : β)
    (hnd : (l.map (fun e => e.1)).Nodup) (hmem : (j, v) ∈ l) :
    l.find? (fun e => e.1 == j) = some (j, v) := by
  induction l with
  | nil => cases hmem
  | cons x rest ih =>
    rcases List.mem_cons.1 hmem with rfl | h2
    · simp [List.find?_cons]
    · have hx : x.1 ≠ j := by
        intro he
        have : x.1 ∈ rest.map (fun e => e.1) := by
          rw [he]
          exact List.mem_map.2 ⟨(j, v), h2, rfl⟩
        rw [List.map_cons, List.nodup_cons] at hnd
        exact hnd.1 this
      have hb : (x.1 == j) = false := by simp [hx]
      rw [List.find?_cons, hb]
      rw [List.map_cons, List.nodup_cons] at hnd
      exact ih hnd.2 h2

/-- The adjacent-parameter lookup finds the recorded length parameter. -/
theorem lengthAt_of_mem (lps : List (Nat × String × Nat)) (j : Nat) (v : String × Nat)
    (hnd : (lps.map (fun e => e.1)).Nodup) (hmem : (j, v) ∈ lps) :
    lengthAt lps j = some v := by
  rw [lengthAt, find?_fst_eq_of_nodup lps j v hnd hmem]
  rfl

/-- C6: for an array parameter at position `i` whose successor parameter is
integer-typed and not excluded, the bounds engine binds the array to
`ElementCount` of the adjacent parameter, records the `NeighbourParamMatch`
statistic, and attempts no name-correspondence heuristic for that parameter
(its key enters neither `NamePrefixMatch` nor `VariableNameMatch`). -/
theorem c6_adjacent_length_param (params : List ParamSpec) (i : Nat) (p q : ParamSpec)
    (hp : params.get? i = some p) (hq : params.get? (i + 1) = some q)
    (harr : p.isArr = true) (hnta : p.isNtArr = false)
    (hint : q.isInt = true) (hexc : q.nonLength = false)
    (hnd : (params.map (fun r => r.key)).Nodup) :
    lookupBounds (visitFunctionDecl params) p.key = some (.countBound q.key) ∧
      p.key ∈ (visitFunctionDecl params).neighbourParamMatch ∧
      p.key ∉ (visitFunctionDecl params).namePrefixMatch ∧
      p.key ∉ (visitFunctionDecl params).variableNameMatch := by
  have hpmem : p ∈ params := List.get?_mem hp
  have hqmem : q ∈ params := List.get?_mem hq
  have hkeyuniq : ∀ r ∈ params, r.key = p.key → r = p := fun r hr hk =>
    List.inj_on_of_nodup_map hnd hr hpmem hk
  have hpnodup : params.Nodup := List.Nodup.of_map _ hnd
  have hql : isPotentialLengthVar q = true := by
    simp [isPotentialLengthVar, hint, hexc]
  have hlps : (i + 1, q.pname, q.key) ∈ buildIndexed isPotentialLengthVar params 0 := by
    have := buildIndexed_mem_of isPotentialLengthVar params 0 (i + 1) q hq hql
    rwa [Nat.zero_add] at this
  have hlen : lengthAt (buildIndexed isPotentialLengthVar params 0) (i + 1) =
      some (q.pname, q.key) :=
    lengthAt_of_mem _ _ _ (buildIndexed_index_nodup _ params 0) hlps
  have hpamem : (i, p.pname, p.key) ∈ buildIndexed (fun r => r.isArr) params 0 := by
    have := buildIndexed_mem_of (fun r => r.isArr) params 0 i p hp harr
    rwa [Nat.zero_add] at this
  -- any entry of any of the three maps with key p.key is p's own entry
  have hentry : ∀ (f : ParamSpec → Bool) (e : Nat × String × Nat),
      e ∈ buildIndexed f params 0 → e.2.2 = p.key → f p = true ∧ e = (i, p.pname, p.key) := by
    intro f e he hk
    rcases buildIndexed_mem f params 0 e he with ⟨k, r, hg, heq, hfr⟩
    have hrk : r.key = p.key := by rw [heq] at hk; exact hk
    have hrp : r = p := hkeyuniq r (List.get?_mem hg) hrk
    subst hrp
    have hkeq : k = i := by
      have hilen : i < params.length := (List.get?_eq_some.1 hp).1
      exact (List.get?_inj hilen hpnodup (by rw [hg, hp])).symm
    subst hkeq
    rw [heq, Nat.zero_add]
    exact ⟨hfr, rfl⟩
  -- NT-array entries never carry p.key
  have hnta2 : ∀ e ∈ buildIndexed (fun r => r.isNtArr) params 0, e.2.2 ≠ p.key := by
    intro e he hk
    have h2 := (hentry _ e he hk).1
    rw [hnta] at h2
    exact Bool.false_ne_true h2
  rcases List.append_of_mem hpamem with ⟨s, t, hst⟩
  have hindexnd := buildIndexed_index_nodup (fun r => r.isArr) params 0
  rw [hst, List.map_append, List.map_cons] at hindexnd
  rcases List.nodup_append.1 hindexnd with ⟨hnds, hndt, hdisj⟩
  have hs : ∀ e ∈ s, e.2.2 ≠ p.key := by
    intro e he hk
    have he2 : e ∈ buildIndexed (fun r => r.isArr) params 0 := by
      rw [hst]; exact List.mem_append_left _ he
    have := (hentry _ e he2 hk).2
    subst this
    exact absurd (List.mem_cons_self _ _)
      (fun hcon => (hdisj (List.mem_map.2 ⟨_, he, rfl⟩)) hcon)
  have ht : ∀ e ∈ t, e.2.2 ≠ p.key := by
    intro e he hk
    have he2 : e ∈ buildIndexed (fun r => r.isArr) params 0 := by
      rw [hst]
      exact List.mem_append_right _ (List.mem_cons_of_mem _ he)
    have := (hentry _ e he2 hk).2
    subst this
    rw [List.nodup_cons] at hndt
    exact hndt.1 (List.mem_map.2 ⟨_, he, rfl⟩)
  -- unfold the visitor
  simp only [visitFunctionDecl]
  have hguard : (!(buildIndexed (fun r => r.isArr) params 0).isEmpty &&
      !(buildIndexed isPotentialLengthVar params 0).isEmpty) = true := by
    rw [hst]
    cases s with
    | nil =>
      cases hlpe : buildIndexed isPotentialLengthVar params 0 with
      | nil => rw [hlpe] at hlps; cases hlps
      | cons a b => rfl
    | cons a b =>
      cases hlpe : buildIndexed isPotentialLengthVar params 0 with
      | nil => rw [hlpe] at hlps; cases hlps
      | cons a2 b2 => rfl
  rw [if_pos hguard, hst, List.foldl_append, List.foldl_cons]
  -- the fold over s leaves p.key untouched, our step writes it, the rest is untouched
  have hu1 := foldl_arrParamStep_untouched (buildIndexed isPotentialLengthVar params 0)
    p.key s hs ⟨[], [], [], []⟩
  generalize hsts : s.foldl (arrParamStep (buildIndexed isPotentialLengthVar params 0))
    (⟨[], [], [], []⟩ : BState) = stS at hu1
  have hstep : arrParamStep (buildIndexed isPotentialLengthVar params 0) stS (i, p.pname, p.key) =
      addNeighbourStat (replaceBounds stS p.key (.countBound q.key)) p.key := by
    rw [arrParamStep]
    simp only [hlen]
  rw [hstep]
  set stM := addNeighbourStat (replaceBounds stS p.key (.countBound q.key)) p.key with hstM
  have hu2 := foldl_arrParamStep_untouched (buildIndexed isPotentialLengthVar params 0)
    p.key t ht stM
  have hu3 := foldl_ntArrParamStep_untouched (buildIndexed isPotentialLengthVar params 0)
    p.key (buildIndexed (fun r => r.isNtArr) params 0) hnta2
    (t.foldl (arrParamStep (buildIndexed isPotentialLengthVar params 0)) stM)
  have hu23 := untouchedAt_trans hu2 hu3
  -- facts about the middle state
  have hm1 : lookupBounds stM p.key = some (.countBound q.key) := by
    rw [hstM]
    show lookupBounds (replaceBounds stS p.key (.countBound q.key)) p.key = _
    simp [lookupBounds, replaceBounds, List.find?_cons]
  have hm2 : p.key ∈ stM.neighbourParamMatch := by
    rw [hstM]
    exact List.mem_cons_self _ _
  have hm3 : p.key ∉ stM.namePrefixMatch := by
    rw [hstM]
    show p.key ∉ stS.namePrefixMatch
    intro hcon
    rw [hu1.2.2.1] at hcon
    cases hcon
  have hm4 : p.key ∉ stM.variableNameMatch := by
    rw [hstM]
    show p.key ∉ stS.variableNameMatch
    intro hcon
    rw [hu1.2.2.2] at hcon
    cases hcon
  refine ⟨?_, ?_, ?_, ?_⟩
  · rw [hu23.1]
    exact hm1
  · exact hu23.2.1.2 hm2
  · intro hcon
    exact hm3 (hu23.2.2.1.1 hcon)
  · intro hcon
    exact hm4 (hu23.2.2.2.1 hcon)

/-- Witness for C6 at `void f(int *buf, int x)`. -/
theorem c6_adjacent_length_param_witness :
    lookupBounds (visitFunctionDecl c6Params) 10 = some (.countBound 11) ∧
      10 ∈ (visitFunctionDecl c6Params).neighbourParamMatch ∧
      10 ∉ (visitFunctionDecl c6Params).namePrefixMatch ∧
      10 ∉ (visitFunctionDecl c6Params).variableNameMatch :=
  c6_adjacent_length_param c6Params 0 ⟨"buf", 10, true, false, false, false⟩
    ⟨"x", 11, false, false, true, false⟩ rfl rfl rfl rfl rfl rfl (by decide)

/-- Leader lookup through a fresh entry. -/
theorem lmLookup_cons (k l : Nat) (m : LeaderMap) (x : Nat) :
    lmLookup ((k, l) :: m) x = if x = k then some l else lmLookup m x := by
  by_cases h : x = k
  · subst h
    simp [lmLookup, List.find?_cons]
  · have hb : (k == x) = false := by simp [Ne.symm h]
    simp [lmLookup, List.find?_cons, hb, h]

/-- An absent atom has no leader. -/
theorem lmLookup_none (m : LeaderMap) (x : Nat) :
    lmLookup m x = none ↔ ∀ p ∈ m, p.1 ≠ x := by
  simp only [lmLookup, Option.map_eq_none', List.find?_eq_none]
  constructor
  · intro h p hp
    have := h p hp
    simpa using this
  · intro h p hp
    simpa using h p hp

/-- A leader lookup returns a recorded pair. -/
theorem lmLookup_mem (m : LeaderMap) (x l : Nat) (h : lmLookup m x = some l) :
    (x, l) ∈ m := by
  simp only [lmLookup, Option.map_eq_some'] at h
  rcases h with ⟨p, hp, hl⟩
  have hmem := List.mem_of_find?_eq_some hp
  have hkey := List.find?_some hp
  have hx : p.1 = x := by simpa using hkey
  have hpx : p = (x, l) := by
    cases p
    simp only at hx hl
    rw [hx, hl]
  rwa [hpx] at hmem

/-- With unique keys, a recorded pair is what lookup returns. -/
theorem lmLookup_of_mem_nodup (m : LeaderMap) (x l : Nat)
    (hnd : (m.map (fun p => p.1)).Nodup) (hmem : (x, l) ∈ m) :
    lmLookup m x = some l := by
  rw [lmLookup, find?_fst_eq_of_nodup m x l hnd hmem]
  rfl

/-- Re-pointing preserves the key list. -/
theorem remapTo_keys (m : LeaderMap) (l0 d : Nat) :
    (remapTo m l0 d).map (fun p => p.1) = m.map (fun p => p.1) := by
  rw [remapTo, List.map_map]
  refine List.map_congr_left ?_
  intro p _
  by_cases h : p.2 = l0 <;> simp [h]

/-- Leader lookup after a re-pointing. -/
theorem lmLookup_remapTo (m : LeaderMap) (l0 d x : Nat) :
    lmLookup (remapTo m l0 d) x =
      (lmLookup m x).map (fun l => if l = l0 then d else l) := by
  induction m with
  | nil => rfl
  | cons p rest ih =>
    by_cases hx : p.1 = x
    · have hb : ((if p.2 == l0 then (p.1, d) else p).1 == x) = true := by
        by_cases h2 : (p.2 == l0) = true
        · simp [h2, hx]
        · rw [Bool.not_eq_true] at h2
          simp [h2, hx]
      have hb0 : (p.1 == x) = true := by simp [hx]
      rw [remapTo, List.map_cons]
      show lmLookup ((if p.2 == l0 then (p.1, d) else p) :: remapTo rest l0 d) x = _
      simp only [lmLookup, List.find?_cons, hb, hb0, Option.map_some]
      by_cases h2 : p.2 = l0
      · have hb2 : (p.2 == l0) = true := by simp [h2]
        simp [hb2, h2]
      · have hb2 : (p.2 == l0) = false := by simp [h2]
        simp [hb2, h2]
    · have hb : ((if p.2 == l0 then (p.1, d) else p).1 == x) = false := by
        by_cases h2 : (p.2 == l0) = true
        · simp [h2, hx]
        · rw [Bool.not_eq_true] at h2
          simp [h2, hx]
      have hb0 : (p.1 == x) = false := by simp [hx]
      rw [remapTo, List.map_cons]
      show lmLookup ((if p.2 == l0 then (p.1, d) else p) :: remapTo rest l0 d) x = _
      simp only [lmLookup, List.find?_cons, hb, hb0]
      exact ih

/-- Bool membership test agrees with list membership. -/
theorem containsNat_iff (l : List Nat) (x : Nat) : l.contains x = true ↔ x ∈ l := by
  induction l with
  | nil => simp
  | cons a rest ih => simp [List.contains_cons, ih]

/-- `dsAdd` preserves the union-find invariant. -/
theorem dsAdd_dinv (m : LeaderMap) (a b : Nat) (h : DInv m) : DInv (dsAdd m a b) := by
  rcases h with ⟨hnd, hself⟩
  cases ha : lmLookup m a with
  | some la =>
    cases hb : lmLookup m b with
    | some lb =>
      by_cases he : la = lb
      · have hbe : (la == lb) = true := by simp [he]
        simp only [dsAdd, ha, hb, hbe, if_true]
        exact ⟨hnd, hself⟩
      · have hbe : (la == lb) = false := by simp [he]
        simp only [dsAdd, ha, hb, hbe, Bool.false_eq_true, if_false]
        constructor
        · rw [remapTo_keys]
          exact hnd
        · intro p hp
          rw [remapTo] at hp
          rcases List.mem_map.1 hp with ⟨p0, hp0, hpt⟩
          have hla : (la, la) ∈ remapTo m lb la := by
            have h1 : (a, la) ∈ m := lmLookup_mem m a la ha
            have h2 : (la, la) ∈ m := hself _ h1
            rw [remapTo]
            exact List.mem_map.2 ⟨(la, la), h2, by simp [he]⟩
          by_cases hc : p0.2 = lb
          · have hpd : p = (p0.1, la) := by rw [← hpt]; simp [hc]
            rw [hpd]
            exact hla
          · have hpp : p = p0 := by rw [← hpt]; simp [hc]
            rw [hpp]
            have h2 : (p0.2, p0.2) ∈ m := hself _ hp0
            rw [remapTo]
            exact List.mem_map.2 ⟨(p0.2, p0.2), h2, by simp [hc]⟩
    | none =>
      simp only [dsAdd, ha, hb]
      constructor
      · rw [List.map_cons, List.nodup_cons]
        refine ⟨?_, hnd⟩
        intro hcon
        rcases List.mem_map.1 hcon with ⟨p, hp, hfst⟩
        exact (lmLookup_none m b).1 hb p hp hfst
      · intro p hp
        rcases List.mem_cons.1 hp with rfl | hp2
        · exact List.mem_cons_of_mem _ (hself (a, la) (lmLookup_mem m a la ha))
        · exact List.mem_cons_of_mem _ (hself _ hp2)
  | none =>
    cases hb : lmLookup m b with
    | some lb =>
      simp only [dsAdd, ha, hb]
      constructor
      · rw [List.map_cons, List.nodup_cons]
        refine ⟨?_, hnd⟩
        intro hcon
        rcases List.mem_map.1 hcon with ⟨p, hp, hfst⟩
        exact (lmLookup_none m a).1 ha p hp hfst
      · intro p hp
        rcases List.mem_cons.1 hp with rfl | hp2
        · exact List.mem_cons_of_mem _ (hself (b, lb) (lmLookup_mem m b lb hb))
        · exact List.mem_cons_of_mem _ (hself _ hp2)
    | none =>
      by_cases he : a = b
      · have hbe : (a == b) = true := by simp [he]
        simp only [dsAdd, ha, hb, hbe, if_true]
        constructor
        · rw [List.map_cons, List.nodup_cons]
          refine ⟨?_, hnd⟩
          intro hcon
          rcases List.mem_map.1 hcon with ⟨p, hp, hfst⟩
          exact (lmLookup_none m a).1 ha p hp hfst
        · intro p hp
          rcases List.mem_cons.1 hp with rfl | hp2
          · exact List.mem_cons_self _ _
          · exact List.mem_cons_of_mem _ (hself _ hp2)
      · have hbe : (a == b) = false := by simp [he]
        simp only [dsAdd, ha, hb, hbe, Bool.false_eq_true, if_false]
        constructor
        · rw [List.map_cons, List.map_cons, List.nodup_cons, List.nodup_cons]
          refine ⟨?_, ?_, hnd⟩
          · intro hcon
            rcases List.mem_cons.1 hcon with he2 | hcon2
            · exact he he2
            · rcases List.mem_map.1 hcon2 with ⟨p, hp, hfst⟩
              exact (lmLookup_none m a).1 ha p hp hfst
          · intro hcon
            rcases List.mem_map.1 hcon with ⟨p, hp, hfst⟩
            exact (lmLookup_none m b).1 hb p hp hfst
        · intro p hp
          rcases List.mem_cons.1 hp with rfl | hp2
          · exact List.mem_cons_self _ _
          · rcases List.mem_cons.1 hp2 with rfl | hp3
            · exact List.mem_cons_self _ _
            · exact List.mem_cons_of_mem _ (List.mem_cons_of_mem _ (hself _ hp3))

/-- The leader adjustment preserves the union-find invariant. -/
theorem adjustStep_dinv (direct : List Nat) (m : LeaderMap) (d : Nat) (h : DInv m) :
    DInv (adjustStep direct m d) := by
  rcases h with ⟨hnd, hself⟩
  cases hd : lmLookup m d with
  | none =>
    simp only [adjustStep, hd]
    exact ⟨hnd, hself⟩
  | some l =>
    by_cases hc : direct.contains l = true
    · simp only [adjustStep, hd, hc, if_true]
      exact ⟨hnd, hself⟩
    · rw [Bool.not_eq_true] at hc
      simp only [adjustStep, hd, hc, Bool.false_eq_true, if_false]
      constructor
      · rw [remapTo_keys]
        exact hnd
      · intro p hp
        rw [remapTo] at hp
        rcases List.mem_map.1 hp with ⟨p0, hp0, hpt⟩
        by_cases hc2 : p0.2 = l
        · have hpd : p = (p0.1, d) := by rw [← hpt]; simp [hc2]
          rw [hpd]
          have h1 : (d, l) ∈ m := lmLookup_mem m d l hd
          rw [remapTo]
          exact List.mem_map.2 ⟨(d, l), h1, by simp⟩
        · have hpp : p = p0 := by rw [← hpt]; simp [hc2]
          rw [hpp]
          have h2 : (p0.2, p0.2) ∈ m := hself _ hp0
          rw [remapTo]
          exact List.mem_map.2 ⟨(p0.2, p0.2), h2, by simp [hc2]⟩

/-- Re-pointing a group preserves co-membership. -/
theorem sameLeader_remapTo (m : LeaderMap) (l0 d x y : Nat) (h : sameLeader m x y) :
    sameLeader (remapTo m l0 d) x y := by
  rcases h with ⟨l, hx, hy⟩
  refine ⟨if l = l0 then d else l, ?_, ?_⟩
  · rw [lmLookup_remapTo, hx]
    rfl
  · rw [lmLookup_remapTo, hy]
    rfl

/-- Registering a new atom preserves co-membership. -/
theorem sameLeader_cons_new (m : LeaderMap) (k l x y : Nat) (h : sameLeader m x y)
    (hk : lmLookup m k = none) : sameLeader ((k, l) :: m) x y := by
  rcases h with ⟨l2, hx, hy⟩
  have hxk : x ≠ k := by
    intro he
    rw [he, hk] at hx
    cases hx
  have hyk : y ≠ k := by
    intro he
    rw [he, hk] at hy
    cases hy
  refine ⟨l2, ?_, ?_⟩
  · rw [lmLookup_cons, if_neg hxk]
    exact hx
  · rw [lmLookup_cons, if_neg hyk]
    exact hy

/-- `dsAdd` preserves co-membership. -/
theorem dsAdd_sameLeader (m : LeaderMap) (a b x y : Nat) (h : sameLeader m x y) :
    sameLeader (dsAdd m a b) x y := by
  cases ha : lmLookup m a with
  | some la =>
    cases hb : lmLookup m b with
    | some lb =>
      by_cases he : la = lb
      · have hbe : (la == lb) = true := by simp [he]
        simp only [dsAdd, ha, hb, hbe, if_true]
        exact h
      · have hbe : (la == lb) = false := by simp [he]
        simp only [dsAdd, ha, hb, hbe, Bool.false_eq_true, if_false]
        exact sameLeader_remapTo m lb la x y h
    | none =>
      simp only [dsAdd, ha, hb]
      exact sameLeader_cons_new m b la x y h hb
  | none =>
    cases hb : lmLookup m b with
    | some lb =>
      simp only [dsAdd, ha, hb]
      exact sameLeader_cons_new m a lb x y h ha
    | none =>
      by_cases he : a = b
      · have hbe : (a == b) = true := by simp [he]
        simp only [dsAdd, ha, hb, hbe, if_true]
        exact sameLeader_cons_new m a a x y h ha
      · have hbe : (a == b) = false := by simp [he]
        simp only [dsAdd, ha, hb, hbe, Bool.false_eq_true, if_false]
        refine sameLeader_cons_new _ a a x y ?_ ?_
        · exact sameLeader_cons_new m b a x y h hb
        · rw [lmLookup_cons, if_neg he]
          exact ha

/-- The union of the two endpoints holds after `dsAdd`. -/
theorem dsAdd_sameLeader_self (m : LeaderMap) (a b : Nat) :
    sameLeader (dsAdd m a b) a b := by
  cases ha : lmLookup m a with
  | some la =>
    cases hb : lmLookup m b with
    | some lb =>
      by_cases he : la = lb
      · have hbe : (la == lb) = true := by simp [he]
        simp only [dsAdd, ha, hb, hbe, if_true]
        exact ⟨la, ha, by rw [hb, he]⟩
      · have hbe : (la == lb) = false := by simp [he]
        simp only [dsAdd, ha, hb, hbe, Bool.false_eq_true, if_false]
        refine ⟨la, ?_, ?_⟩
        · rw [lmLookup_remapTo, ha]
          simp [he]
        · rw [lmLookup_remapTo, hb]
          simp
    | none =>
      simp only [dsAdd, ha, hb]
      have hab : a ≠ b := by
        intro he
        rw [he, hb] at ha
        cases ha
      refine ⟨la, ?_, ?_⟩
      · rw [lmLookup_cons, if_neg hab]
        exact ha
      · rw [lmLookup_cons, if_pos rfl]
  | none =>
    cases hb : lmLookup m b with
    | some lb =>
      simp only [dsAdd, ha, hb]
      have hab : b ≠ a := by
        intro he
        rw [he, ha] at hb
        cases hb
      refine ⟨lb, ?_, ?_⟩
      · rw [lmLookup_cons, if_pos rfl]
      · rw [lmLookup_cons, if_neg hab]
        exact hb
    | none =>
      by_cases he : a = b
      · have hbe : (a == b) = true := by simp [he]
        simp only [dsAdd, ha, hb, hbe, if_true]
        subst he
        exact ⟨a, by rw [lmLookup_cons, if_pos rfl], by rw [lmLookup_cons, if_pos rfl]⟩
      · have hbe : (a == b) = false := by simp [he]
        simp only [dsAdd, ha, hb, hbe, Bool.false_eq_true, if_false]
        refine ⟨a, by rw [lmLookup_cons, if_pos rfl], ?_⟩
        rw [lmLookup_cons, if_neg (Ne.symm he), lmLookup_cons, if_pos rfl]

/-- One collect step preserves co-membership. -/
theorem collectStep_sameLeader (st : LeaderMap × List Nat) (e : GEdge) (x y : Nat)
    (h : sameLeader st.1 x y) : sameLeader (collectStep st e).1 x y := by
  cases he : e.rhs with
  | const c =>
    simp only [collectStep, he]
    by_cases hc : (c == PtrClass.Wild) = true
    · rw [if_pos hc]
      exact h
    · rw [Bool.not_eq_true] at hc
      rw [hc]
      simp only [Bool.false_eq_true, if_false]
      exact h
  | var v =>
    simp only [collectStep, he]
    exact dsAdd_sameLeader st.1 e.lhs v x y h

/-- The collect fold preserves co-membership. -/
theorem foldl_collect_sameLeader (edges : List GEdge) :
    ∀ (st : LeaderMap × List Nat) (x y : Nat), sameLeader st.1 x y →
      sameLeader (edges.foldl collectStep st).1 x y := by
  induction edges with
  | nil => intro st x y h; exact h
  | cons e rest ih =>
    intro st x y h
    exact ih _ _ _ (collectStep_sameLeader st e x y h)

/-- One collect step preserves the union-find invariant. -/
theorem collectStep_dinv (st : LeaderMap × List Nat) (e : GEdge) (h : DInv st.1) :
    DInv (collectStep st e).1 := by
  cases he : e.rhs with
  | const c =>
    simp only [collectStep, he]
    by_cases hc : (c == PtrClass.Wild) = true
    · rw [if_pos hc]
      exact h
    · rw [Bool.not_eq_true] at hc
      rw [hc]
      simp only [Bool.false_eq_true, if_false]
      exact h
  | var v =>
    simp only [collectStep, he]
    exact dsAdd_dinv st.1 e.lhs v h

/-- The collect fold preserves the union-find invariant. -/
theorem foldl_collect_dinv (edges : List GEdge) :
    ∀ st : LeaderMap × List Nat, DInv st.1 → DInv (edges.foldl collectStep st).1 := by
  induction edges with
  | nil => intro st h; exact h
  | cons e rest ih => intro st h; exact ih _ (collectStep_dinv st e h)

/-- Every unioned edge ends with co-grouped endpoints after the collect
fold. -/
theorem foldl_collect_edge (edges : List GEdge) :
    ∀ st : LeaderMap × List Nat, ∀ e ∈ edges, ∀ v, e.rhs = .var v →
      sameLeader ((edges.foldl collectStep st).1) e.lhs v := by
  induction edges with
  | nil => intro st e he; cases he
  | cons e0 rest ih =>
    intro st e he v hv
    rcases List.mem_cons.1 he with rfl | he2
    · refine foldl_collect_sameLeader rest (collectStep st e) e.lhs v ?_
      simp only [collectStep, hv]
      exact dsAdd_sameLeader_self st.1 e.lhs v
    · exact ih (collectStep st e0) e he2 v hv

/-- One adjustment step preserves co-membership. -/
theorem adjustStep_sameLeader (direct : List Nat) (m : LeaderMap) (d x y : Nat)
    (h : sameLeader m x y) : sameLeader (adjustStep direct m d) x y := by
  cases hd : lmLookup m d with
  | none =>
    simp only [adjustStep, hd]
    exact h
  | some l =>
    by_cases hc : direct.contains l = true
    · simp only [adjustStep, hd, hc, if_true]
      exact h
    · rw [Bool.not_eq_true] at hc
      simp only [adjustStep, hd, hc, Bool.false_eq_true, if_false]
      exact sameLeader_remapTo m l d x y h

/-- The adjustment fold preserves co-membership. -/
theorem foldl_adjust_sameLeader (ds direct : List Nat) :
    ∀ (m : LeaderMap) (x y : Nat), sameLeader m x y →
      sameLeader (ds.foldl (adjustStep direct) m) x y := by
  induction ds with
  | nil => intro m x y h; exact h
  | cons d rest ih => intro m x y h; exact ih _ _ _ (adjustStep_sameLeader direct m d x y h)

/-- The adjustment fold preserves the union-find invariant. -/
theorem foldl_adjust_dinv (ds direct : List Nat) :
    ∀ m : LeaderMap, DInv m → DInv (ds.foldl (adjustStep direct) m) := by
  induction ds with
  | nil => intro m h; exact h
  | cons d rest ih => intro m h; exact ih _ (adjustStep_dinv direct m d h)

/-- A leader already in the direct set survives an adjustment step. -/
theorem adjustStep_preserves_lid (direct : List Nat) (m : LeaderMap) (d2 x L : Nat)
    (hx : lmLookup m x = some L) (hL : L ∈ direct) :
    lmLookup (adjustStep direct m d2) x = some L := by
  cases hd : lmLookup m d2 with
  | none =>
    simp only [adjustStep, hd]
    exact hx
  | some l0 =>
    by_cases hc : direct.contains l0 = true
    · simp only [adjustStep, hd, hc, if_true]
      exact hx
    · rw [Bool.not_eq_true] at hc
      simp only [adjustStep, hd, hc, Bool.false_eq_true, if_false]
      rw [lmLookup_remapTo, hx]
      have hne : L ≠ l0 := by
        intro he
        rw [← containsNat_iff] at hL
        rw [he] at hL
        rw [hL] at hc
        cases hc
      simp [hne]

/-- An absent atom stays absent through an adjustment step. -/
theorem adjustStep_none (direct : List Nat) (m : LeaderMap) (d2 x : Nat)
    (h : lmLookup m x = none) : lmLookup (adjustStep direct m d2) x = none := by
  cases hd : lmLookup m d2 with
  | none =>
    simp only [adjustStep, hd]
    exact h
  | some l0 =>
    by_cases hc : direct.contains l0 = true
    · simp only [adjustStep, hd, hc, if_true]
      exact h
    · rw [Bool.not_eq_true] at hc
      simp only [adjustStep, hd, hc, Bool.false_eq_true, if_false]
      rw [lmLookup_remapTo, h]
      rfl

/-- A leader in the direct set survives the whole adjustment fold. -/
theorem foldl_adjust_preserves_lid (ds direct : List Nat) :
    ∀ (m : LeaderMap) (x L : Nat), lmLookup m x = some L → L ∈ direct →
      lmLookup (ds.foldl (adjustStep direct) m) x = some L := by
  induction ds with
  | nil => intro m x L hx _; exact hx
  | cons d rest ih =>
    intro m x L hx hL
    exact ih _ _ _ (adjustStep_preserves_lid direct m d x L hx hL) hL

/-- An absent atom stays absent through the whole adjustment fold. -/
theorem foldl_adjust_none (ds direct : List Nat) :
    ∀ (m : LeaderMap) (x : Nat), lmLookup m x = none →
      lmLookup (ds.foldl (adjustStep direct) m) x = none := by
  induction ds with
  | nil => intro m x h; exact h
  | cons d rest ih =>
    intro m x h
    exact ih _ _ (adjustStep_none direct m d x h)

/-- After its own adjustment step, a direct atom's leader is direct. -/
theorem adjustStep_establish (direct : List Nat) (m : LeaderMap) (d : Nat)
    (hd : d ∈ direct) (l : Nat)
    (h : lmLookup (adjustStep direct m d) d = some l) : l ∈ direct := by
  cases h0 : lmLookup m d with
  | none =>
    have hstep : adjustStep direct m d = m := by
      simp only [adjustStep, h0]
    rw [hstep, h0] at h
    cases h
  | some l0 =>
    by_cases hc : direct.contains l0 = true
    · have hstep : adjustStep direct m d = m := by
        simp only [adjustStep, h0, hc, if_true]
      rw [hstep, h0] at h
      have hll : l0 = l := by injection h
      rw [← hll]
      exact (containsNat_iff direct l0).1 hc
    · rw [Bool.not_eq_true] at hc
      have hstep : adjustStep direct m d = remapTo m l0 d := by
        simp only [adjustStep, h0, hc, Bool.false_eq_true, if_false]
      rw [hstep, lmLookup_remapTo, h0] at h
      simp at h
      exact h ▸ hd

/-- Every direct atom's leader is direct after the adjustment fold. -/
theorem foldl_adjust_lid (direct : List Nat) :
    ∀ (ds : List Nat), (∀ d ∈ ds, d ∈ direct) →
      ∀ (m : LeaderMap), ∀ d ∈ ds, ∀ l,
        lmLookup (ds.foldl (adjustStep direct) m) d = some l → l ∈ direct := by
  intro ds
  induction ds with
  | nil => intro _ m d hd; cases hd
  | cons d0 rest ih =>
    intro hsub m d hd l hl
    rcases List.mem_cons.1 hd with rfl | hd2
    · rw [List.foldl_cons] at hl
      cases h1 : lmLookup (adjustStep direct m d) d with
      | none =>
        rw [foldl_adjust_none rest direct _ _ h1] at hl
        cases hl
      | some l1 =>
        have hl1 : l1 ∈ direct :=
          adjustStep_establish direct m d (hsub d (List.mem_cons_self _ _)) l1 h1
        rw [foldl_adjust_preserves_lid rest direct _ _ _ h1 hl1] at hl
        have : l1 = l := by injection hl
        rw [← this]
        exact hl1
    · rw [List.foldl_cons] at hl
      exact ih (fun d2 h2 => hsub d2 (List.mem_cons_of_mem _ h2)) _ d hd2 l hl

/-- C5: the root-cause analysis unions the endpoints of every `Geq` edge
between unknowns; after the adjustment every group containing a directly
forced atom has a directly forced leader (which belongs to the group); and
the reported indirectly-wild set is exactly the set of atoms in wild groups
minus the directly forced atoms. -/
theorem c5_root_cause_analysis (edges : List GEdge) :
    (∀ e ∈ edges, ∀ v, e.rhs = .var v →
      sameLeader (computePointerDisjointSet edges).1 e.lhs v) ∧
    (∀ d ∈ (computePointerDisjointSet edges).2.1, ∀ l,
      lmLookup (computePointerDisjointSet edges).1 d = some l →
      l ∈ (computePointerDisjointSet edges).2.1 ∧
        lmLookup (computePointerDisjointSet edges).1 l = some l) ∧
    (∀ a, a ∈ (computePointerDisjointSet edges).2.2 ↔
      ((∃ l, lmLookup (computePointerDisjointSet edges).1 a = some l ∧
          ∃ d ∈ (computePointerDisjointSet edges).2.1,
            lmLookup (computePointerDisjointSet edges).1 d = some l) ∧
        a ∉ (computePointerDisjointSet edges).2.1)) := by
  have hm : (computePointerDisjointSet edges).1 =
      (collectPhase edges).2.foldl (adjustStep (collectPhase edges).2)
        (collectPhase edges).1 := rfl
  have hd : (computePointerDisjointSet edges).2.1 = (collectPhase edges).2 := rfl
  have hi : (computePointerDisjointSet edges).2.2 =
      computeIndirect (computePointerDisjointSet edges).1
        (computePointerDisjointSet edges).2.1 := rfl
  have hdinv : DInv (computePointerDisjointSet edges).1 := by
    rw [hm]
    refine foldl_adjust_dinv _ _ _ ?_
    refine foldl_collect_dinv edges ([], []) ?_
    exact ⟨List.nodup_nil, by intro p hp; cases hp⟩
  have hB : ∀ d ∈ (computePointerDisjointSet edges).2.1, ∀ l,
      lmLookup (computePointerDisjointSet edges).1 d = some l →
      l ∈ (computePointerDisjointSet edges).2.1 ∧
        lmLookup (computePointerDisjointSet edges).1 l = some l := by
    intro d hdm l hl
    have hld : l ∈ (computePointerDisjointSet edges).2.1 := by
      rw [hd] at hdm ⊢
      rw [hm] at hl
      exact foldl_adjust_lid (collectPhase edges).2 (collectPhase edges).2
        (fun x hx => hx) _ d hdm l hl
    refine ⟨hld, ?_⟩
    have hmem : (d, l) ∈ (computePointerDisjointSet edges).1 := lmLookup_mem _ _ _ hl
    have hself : (l, l) ∈ (computePointerDisjointSet edges).1 := hdinv.2 _ hmem
    exact lmLookup_of_mem_nodup _ _ _ hdinv.1 hself
  refine ⟨?_, hB, ?_⟩
  · intro e he v hv
    rw [hm]
    refine foldl_adjust_sameLeader _ _ _ _ _ ?_
    exact foldl_collect_edge edges ([], []) e he v hv
  · intro a
    rw [hi, computeIndirect]
    constructor
    · intro ha
      rw [List.mem_filter] at ha
      rcases ha with ⟨ha1, ha2⟩
      have ha2b : (!(computePointerDisjointSet edges).2.1.contains a) = true := ha2
      rcases List.mem_map.1 ha1 with ⟨p, hpf, hpa⟩
      rw [List.mem_filter] at hpf
      rcases hpf with ⟨hpm, hpc⟩
      have hpcb : (computePointerDisjointSet edges).2.1.contains p.2 = true := hpc
      have hpc2 : p.2 ∈ (computePointerDisjointSet edges).2.1 :=
        (containsNat_iff _ _).1 hpcb
      have hna : a ∉ (computePointerDisjointSet edges).2.1 := by
        intro hcon
        rw [← containsNat_iff] at hcon
        rw [hcon] at ha2b
        simp at ha2b
      refine ⟨⟨p.2, ?_, p.2, hpc2, ?_⟩, hna⟩
      · rw [← hpa]
        have hpp : (p.1, p.2) = p := rfl
        rw [← hpp] at hpm
        exact lmLookup_of_mem_nodup _ _ _ hdinv.1 hpm
      · exact lmLookup_of_mem_nodup _ _ _ hdinv.1 (hdinv.2 _ hpm)
    · rintro ⟨⟨l, hal, d2, hd2, hd2l⟩, hna⟩
      have hld : l ∈ (computePointerDisjointSet edges).2.1 := (hB d2 hd2 l hd2l).1
      have hfa : (computePointerDisjointSet edges).2.1.contains a = false := by
        cases hcc : (computePointerDisjointSet edges).2.1.contains a with
        | false => rfl
        | true => exact absurd ((containsNat_iff _ _).1 hcc) hna
      rw [List.mem_filter]
      constructor
      · refine List.mem_map.2 ⟨(a, l), ?_, rfl⟩
        rw [List.mem_filter]
        refine ⟨lmLookup_mem _ _ _ hal, ?_⟩
        show ((computePointerDisjointSet edges).2.1.contains l) = true
        exact (containsNat_iff _ _).2 hld
      · show (!(computePointerDisjointSet edges).2.1.contains a) = true
        rw [hfa]
        rfl

/-- Witness for C5 at a concrete constraint list. -/
theorem c5_root_cause_analysis_witness :
    sameLeader (computePointerDisjointSet c5Edges).1 1 2 ∧
      (1 ∈ (computePointerDisjointSet c5Edges).2.2 ∧
        3 ∉ (computePointerDisjointSet c5Edges).2.2) :=
  ⟨(c5_root_cause_analysis c5Edges).1 ⟨1, .var 2, ""⟩ (by decide) 2 rfl,
    ((c5_root_cause_analysis c5Edges).2.2 1).2
      ⟨⟨3, by decide, 3, by decide, by decide⟩, by decide⟩,
    fun hcon => (((c5_root_cause_analysis c5Edges).2.2 3).1 hcon).2 (by decide)⟩

/-- Adding a constraint leaves the cache untouched. -/
theorem insertCon_memo (c : RCon) (st : RState) : (insertCon c st).memo = st.memo := by
  by_cases h : c ∈ st.cons
  · rw [insertCon, if_pos h]
  · rw [insertCon, if_neg h]

/-- Adding a constraint leaves the fresh-atom counter untouched. -/
theorem insertCon_fresh (c : RCon) (st : RState) : (insertCon c st).fresh = st.fresh := by
  by_cases h : c ∈ st.cons
  · rw [insertCon, if_pos h]
  · rw [insertCon, if_neg h]

/-- The added constraint is in the store afterwards. -/
theorem insertCon_mem_self (c : RCon) (st : RState) : c ∈ (insertCon c st).cons := by
  by_cases h : c ∈ st.cons
  · rw [insertCon, if_pos h]; exact h
  · rw [insertCon, if_neg h]; exact List.mem_cons_self _ _

/-- Stored constraints survive an insertion. -/
theorem insertCon_mem_mono (c c2 : RCon) (st : RState) (h : c2 ∈ st.cons) :
    c2 ∈ (insertCon c st).cons := by
  by_cases h2 : c ∈ st.cons
  · rw [insertCon, if_pos h2]; exact h
  · rw [insertCon, if_neg h2]; exact List.mem_cons_of_mem _ h

/-- A constraint present after an insertion is the inserted one or was
already stored. -/
theorem insertCon_mem_inv (c c2 : RCon) (st : RState) (h : c2 ∈ (insertCon c st).cons) :
    c2 = c ∨ c2 ∈ st.cons := by
  by_cases h2 : c ∈ st.cons
  · rw [insertCon, if_pos h2] at h; exact Or.inr h
  · rw [insertCon, if_neg h2] at h
    exact List.mem_cons.1 h

/-- Set semantics: inserting a present constraint is a no-op. -/
theorem insertCon_of_mem (c : RCon) (st : RState) (h : c ∈ st.cons) :
    insertCon c st = st := by
  rw [insertCon, if_pos h]

/-- Cache lookups agree on states with equal caches. -/
theorem memoLookup_congr (s t : RState) (h : s.memo = t.memo) (e : RExpr) :
    memoLookup s e = memoLookup t e := by
  rw [memoLookup, memoLookup, h]

/-- State extension is reflexive. -/
theorem rext_refl (st : RState) : RExt st st := ⟨fun _ _ h => h, fun _ h => h⟩

/-- State extension is transitive. -/
theorem rext_trans {s t u : RState} (h1 : RExt s t) (h2 : RExt t u) : RExt s u :=
  ⟨fun e vs h => h2.1 e vs (h1.1 e vs h), fun c h => h2.2 c (h1.2 c h)⟩

/-- Inserting a constraint extends the state. -/
theorem insertCon_ext (c : RCon) (st : RState) : RExt st (insertCon c st) := by
  constructor
  · intro e vs h
    rw [memoLookup_congr (insertCon c st) st (insertCon_memo c st) e]
    exact h
  · intro c2 h; exact insertCon_mem_mono c c2 st h

/-- A fold of insertions leaves the cache untouched. -/
theorem foldl_insertCon_memo {α : Type} (f : α → RCon) (as : List α) :
    ∀ st : RState, (as.foldl (fun st a => insertCon (f a) st) st).memo = st.memo := by
  induction as with
  | nil => intro st; rfl
  | cons a rest ih => intro st; rw [List.foldl_cons, ih, insertCon_memo]

/-- A fold of insertions leaves the fresh counter untouched. -/
theorem foldl_insertCon_fresh {α : Type} (f : α → RCon) (as : List α) :
    ∀ st : RState, (as.foldl (fun st a => insertCon (f a) st) st).fresh = st.fresh := by
  induction as with
  | nil => intro st; rfl
  | cons a rest ih => intro st; rw [List.foldl_cons, ih, insertCon_fresh]

/-- A fold of insertions extends the state. -/
theorem foldl_insertCon_ext {α : Type} (f : α → RCon) (as : List α) :
    ∀ st : RState, RExt st (as.foldl (fun st a => insertCon (f a) st) st) := by
  induction as with
  | nil => intro st; exact rext_refl st
  | cons a rest ih =>
    intro st
    rw [List.foldl_cons]
    exact rext_trans (insertCon_ext (f a) st) (ih (insertCon (f a) st))

/-- Every folded-in constraint is in the store afterwards. -/
theorem foldl_insertCon_mem {α : Type} (f : α → RCon) (as : List α) :
    ∀ st : RState, ∀ a ∈ as, f a ∈ (as.foldl (fun st a => insertCon (f a) st) st).cons := by
  induction as with
  | nil => intro st a h; cases h
  | cons a0 rest ih =>
    intro st a h
    rcases List.mem_cons.1 h with rfl | h2
    · rw [List.foldl_cons]
      exact (foldl_insertCon_ext f rest (insertCon (f a) st)).2 _ (insertCon_mem_self (f a) st)
    · rw [List.foldl_cons]; exact ih _ a h2

/-- A fold of insertions of already-present constraints is a no-op. -/
theorem foldl_insertCon_frozen {α : Type} (f : α → RCon) (as : List α) :
    ∀ st : RState, (∀ a ∈ as, f a ∈ st.cons) →
      as.foldl (fun st a => insertCon (f a) st) st = st := by
  induction as with
  | nil => intro st _; rfl
  | cons a0 rest ih =>
    intro st h
    rw [List.foldl_cons, insertCon_of_mem (f a0) st (h a0 (List.mem_cons_self _ _))]
    exact ih st (fun a ha => h a (List.mem_cons_of_mem _ ha))

/-- A constraint present after a fold of insertions was present before or is
one of the folded-in constraints. -/
theorem foldl_insertCon_cons_inv {α : Type} (f : α → RCon) (as : List α) :
    ∀ st : RState, ∀ c ∈ (as.foldl (fun st a => insertCon (f a) st) st).cons,
      c ∈ st.cons ∨ ∃ a ∈ as, c = f a := by
  induction as with
  | nil => intro st c hc; exact Or.inl hc
  | cons a0 rest ih =>
    intro st c hc
    rw [List.foldl_cons] at hc
    rcases ih (insertCon (f a0) st) c hc with h | ⟨a, ha, rfl⟩
    · rcases insertCon_mem_inv (f a0) c st h with rfl | h2
      · exact Or.inr ⟨a0, List.mem_cons_self _ _, rfl⟩
      · exact Or.inl h2
    · exact Or.inr ⟨a, List.mem_cons_of_mem _ ha, rfl⟩

/-- `constrainToWild` of one variable leaves the cache untouched. -/
theorem constrainPvcWild_memo (p : RPvc) (rsn : String) (st : RState) :
    (constrainPvcWild p rsn st).memo = st.memo :=
  foldl_insertCon_memo (fun a => .geqConst a .Wild rsn) p.atoms st

/-- `constrainToWild` of one variable leaves the fresh counter untouched. -/
theorem constrainPvcWild_fresh (p : RPvc) (rsn : String) (st : RState) :
    (constrainPvcWild p rsn st).fresh = st.fresh :=
  foldl_insertCon_fresh (fun a => .geqConst a .Wild rsn) p.atoms st

/-- `constrainToWild` of one variable extends the state. -/
theorem constrainPvcWild_ext (p : RPvc) (rsn : String) (st : RState) :
    RExt st (constrainPvcWild p rsn st) :=
  foldl_insertCon_ext (fun a => .geqConst a .Wild rsn) p.atoms st

/-- `constrainToWild` records a wild forcing for every atom. -/
theorem constrainPvcWild_mem (p : RPvc) (rsn : String) (st : RState) :
    ∀ a ∈ p.atoms, RCon.geqConst a .Wild rsn ∈ (constrainPvcWild p rsn st).cons :=
  foldl_insertCon_mem (fun a => .geqConst a .Wild rsn) p.atoms st

/-- `constrainToWild` with already-recorded forcings is a no-op. -/
theorem constrainPvcWild_frozen (p : RPvc) (rsn : String) (st : RState)
    (h : ∀ a ∈ p.atoms, RCon.geqConst a .Wild rsn ∈ st.cons) :
    constrainPvcWild p rsn st = st :=
  foldl_insertCon_frozen (fun a => .geqConst a .Wild rsn) p.atoms st h

/-- New constraints of `constrainToWild` are wild forcings of the variable's
atoms. -/
theorem constrainPvcWild_cons_inv (p : RPvc) (rsn : String) (st : RState) :
    ∀ c ∈ (constrainPvcWild p rsn st).cons,
      c ∈ st.cons ∨ ∃ a ∈ p.atoms, c = RCon.geqConst a .Wild rsn :=
  foldl_insertCon_cons_inv (fun a => .geqConst a .Wild rsn) p.atoms st

/-- `constraintAllCVarsToWild` leaves the cache untouched. -/
theorem constrainAllWild_memo (ps : List RPvc) (rsn : String) :
    ∀ st : RState, (constrainAllWild ps rsn st).memo = st.memo := by
  induction ps with
  | nil => intro st; rfl
  | cons p rest ih =>
    intro st
    rw [constrainAllWild, List.foldl_cons]
    have h2 := ih (constrainPvcWild p rsn st)
    rw [constrainAllWild] at h2
    rw [h2, constrainPvcWild_memo]

/-- `constraintAllCVarsToWild` leaves the fresh counter untouched. -/
theorem constrainAllWild_fresh (ps : List RPvc) (rsn : String) :
    ∀ st : RState, (constrainAllWild ps rsn st).fresh = st.fresh := by
  induction ps with
  | nil => intro st; rfl
  | cons p rest ih =>
    intro st
    rw [constrainAllWild, List.foldl_cons]
    have h2 := ih (constrainPvcWild p rsn st)
    rw [constrainAllWild] at h2
    rw [h2, constrainPvcWild_fresh]

/-- `constraintAllCVarsToWild` extends the state. -/
theorem constrainAllWild_ext (ps : List RPvc) (rsn : String) :
    ∀ st : RState, RExt st (constrainAllWild ps rsn st) := by
  induction ps with
  | nil => intro st; exact rext_refl st
  | cons p rest ih =>
    intro st
    rw [constrainAllWild, List.foldl_cons]
    have h2 := ih (constrainPvcWild p rsn st)
    rw [constrainAllWild] at h2
    exact rext_trans (constrainPvcWild_ext p rsn st) h2

/-- `constraintAllCVarsToWild` records a wild forcing for every atom of
every variable. -/
theorem constrainAllWild_mem (ps : List RPvc) (rsn : String) :
    ∀ st : RState, ∀ p ∈ ps, ∀ a ∈ p.atoms,
      RCon.geqConst a .Wild rsn ∈ (constrainAllWild ps rsn st).cons := by
  induction ps with
  | nil => intro st p hp; cases hp
  | cons p0 rest ih =>
    intro st p hp a ha
    rw [constrainAllWild, List.foldl_cons]
    rcases List.mem_cons.1 hp with rfl | hp2
    · have hm := constrainPvcWild_mem p rsn st a ha
      have hext := constrainAllWild_ext rest rsn (constrainPvcWild p rsn st)
      rw [constrainAllWild] at hext
      exact hext.2 _ hm
    · have h2 := ih (constrainPvcWild p0 rsn st) p hp2 a ha
      rw [constrainAllWild] at h2
      exact h2

/-- `constraintAllCVarsToWild` with already-recorded forcings is a no-op. -/
theorem constrainAllWild_frozen (ps : List RPvc) (rsn : String) :
    ∀ st : RState, (∀ p ∈ ps, ∀ a ∈ p.atoms, RCon.geqConst a .Wild rsn ∈ st.cons) →
      constrainAllWild ps rsn st = st := by
  induction ps with
  | nil => intro st _; rfl
  | cons p0 rest ih =>
    intro st h
    rw [constrainAllWild, List.foldl_cons,
      constrainPvcWild_frozen p0 rsn st (h p0 (List.mem_cons_self _ _))]
    have h2 := ih st (fun p hp a ha => h p (List.mem_cons_of_mem _ hp) a ha)
    rw [constrainAllWild] at h2
    exact h2

/-- The `Same`-linking loop leaves the cache untouched. -/
theorem constrainSameLink_memo (p : RPvc) (vars : List RPvc) :
    ∀ st : RState, (constrainSameLink p vars st).memo = st.memo := by
  induction vars with
  | nil => intro st; rfl
  | cons v rest ih =>
    intro st
    rw [constrainSameLink, List.foldl_cons]
    have h2 := ih ((p.atoms.zip v.atoms).foldl (fun st q => insertCon (.same q.1 q.2) st) st)
    rw [constrainSameLink] at h2
    rw [h2]
    exact foldl_insertCon_memo (fun q => .same q.1 q.2) (p.atoms.zip v.atoms) st

/-- The `Same`-linking loop extends the state. -/
theorem constrainSameLink_ext (p : RPvc) (vars : List RPvc) :
    ∀ st : RState, RExt st (constrainSameLink p vars st) := by
  induction vars with
  | nil => intro st; exact rext_refl st
  | cons v rest ih =>
    intro st
    rw [constrainSameLink, List.foldl_cons]
    have h2 := ih ((p.atoms.zip v.atoms).foldl (fun st q => insertCon (.same q.1 q.2) st) st)
    rw [constrainSameLink] at h2
    exact rext_trans (foldl_insertCon_ext (fun q => .same q.1 q.2) (p.atoms.zip v.atoms) st) h2

/-- `constrainOuterTo` leaves the cache untouched. -/
theorem constrainOuter_memo (p : RPvc) (c : PtrClass) (st : RState) :
    (constrainOuter p c st).memo = st.memo := by
  cases h : p.atoms with
  | nil => rw [constrainOuter, h]
  | cons a rest =>
    rw [constrainOuter, h]
    exact insertCon_memo _ st

/-- `constrainOuterTo` extends the state. -/
theorem constrainOuter_ext (p : RPvc) (c : PtrClass) (st : RState) :
    RExt st (constrainOuter p c st) := by
  cases h : p.atoms with
  | nil =>
    have h2 : constrainOuter p c st = st := by rw [constrainOuter, h]
    rw [h2]
    exact rext_refl st
  | cons a rest =>
    have h2 : constrainOuter p c st = insertCon (.geqConst a c "") st := by
      rw [constrainOuter, h]
    rw [h2]
    exact insertCon_ext _ st

/-- Creating a fresh variable leaves the cache untouched. -/
theorem freshPvcOfType_memo (ty : CType) (st : RState) :
    (freshPvcOfType ty st).2.memo = st.memo := rfl

/-- Creating a fresh variable leaves the constraint store untouched. -/
theorem freshPvcOfType_cons (ty : CType) (st : RState) :
    (freshPvcOfType ty st).2.cons = st.cons := rfl

/-- Creating a fresh variable extends the state. -/
theorem freshPvcOfType_ext (ty : CType) (st : RState) : RExt st (freshPvcOfType ty st).2 := by
  constructor
  · intro e vs h
    rw [memoLookup_congr (freshPvcOfType ty st).2 st rfl e]
    exact h
  · intro c h; exact h

/-- The fresh variable's atoms all sit at or above the old counter. -/
theorem freshPvcOfType_atoms (ty : CType) (st : RState) :
    ∀ a ∈ (freshPvcOfType ty st).1.atoms, st.fresh ≤ a := by
  intro a ha
  have ha2 : a ∈ (List.range (ptrDepth ty)).map (fun i => st.fresh + i) := ha
  rcases List.mem_map.1 ha2 with ⟨i, _, rfl⟩
  exact Nat.le_add_right _ _

/-- Caching a result leaves the constraint store untouched. -/
theorem memoStore_cons_eq (k : RExpr) (vs : List RPvc) (st : RState) :
    (memoStore k vs st).cons = st.cons := by
  by_cases h : (memoLookup st k).isSome = true
  · rw [memoStore, if_pos h]
  · rw [memoStore, if_neg h]

/-- Caching a result leaves the fresh counter untouched. -/
theorem memoStore_fresh (k : RExpr) (vs : List RPvc) (st : RState) :
    (memoStore k vs st).fresh = st.fresh := by
  by_cases h : (memoLookup st k).isSome = true
  · rw [memoStore, if_pos h]
  · rw [memoStore, if_neg h]

/-- Looking up the freshly cached key yields the cached value. -/
theorem memoStore_lookup_self (k : RExpr) (vs : List RPvc) (st : RState)
    (h : memoLookup st k = none) : memoLookup (memoStore k vs st) k = some vs := by
  have h2 : ¬((memoLookup st k).isSome = true) := by rw [h]; simp
  rw [memoStore, if_neg h2]
  show (((k, vs) :: st.memo).find? (fun q => decide (q.1 = k))).map (fun q => q.2) = some vs
  rw [List.find?_cons_of_pos]
  · rfl
  · exact decide_eq_true rfl

/-- Looking up a different key is unaffected by a store. -/
theorem memoStore_lookup_other (k : RExpr) (vs : List RPvc) (st : RState) (e2 : RExpr)
    (h : e2 ≠ k) : memoLookup (memoStore k vs st) e2 = memoLookup st e2 := by
  by_cases h2 : (memoLookup st k).isSome = true
  · rw [memoStore, if_pos h2]
  · rw [memoStore, if_neg h2]
    show (((k, vs) :: st.memo).find? (fun q => decide (q.1 = e2))).map (fun q => q.2) =
      memoLookup st e2
    rw [List.find?_cons_of_neg]
    · rfl
    · intro hcon
      exact h (of_decide_eq_true hcon).symm

/-- Caching a result extends the state. -/
theorem memoStore_ext (k : RExpr) (vs : List RPvc) (st : RState) :
    RExt st (memoStore k vs st) := by
  constructor
  · intro e vs2 h
    by_cases he : e = k
    · subst he
      have h2 : (memoLookup st e).isSome = true := by rw [h]; rfl
      rw [memoStore, if_pos h2]
      exact h
    · rw [memoStore_lookup_other k vs st e he]
      exact h
  · intro c h
    rw [memoStore_cons_eq k vs st]
    exact h

/-- `getInvalidCastPVCons` on a cached node returns the cached result
unchanged. -/
theorem gicp_frozen (e : RExpr) (st : RState) (vs : List RPvc)
    (h : memoLookup st e = some vs) : getInvalidCastPVConsR e st = (vs, st) := by
  rw [getInvalidCastPVConsR, h]

/-- `getInvalidCastPVCons` on an uncached node creates, forces and stores a
fresh wild variable. -/
theorem gicp_miss (e : RExpr) (st : RState) (h : memoLookup st e = none) :
    getInvalidCastPVConsR e st =
      ([(freshPvcOfType (typeOfR e) st).1],
        memoStore e [(freshPvcOfType (typeOfR e) st).1]
          (constrainPvcWild (freshPvcOfType (typeOfR e) st).1 (castReason e)
            (freshPvcOfType (typeOfR e) st).2)) := by
  rw [getInvalidCastPVConsR, h]

/-- `getInvalidCastPVCons` extends the state. -/
theorem gicp_ext (e : RExpr) (st : RState) : RExt st (getInvalidCastPVConsR e st).2 := by
  cases h : memoLookup st e with
  | some vs =>
    rw [gicp_frozen e st vs h]
    exact rext_refl st
  | none =>
    rw [gicp_miss e st h]
    exact rext_trans (freshPvcOfType_ext (typeOfR e) st)
      (rext_trans (constrainPvcWild_ext _ _ _) (memoStore_ext _ _ _))

/-- After `getInvalidCastPVCons`, the node's cache entry is its result. -/
theorem gicp_lookup_self (e : RExpr) (st : RState) :
    memoLookup (getInvalidCastPVConsR e st).2 e = some (getInvalidCastPVConsR e st).1 := by
  cases h : memoLookup st e with
  | some vs =>
    rw [gicp_frozen e st vs h]
    exact h
  | none =>
    rw [gicp_miss e st h]
    refine memoStore_lookup_self e _ _ ?_
    have hcg : memoLookup (constrainPvcWild (freshPvcOfType (typeOfR e) st).1 (castReason e)
        (freshPvcOfType (typeOfR e) st).2) e = memoLookup st e :=
      memoLookup_congr _ _ (by rw [constrainPvcWild_memo, freshPvcOfType_memo]) e
    rw [hcg]
    exact h

/-- `getInvalidCastPVCons` caches nothing but its own node. -/
theorem gicp_lookup_other (e : RExpr) (st : RState) (e2 : RExpr) (h : e2 ≠ e) :
    memoLookup (getInvalidCastPVConsR e st).2 e2 = memoLookup st e2 := by
  cases h0 : memoLookup st e with
  | some vs => rw [gicp_frozen e st vs h0]
  | none =>
    rw [gicp_miss e st h0]
    rw [memoStore_lookup_other e _ _ e2 h]
    exact memoLookup_congr _ _ (by rw [constrainPvcWild_memo, freshPvcOfType_memo]) e2

/-- Unfolding of the resolver on a variable reference. -/
theorem resolveExpr_varRef_eq (env : String → Option RPvc) (st : RState)
    (n : String) (ty : CType) :
    resolveExpr env st (.varRef n ty) =
      (if isArithTy ty = true then ([⟨[]⟩], st)
       else ((env n).elim [] (fun p => [p]), st)) := rfl

/-- The resolver leaves the state untouched on a variable reference. -/
theorem resolveExpr_varRef_state (env : String → Option RPvc) (st : RState)
    (n : String) (ty : CType) : (resolveExpr env st (.varRef n ty)).2 = st := by
  rw [resolveExpr_varRef_eq]
  by_cases h : isArithTy ty = true
  · rw [if_pos h]
  · rw [if_neg h]

/-- Unfolding of the resolver on an integer literal. -/
theorem resolveExpr_intLit_eq (env : String → Option RPvc) (st : RState) (n : Int) :
    resolveExpr env st (.intLit n) = ([⟨[]⟩], st) := rfl

/-- The resolver on a cached string literal returns the cached result. -/
theorem resolveExpr_strLit_hit (env : String → Option RPvc) (st : RState) (s : String)
    (vs : List RPvc) (h0 : memoLookup st (.strLit s) = some vs) :
    resolveExpr env st (.strLit s) = (vs, st) := by
  have hu : resolveExpr env st (.strLit s) =
      (match memoLookup st (.strLit s) with
       | some vs => (vs, st)
       | none =>
         ([(freshPvcOfType (CType.ptr .charT) st).1],
           memoStore (.strLit s) [(freshPvcOfType (CType.ptr .charT) st).1]
             (constrainOuter (freshPvcOfType (CType.ptr .charT) st).1 .NTArr
               (freshPvcOfType (CType.ptr .charT) st).2))) := rfl
  rw [hu, h0]

/-- The resolver on an uncached string literal creates a fresh variable,
constrains its outermost atom `NTArr` and caches it. -/
theorem resolveExpr_strLit_miss (env : String → Option RPvc) (st : RState) (s : String)
    (h0 : memoLookup st (.strLit s) = none) :
    resolveExpr env st (.strLit s) =
      ([(freshPvcOfType (CType.ptr .charT) st).1],
        memoStore (.strLit s) [(freshPvcOfType (CType.ptr .charT) st).1]
          (constrainOuter (freshPvcOfType (CType.ptr .charT) st).1 .NTArr
            (freshPvcOfType (CType.ptr .charT) st).2)) := by
  have hu : resolveExpr env st (.strLit s) =
      (match memoLookup st (.strLit s) with
       | some vs => (vs, st)
       | none =>
         ([(freshPvcOfType (CType.ptr .charT) st).1],
           memoStore (.strLit s) [(freshPvcOfType (CType.ptr .charT) st).1]
             (constrainOuter (freshPvcOfType (CType.ptr .charT) st).1 .NTArr
               (freshPvcOfType (CType.ptr .charT) st).2))) := rfl
  rw [hu, h0]

/-- The resolver on an implicit cast of arithmetic type yields the base
variable. -/
theorem resolveExpr_icast_arith (env : String → Option RPvc) (st : RState)
    (ty2 : CType) (sub : RExpr) (h1 : isArithTy ty2 = true) :
    resolveExpr env st (.implicitCast ty2 sub) = ([⟨[]⟩], st) := by
  have hu : resolveExpr env st (.implicitCast ty2 sub) =
      (if isArithTy ty2 = true then ([⟨[]⟩], st)
       else if isNULLExprR sub = true then ([], st)
       else if (isPtrTy ty2 && !(typeOfR sub == CType.ptr CType.void) &&
           !isExplicitCastSafe ty2 (typeOfR sub)) = true then
         getInvalidCastPVConsR (RExpr.implicitCast ty2 sub)
           (constrainAllWild (resolveExpr env st sub).1
             (castReason (RExpr.implicitCast ty2 sub)) (resolveExpr env st sub).2)
       else resolveExpr env st sub) := rfl
  rw [hu, if_pos h1]

/-- The resolver on an implicit cast of a null expression yields no
variables. -/
theorem resolveExpr_icast_null (env : String → Option RPvc) (st : RState)
    (ty2 : CType) (sub : RExpr) (h1 : isArithTy ty2 = false)
    (h2 : isNULLExprR sub = true) :
    resolveExpr env st (.implicitCast ty2 sub) = ([], st) := by
  have hu : resolveExpr env st (.implicitCast ty2 sub) =
      (if isArithTy ty2 = true then ([⟨[]⟩], st)
       else if isNULLExprR sub = true then ([], st)
       else if (isPtrTy ty2 && !(typeOfR sub == CType.ptr CType.void) &&
           !isExplicitCastSafe ty2 (typeOfR sub)) = true then
         getInvalidCastPVConsR (RExpr.implicitCast ty2 sub)
           (constrainAllWild (resolveExpr env st sub).1
             (castReason (RExpr.implicitCast ty2 sub)) (resolveExpr env st sub).2)
       else resolveExpr env st sub) := rfl
  rw [hu, if_neg (by rw [h1]; exact Bool.false_ne_true), if_pos h2]

/-- The resolver on an unsafe implicit pointer conversion forces the
sub-expression's variables wild and returns the invalid-cast variable. -/
theorem resolveExpr_icast_invalid (env : String → Option RPvc) (st : RState)
    (ty2 : CType) (sub : RExpr) (h1 : isArithTy ty2 = false)
    (h2 : isNULLExprR sub = false)
    (h3 : (isPtrTy ty2 && !(typeOfR sub == CType.ptr CType.void) &&
      !isExplicitCastSafe ty2 (typeOfR sub)) = true) :
    resolveExpr env st (.implicitCast ty2 sub) =
      getInvalidCastPVConsR (RExpr.implicitCast ty2 sub)
        (constrainAllWild (resolveExpr env st sub).1
          (castReason (RExpr.implicitCast ty2 sub)) (resolveExpr env st sub).2) := by
  have hu : resolveExpr env st (.implicitCast ty2 sub) =
      (if isArithTy ty2 = true then ([⟨[]⟩], st)
       else if isNULLExprR sub = true then ([], st)
       else if (isPtrTy ty2 && !(typeOfR sub == CType.ptr CType.void) &&
           !isExplicitCastSafe ty2 (typeOfR sub)) = true then
         getInvalidCastPVConsR (RExpr.implicitCast ty2 sub)
           (constrainAllWild (resolveExpr env st sub).1
             (castReason (RExpr.implicitCast ty2 sub)) (resolveExpr env st sub).2)
       else resolveExpr env st sub) := rfl
  rw [hu, if_neg (by rw [h1]; exact Bool.false_ne_true),
    if_neg (by rw [h2]; exact Bool.false_ne_true), if_pos h3]

/-- The resolver passes a safe implicit cast through to its
sub-expression. -/
theorem resolveExpr_icast_safe (env : String → Option RPvc) (st : RState)
    (ty2 : CType) (sub : RExpr) (h1 : isArithTy ty2 = false)
    (h2 : isNULLExprR sub = false)
    (h3 : (isPtrTy ty2 && !(typeOfR sub == CType.ptr CType.void) &&
      !isExplicitCastSafe ty2 (typeOfR sub)) = false) :
    resolveExpr env st (.implicitCast ty2 sub) = resolveExpr env st sub := by
  have hu : resolveExpr env st (.implicitCast ty2 sub) =
      (if isArithTy ty2 = true then ([⟨[]⟩], st)
       else if isNULLExprR sub = true then ([], st)
       else if (isPtrTy ty2 && !(typeOfR sub == CType.ptr CType.void) &&
           !isExplicitCastSafe ty2 (typeOfR sub)) = true then
         getInvalidCastPVConsR (RExpr.implicitCast ty2 sub)
           (constrainAllWild (resolveExpr env st sub).1
             (castReason (RExpr.implicitCast ty2 sub)) (resolveExpr env st sub).2)
       else resolveExpr env st sub) := rfl
  rw [hu, if_neg (by rw [h1]; exact Bool.false_ne_true),
    if_neg (by rw [h2]; exact Bool.false_ne_true),
    if_neg (by rw [h3]; exact Bool.false_ne_true)]

/-- The resolver on an explicit cast of arithmetic type yields the base
variable. -/
theorem resolveExpr_ecast_arith (env : String → Option RPvc) (st : RState)
    (ty2 : CType) (sub : RExpr) (h1 : isArithTy ty2 = true) :
    resolveExpr env st (.explicitCast ty2 sub) = ([⟨[]⟩], st) := by
  have hu : resolveExpr env st (.explicitCast ty2 sub) =
      (if isArithTy ty2 = true then ([⟨[]⟩], st)
       else
         match memoLookup st (.explicitCast ty2 sub) with
         | some vs => (vs, st)
         | none =>
           let r1 :=
             if (!isNULLExprR (RExpr.explicitCast ty2 sub) && isPtrTy ty2 &&
                 !isExplicitCastSafe ty2 (typeOfR sub)) = true then
               getInvalidCastPVConsR (.explicitCast ty2 sub) st
             else
               let rs := resolveExpr env st sub
               let pr := freshPvcOfType ty2 rs.2
               let st3 := if (!isNULLExprR (RExpr.explicitCast ty2 sub)) = true then
                   constrainSameLink pr.1 rs.1 pr.2 else pr.2
               ([pr.1], st3)
           (r1.1, memoStore (.explicitCast ty2 sub) r1.1 r1.2)) := rfl
  rw [hu, if_pos h1]

/-- The resolver on a cached explicit cast returns the cached result. -/
theorem resolveExpr_ecast_hit (env : String → Option RPvc) (st : RState)
    (ty2 : CType) (sub : RExpr) (vs : List RPvc) (h1 : isArithTy ty2 = false)
    (h0 : memoLookup st (.explicitCast ty2 sub) = some vs) :
    resolveExpr env st (.explicitCast ty2 sub) = (vs, st) := by
  have hu : resolveExpr env st (.explicitCast ty2 sub) =
      (if isArithTy ty2 = true then ([⟨[]⟩], st)
       else
         match memoLookup st (.explicitCast ty2 sub) with
         | some vs => (vs, st)
         | none =>
           let r1 :=
             if (!isNULLExprR (RExpr.explicitCast ty2 sub) && isPtrTy ty2 &&
                 !isExplicitCastSafe ty2 (typeOfR sub)) = true then
               getInvalidCastPVConsR (.explicitCast ty2 sub) st
             else
               let rs := resolveExpr env st sub
               let pr := freshPvcOfType ty2 rs.2
               let st3 := if (!isNULLExprR (RExpr.explicitCast ty2 sub)) = true then
                   constrainSameLink pr.1 rs.1 pr.2 else pr.2
               ([pr.1], st3)
           (r1.1, memoStore (.explicitCast ty2 sub) r1.1 r1.2)) := rfl
  rw [hu, if_neg (by rw [h1]; exact Bool.false_ne_true), h0]

/-- The resolver on an uncached statically unsafe explicit pointer cast
returns the invalid-cast variable without visiting the sub-expression, and
caches it. -/
theorem resolveExpr_ecast_invalid (env : String → Option RPvc) (st : RState)
    (ty2 : CType) (sub : RExpr) (h1 : isArithTy ty2 = false)
    (h0 : memoLookup st (.explicitCast ty2 sub) = none)
    (h3 : (!isNULLExprR (RExpr.explicitCast ty2 sub) && isPtrTy ty2 &&
      !isExplicitCastSafe ty2 (typeOfR sub)) = true) :
    resolveExpr env st (.explicitCast ty2 sub) =
      ((getInvalidCastPVConsR (.explicitCast ty2 sub) st).1,
        memoStore (.explicitCast ty2 sub)
          (getInvalidCastPVConsR (.explicitCast ty2 sub) st).1
          (getInvalidCastPVConsR (.explicitCast ty2 sub) st).2) := by
  have hu : resolveExpr env st (.explicitCast ty2 sub) =
      (if isArithTy ty2 = true then ([⟨[]⟩], st)
       else
         match memoLookup st (.explicitCast ty2 sub) with
         | some vs => (vs, st)
         | none =>
           let r1 :=
             if (!isNULLExprR (RExpr.explicitCast ty2 sub) && isPtrTy ty2 &&
                 !isExplicitCastSafe ty2 (typeOfR sub)) = true then
               getInvalidCastPVConsR (.explicitCast ty2 sub) st
             else
               let rs := resolveExpr env st sub
               let pr := freshPvcOfType ty2 rs.2
               let st3 := if (!isNULLExprR (RExpr.explicitCast ty2 sub)) = true then
                   constrainSameLink pr.1 rs.1 pr.2 else pr.2
               ([pr.1], st3)
           (r1.1, memoStore (.explicitCast ty2 sub) r1.1 r1.2)) := rfl
  rw [hu, if_neg (by rw [h1]; exact Bool.false_ne_true), h0, h3]
  rfl

/-- The resolver on an uncached safe (or null) explicit cast creates a fresh
rewritable variable, links it to the sub-expression's variables unless the
cast is of a null expression, and caches it. -/
theorem resolveExpr_ecast_safe (env : String → Option RPvc) (st : RState)
    (ty2 : CType) (sub : RExpr) (h1 : isArithTy ty2 = false)
    (h0 : memoLookup st (.explicitCast ty2 sub) = none)
    (h3 : (!isNULLExprR (RExpr.explicitCast ty2 sub) && isPtrTy ty2 &&
      !isExplicitCastSafe ty2 (typeOfR sub)) = false) :
    resolveExpr env st (.explicitCast ty2 sub) =
      ([(freshPvcOfType ty2 (resolveExpr env st sub).2).1],
        memoStore (.explicitCast ty2 sub)
          [(freshPvcOfType ty2 (resolveExpr env st sub).2).1]
          (if (!isNULLExprR (RExpr.explicitCast ty2 sub)) = true then
            constrainSameLink (freshPvcOfType ty2 (resolveExpr env st sub).2).1
              (resolveExpr env st sub).1 (freshPvcOfType ty2 (resolveExpr env st sub).2).2
          else (freshPvcOfType ty2 (resolveExpr env st sub).2).2)) := by
  have hu : resolveExpr env st (.explicitCast ty2 sub) =
      (if isArithTy ty2 = true then ([⟨[]⟩], st)
       else
         match memoLookup st (.explicitCast ty2 sub) with
         | some vs => (vs, st)
         | none =>
           let r1 :=
             if (!isNULLExprR (RExpr.explicitCast ty2 sub) && isPtrTy ty2 &&
                 !isExplicitCastSafe ty2 (typeOfR sub)) = true then
               getInvalidCastPVConsR (.explicitCast ty2 sub) st
             else
               let rs := resolveExpr env st sub
               let pr := freshPvcOfType ty2 rs.2
               let st3 := if (!isNULLExprR (RExpr.explicitCast ty2 sub)) = true then
                   constrainSameLink pr.1 rs.1 pr.2 else pr.2
               ([pr.1], st3)
           (r1.1, memoStore (.explicitCast ty2 sub) r1.1 r1.2)) := rfl
  rw [hu, if_neg (by rw [h1]; exact Bool.false_ne_true), h0, h3]
  rfl

/-- Every resolution extends the state: cache entries and stored
constraints are never dropped. -/
theorem resolve_ext (env : String → Option RPvc) :
    ∀ (e : RExpr) (st : RState), RExt st (resolveExpr env st e).2 := by
  intro e
  induction e with
  | varRef n ty =>
    intro st
    rw [resolveExpr_varRef_state]
    exact rext_refl st
  | intLit n =>
    intro st
    rw [resolveExpr_intLit_eq]
    exact rext_refl st
  | strLit s =>
    intro st
    cases h0 : memoLookup st (.strLit s) with
    | some vs =>
      rw [resolveExpr_strLit_hit env st s vs h0]
      exact rext_refl st
    | none =>
      rw [resolveExpr_strLit_miss env st s h0]
      exact rext_trans (freshPvcOfType_ext _ st)
        (rext_trans (constrainOuter_ext _ _ _) (memoStore_ext _ _ _))
  | implicitCast ty2 sub ih =>
    intro st
    by_cases h1 : isArithTy ty2 = true
    · rw [resolveExpr_icast_arith env st ty2 sub h1]
      exact rext_refl st
    · rw [Bool.not_eq_true] at h1
      by_cases h2 : isNULLExprR sub = true
      · rw [resolveExpr_icast_null env st ty2 sub h1 h2]
        exact rext_refl st
      · rw [Bool.not_eq_true] at h2
        by_cases h3 : (isPtrTy ty2 && !(typeOfR sub == CType.ptr CType.void) &&
            !isExplicitCastSafe ty2 (typeOfR sub)) = true
        · rw [resolveExpr_icast_invalid env st ty2 sub h1 h2 h3]
          exact rext_trans (ih st)
            (rext_trans (constrainAllWild_ext _ _ _) (gicp_ext _ _))
        · rw [Bool.not_eq_true] at h3
          rw [resolveExpr_icast_safe env st ty2 sub h1 h2 h3]
          exact ih st
  | explicitCast ty2 sub ih =>
    intro st
    by_cases h1 : isArithTy ty2 = true
    · rw [resolveExpr_ecast_arith env st ty2 sub h1]
      exact rext_refl st
    · rw [Bool.not_eq_true] at h1
      cases h0 : memoLookup st (.explicitCast ty2 sub) with
      | some vs =>
        rw [resolveExpr_ecast_hit env st ty2 sub vs h1 h0]
        exact rext_refl st
      | none =>
        by_cases h3 : (!isNULLExprR (RExpr.explicitCast ty2 sub) && isPtrTy ty2 &&
            !isExplicitCastSafe ty2 (typeOfR sub)) = true
        · rw [resolveExpr_ecast_invalid env st ty2 sub h1 h0 h3]
          exact rext_trans (gicp_ext _ st) (memoStore_ext _ _ _)
        · rw [Bool.not_eq_true] at h3
          rw [resolveExpr_ecast_safe env st ty2 sub h1 h0 h3]
          by_cases h4 : (!isNULLExprR (RExpr.explicitCast ty2 sub)) = true
          · rw [if_pos h4]
            refine rext_trans (ih st) ?_
            refine rext_trans (freshPvcOfType_ext ty2 (resolveExpr env st sub).2) ?_
            exact rext_trans (constrainSameLink_ext _ _ _) (memoStore_ext _ _ _)
          · rw [if_neg h4]
            refine rext_trans (ih st) ?_
            exact rext_trans (freshPvcOfType_ext ty2 (resolveExpr env st sub).2)
              (memoStore_ext _ _ _)

/-- A resolution caches only nodes no larger than the resolved expression:
an absent larger key stays absent. -/
theorem resolve_memo_fresh (env : String → Option RPvc) :
    ∀ (e : RExpr) (st : RState) (e2 : RExpr), memoLookup st e2 = none →
      rsize e < rsize e2 → memoLookup (resolveExpr env st e).2 e2 = none := by
  intro e
  induction e with
  | varRef n ty =>
    intro st e2 h _
    rw [resolveExpr_varRef_state]
    exact h
  | intLit n =>
    intro st e2 h _
    rw [resolveExpr_intLit_eq]
    exact h
  | strLit s =>
    intro st e2 h hlt
    cases h0 : memoLookup st (.strLit s) with
    | some vs =>
      rw [resolveExpr_strLit_hit env st s vs h0]
      exact h
    | none =>
      have hne : e2 ≠ RExpr.strLit s := by
        intro he
        rw [he] at hlt
        exact Nat.lt_irrefl _ hlt
      rw [resolveExpr_strLit_miss env st s h0]
      rw [memoStore_lookup_other _ _ _ e2 hne]
      have hcg : memoLookup (constrainOuter (freshPvcOfType (CType.ptr .charT) st).1
          PtrClass.NTArr (freshPvcOfType (CType.ptr .charT) st).2) e2 =
          memoLookup st e2 :=
        memoLookup_congr _ _ (by rw [constrainOuter_memo, freshPvcOfType_memo]) e2
      rw [hcg]
      exact h
  | implicitCast ty2 sub ih =>
    intro st e2 h hlt
    have hlt2 : rsize sub < rsize e2 := Nat.lt_of_le_of_lt (Nat.le_succ _) hlt
    by_cases h1 : isArithTy ty2 = true
    · rw [resolveExpr_icast_arith env st ty2 sub h1]
      exact h
    · rw [Bool.not_eq_true] at h1
      by_cases h2 : isNULLExprR sub = true
      · rw [resolveExpr_icast_null env st ty2 sub h1 h2]
        exact h
      · rw [Bool.not_eq_true] at h2
        by_cases h3 : (isPtrTy ty2 && !(typeOfR sub == CType.ptr CType.void) &&
            !isExplicitCastSafe ty2 (typeOfR sub)) = true
        · rw [resolveExpr_icast_invalid env st ty2 sub h1 h2 h3]
          have hne : e2 ≠ RExpr.implicitCast ty2 sub := by
            intro he
            rw [he] at hlt
            exact Nat.lt_irrefl _ hlt
          rw [gicp_lookup_other _ _ e2 hne]
          have hcg : memoLookup (constrainAllWild (resolveExpr env st sub).1
              (castReason (RExpr.implicitCast ty2 sub)) (resolveExpr env st sub).2) e2 =
              memoLookup (resolveExpr env st sub).2 e2 :=
            memoLookup_congr _ _ (by rw [constrainAllWild_memo]) e2
          rw [hcg]
          exact ih st e2 h hlt2
        · rw [Bool.not_eq_true] at h3
          rw [resolveExpr_icast_safe env st ty2 sub h1 h2 h3]
          exact ih st e2 h hlt2
  | explicitCast ty2 sub ih =>
    intro st e2 h hlt
    have hlt2 : rsize sub < rsize e2 := Nat.lt_of_le_of_lt (Nat.le_succ _) hlt
    have hne : e2 ≠ RExpr.explicitCast ty2 sub := by
      intro he
      rw [he] at hlt
      exact Nat.lt_irrefl _ hlt
    by_cases h1 : isArithTy ty2 = true
    · rw [resolveExpr_ecast_arith env st ty2 sub h1]
      exact h
    · rw [Bool.not_eq_true] at h1
      cases h0 : memoLookup st (.explicitCast ty2 sub) with
      | some vs =>
        rw [resolveExpr_ecast_hit env st ty2 sub vs h1 h0]
        exact h
      | none =>
        by_cases h3 : (!isNULLExprR (RExpr.explicitCast ty2 sub) && isPtrTy ty2 &&
            !isExplicitCastSafe ty2 (typeOfR sub)) = true
        · rw [resolveExpr_ecast_invalid env st ty2 sub h1 h0 h3]
          show memoLookup (memoStore (RExpr.explicitCast ty2 sub)
            (getInvalidCastPVConsR (RExpr.explicitCast ty2 sub) st).1
            (getInvalidCastPVConsR (RExpr.explicitCast ty2 sub) st).2) e2 = none
          rw [memoStore_lookup_other _ _ _ e2 hne, gicp_lookup_other _ _ e2 hne]
          exact h
        · rw [Bool.not_eq_true] at h3
          rw [resolveExpr_ecast_safe env st ty2 sub h1 h0 h3]
          show memoLookup (memoStore (RExpr.explicitCast ty2 sub)
            [(freshPvcOfType ty2 (resolveExpr env st sub).2).1]
            (if (!isNULLExprR (RExpr.explicitCast ty2 sub)) = true then
              constrainSameLink (freshPvcOfType ty2 (resolveExpr env st sub).2).1
                (resolveExpr env st sub).1 (freshPvcOfType ty2 (resolveExpr env st sub).2).2
            else (freshPvcOfType ty2 (resolveExpr env st sub).2).2)) e2 = none
          rw [memoStore_lookup_other _ _ _ e2 hne]
          by_cases h4 : (!isNULLExprR (RExpr.explicitCast ty2 sub)) = true
          · rw [if_pos h4]
            have hcg : memoLookup (constrainSameLink
                (freshPvcOfType ty2 (resolveExpr env st sub).2).1 (resolveExpr env st sub).1
                (freshPvcOfType ty2 (resolveExpr env st sub).2).2) e2 =
                memoLookup (resolveExpr env st sub).2 e2 :=
              memoLookup_congr _ _ (by rw [constrainSameLink_memo, freshPvcOfType_memo]) e2
            rw [hcg]
            exact ih st e2 h hlt2
          · rw [if_neg h4]
            have hcg : memoLookup (freshPvcOfType ty2 (resolveExpr env st sub).2).2 e2 =
                memoLookup (resolveExpr env st sub).2 e2 :=
              memoLookup_congr _ _ rfl e2
            rw [hcg]
            exact ih st e2 h hlt2

/-- Re-resolving an expression in any extension of its own post state
returns the same constraint variables and leaves the extension unchanged. -/
theorem resolve_frozen (env : String → Option RPvc) :
    ∀ (e : RExpr) (st st2 : RState), RExt (resolveExpr env st e).2 st2 →
      resolveExpr env st2 e = ((resolveExpr env st e).1, st2) := by
  intro e
  induction e with
  | varRef n ty =>
    intro st st2 hext
    rw [resolveExpr_varRef_eq env st2, resolveExpr_varRef_eq env st]
    by_cases h : isArithTy ty = true
    · rw [if_pos h, if_pos h]
    · rw [if_neg h, if_neg h]
  | intLit n =>
    intro st st2 hext
    rw [resolveExpr_intLit_eq, resolveExpr_intLit_eq]
  | strLit s =>
    intro st st2 hext
    cases h0 : memoLookup st (.strLit s) with
    | some vs =>
      have h1 := resolveExpr_strLit_hit env st s vs h0
      have h2 : memoLookup st2 (.strLit s) = some vs := by
        refine hext.1 _ _ ?_
        rw [h1]
        exact h0
      rw [resolveExpr_strLit_hit env st2 s vs h2, h1]
    | none =>
      have h1 := resolveExpr_strLit_miss env st s h0
      have hpost : memoLookup (resolveExpr env st (.strLit s)).2 (.strLit s) =
          some [(freshPvcOfType (CType.ptr .charT) st).1] := by
        rw [h1]
        refine memoStore_lookup_self _ _ _ ?_
        have hcg : memoLookup (constrainOuter (freshPvcOfType (CType.ptr .charT) st).1
            PtrClass.NTArr (freshPvcOfType (CType.ptr .charT) st).2) (.strLit s) =
            memoLookup st (.strLit s) :=
          memoLookup_congr _ _ (by rw [constrainOuter_memo, freshPvcOfType_memo]) _
        rw [hcg]
        exact h0
      have h2 : memoLookup st2 (.strLit s) =
          some [(freshPvcOfType (CType.ptr .charT) st).1] := hext.1 _ _ hpost
      rw [resolveExpr_strLit_hit env st2 s _ h2, h1]
  | implicitCast ty2 sub ih =>
    intro st st2 hext
    by_cases h1 : isArithTy ty2 = true
    · rw [resolveExpr_icast_arith env st2 ty2 sub h1, resolveExpr_icast_arith env st ty2 sub h1]
    · rw [Bool.not_eq_true] at h1
      by_cases h2 : isNULLExprR sub = true
      · rw [resolveExpr_icast_null env st2 ty2 sub h1 h2,
          resolveExpr_icast_null env st ty2 sub h1 h2]
      · rw [Bool.not_eq_true] at h2
        by_cases h3 : (isPtrTy ty2 && !(typeOfR sub == CType.ptr CType.void) &&
            !isExplicitCastSafe ty2 (typeOfR sub)) = true
        · have hu1 := resolveExpr_icast_invalid env st ty2 sub h1 h2 h3
          have hu2 := resolveExpr_icast_invalid env st2 ty2 sub h1 h2 h3
          have hsubext : RExt (resolveExpr env st sub).2 st2 := by
            refine rext_trans ?_ hext
            rw [hu1]
            exact rext_trans (constrainAllWild_ext _ _ _) (gicp_ext _ _)
          have hsub := ih st st2 hsubext
          rw [hu2, hsub]
          show getInvalidCastPVConsR (RExpr.implicitCast ty2 sub)
              (constrainAllWild (resolveExpr env st sub).1
                (castReason (RExpr.implicitCast ty2 sub)) st2) =
            ((resolveExpr env st (RExpr.implicitCast ty2 sub)).1, st2)
          have hfro : constrainAllWild (resolveExpr env st sub).1
              (castReason (RExpr.implicitCast ty2 sub)) st2 = st2 := by
            refine constrainAllWild_frozen _ _ st2 ?_
            intro p hp a ha
            refine hext.2 _ ?_
            rw [hu1]
            refine (gicp_ext _ _).2 _ ?_
            exact constrainAllWild_mem _ _ _ p hp a ha
          rw [hfro]
          have hpost : memoLookup (resolveExpr env st (RExpr.implicitCast ty2 sub)).2
              (RExpr.implicitCast ty2 sub) =
              some (resolveExpr env st (RExpr.implicitCast ty2 sub)).1 := by
            rw [hu1]
            exact gicp_lookup_self _ _
          have hhit : memoLookup st2 (RExpr.implicitCast ty2 sub) =
              some (resolveExpr env st (RExpr.implicitCast ty2 sub)).1 :=
            hext.1 _ _ hpost
          rw [gicp_frozen _ st2 _ hhit]
        · rw [Bool.not_eq_true] at h3
          have hs1 := resolveExpr_icast_safe env st ty2 sub h1 h2 h3
          have hs2 := resolveExpr_icast_safe env st2 ty2 sub h1 h2 h3
          have hsubext : RExt (resolveExpr env st sub).2 st2 := by
            refine rext_trans ?_ hext
            rw [hs1]
            exact rext_refl _
          rw [hs2, ih st st2 hsubext, hs1]
  | explicitCast ty2 sub ih =>
    intro st st2 hext
    by_cases h1 : isArithTy ty2 = true
    · rw [resolveExpr_ecast_arith env st2 ty2 sub h1, resolveExpr_ecast_arith env st ty2 sub h1]
    · rw [Bool.not_eq_true] at h1
      have hpost : memoLookup (resolveExpr env st (RExpr.explicitCast ty2 sub)).2
          (RExpr.explicitCast ty2 sub) =
          some (resolveExpr env st (RExpr.explicitCast ty2 sub)).1 := by
        cases h0 : memoLookup st (.explicitCast ty2 sub) with
        | some vs =>
          rw [resolveExpr_ecast_hit env st ty2 sub vs h1 h0]
          exact h0
        | none =>
          by_cases h3 : (!isNULLExprR (RExpr.explicitCast ty2 sub) && isPtrTy ty2 &&
              !isExplicitCastSafe ty2 (typeOfR sub)) = true
          · rw [resolveExpr_ecast_invalid env st ty2 sub h1 h0 h3]
            show memoLookup (memoStore (RExpr.explicitCast ty2 sub)
                (getInvalidCastPVConsR (RExpr.explicitCast ty2 sub) st).1
                (getInvalidCastPVConsR (RExpr.explicitCast ty2 sub) st).2)
              (RExpr.explicitCast ty2 sub) =
              some (getInvalidCastPVConsR (RExpr.explicitCast ty2 sub) st).1
            have hg := gicp_lookup_self (RExpr.explicitCast ty2 sub) st
            have hs : (memoLookup (getInvalidCastPVConsR (RExpr.explicitCast ty2 sub) st).2
                (RExpr.explicitCast ty2 sub)).isSome = true := by rw [hg]; rfl
            rw [memoStore, if_pos hs]
            exact hg
          · rw [Bool.not_eq_true] at h3
            rw [resolveExpr_ecast_safe env st ty2 sub h1 h0 h3]
            show memoLookup (memoStore (RExpr.explicitCast ty2 sub)
                [(freshPvcOfType ty2 (resolveExpr env st sub).2).1]
                (if (!isNULLExprR (RExpr.explicitCast ty2 sub)) = true then
                  constrainSameLink (freshPvcOfType ty2 (resolveExpr env st sub).2).1
                    (resolveExpr env st sub).1
                    (freshPvcOfType ty2 (resolveExpr env st sub).2).2
                else (freshPvcOfType ty2 (resolveExpr env st sub).2).2))
              (RExpr.explicitCast ty2 sub) =
              some [(freshPvcOfType ty2 (resolveExpr env st sub).2).1]
            refine memoStore_lookup_self _ _ _ ?_
            have hmf : memoLookup (resolveExpr env st sub).2 (RExpr.explicitCast ty2 sub) =
                none :=
              resolve_memo_fresh env sub st (RExpr.explicitCast ty2 sub) h0
                (Nat.lt_succ_self _)
            by_cases h4 : (!isNULLExprR (RExpr.explicitCast ty2 sub)) = true
            · rw [if_pos h4]
              have hcg : memoLookup (constrainSameLink
                  (freshPvcOfType ty2 (resolveExpr env st sub).2).1
                  (resolveExpr env st sub).1
                  (freshPvcOfType ty2 (resolveExpr env st sub).2).2)
                  (RExpr.explicitCast ty2 sub) =
                  memoLookup (resolveExpr env st sub).2 (RExpr.explicitCast ty2 sub) :=
                memoLookup_congr _ _ (by rw [constrainSameLink_memo, freshPvcOfType_memo]) _
              rw [hcg]
              exact hmf
            · rw [if_neg h4]
              have hcg : memoLookup (freshPvcOfType ty2 (resolveExpr env st sub).2).2
                  (RExpr.explicitCast ty2 sub) =
                  memoLookup (resolveExpr env st sub).2 (RExpr.explicitCast ty2 sub) :=
                memoLookup_congr _ _ rfl _
              rw [hcg]
              exact hmf
      have hhit : memoLookup st2 (RExpr.explicitCast ty2 sub) =
          some (resolveExpr env st (RExpr.explicitCast ty2 sub)).1 := hext.1 _ _ hpost
      exact resolveExpr_ecast_hit env st2 ty2 sub _ h1 hhit

/-- C8: resolving the same expression node a second time, from the state
produced by its first resolution, returns the first resolution's (now
cached) constraint-variable result and leaves the state — cache and
constraint store alike — unchanged, so no duplicate graph edges are
generated. -/
theorem c8_memoized_resolution (env : String → Option RPvc) (st : RState) (e : RExpr) :
    resolveExpr env (resolveExpr env st e).2 e =
      ((resolveExpr env st e).1, (resolveExpr env st e).2) :=
  resolve_frozen env e st (resolveExpr env st e).2 (rext_refl _)

/-- C4: on a statically unsafe explicit pointer cast the resolver returns a
single fresh constraint variable, wholly forced `Wild` with the recorded
cast reason, and every constraint it adds mentions only freshly created
atoms — the sub-expression's variables are left unconstrained; on an unsafe
implicit pointer conversion the sub-expression's variables are all forced
`Wild` and a single fresh, independently tracked variable is returned for
the conversion node. -/
theorem c4_unsafe_cast_flow (env : String → Option RPvc) (st : RState)
    (ty2 : CType) (sub : RExpr) :
    ((isArithTy ty2 = false) →
      (memoLookup st (RExpr.explicitCast ty2 sub) = none) →
      ((!isNULLExprR (RExpr.explicitCast ty2 sub) && isPtrTy ty2 &&
        !isExplicitCastSafe ty2 (typeOfR sub)) = true) →
      ∃ p, (resolveExpr env st (RExpr.explicitCast ty2 sub)).1 = [p] ∧
        (∀ a ∈ p.atoms, st.fresh ≤ a) ∧
        (∀ a ∈ p.atoms,
          RCon.geqConst a .Wild (castReason (RExpr.explicitCast ty2 sub)) ∈
            (resolveExpr env st (RExpr.explicitCast ty2 sub)).2.cons) ∧
        (∀ c ∈ (resolveExpr env st (RExpr.explicitCast ty2 sub)).2.cons,
          c ∈ st.cons ∨ ∀ a ∈ conAtoms c, st.fresh ≤ a)) ∧
    ((isArithTy ty2 = false) →
      (isNULLExprR sub = false) →
      (memoLookup st (RExpr.implicitCast ty2 sub) = none) →
      ((isPtrTy ty2 && !(typeOfR sub == CType.ptr CType.void) &&
        !isExplicitCastSafe ty2 (typeOfR sub)) = true) →
      (∀ p ∈ (resolveExpr env st sub).1, ∀ a ∈ p.atoms,
        RCon.geqConst a .Wild (castReason (RExpr.implicitCast ty2 sub)) ∈
          (resolveExpr env st (RExpr.implicitCast ty2 sub)).2.cons) ∧
      ∃ p, (resolveExpr env st (RExpr.implicitCast ty2 sub)).1 = [p] ∧
        ∀ a ∈ p.atoms, (resolveExpr env st sub).2.fresh ≤ a) := by
  constructor
  · intro h1 h0 h3
    have hre := resolveExpr_ecast_invalid env st ty2 sub h1 h0 h3
    have hg := gicp_miss (RExpr.explicitCast ty2 sub) st h0
    have hRcons : (resolveExpr env st (RExpr.explicitCast ty2 sub)).2.cons =
        (constrainPvcWild (freshPvcOfType (typeOfR (RExpr.explicitCast ty2 sub)) st).1
          (castReason (RExpr.explicitCast ty2 sub))
          (freshPvcOfType (typeOfR (RExpr.explicitCast ty2 sub)) st).2).cons := by
      rw [hre, hg]
      show (memoStore (RExpr.explicitCast ty2 sub)
          [(freshPvcOfType (typeOfR (RExpr.explicitCast ty2 sub)) st).1]
          (memoStore (RExpr.explicitCast ty2 sub)
            [(freshPvcOfType (typeOfR (RExpr.explicitCast ty2 sub)) st).1]
            (constrainPvcWild (freshPvcOfType (typeOfR (RExpr.explicitCast ty2 sub)) st).1
              (castReason (RExpr.explicitCast ty2 sub))
              (freshPvcOfType (typeOfR (RExpr.explicitCast ty2 sub)) st).2))).cons = _
      rw [memoStore_cons_eq, memoStore_cons_eq]
    refine ⟨(freshPvcOfType (typeOfR (RExpr.explicitCast ty2 sub)) st).1, ?_, ?_, ?_, ?_⟩
    · rw [hre, hg]
    · exact freshPvcOfType_atoms _ st
    · intro a ha
      rw [hRcons]
      exact constrainPvcWild_mem _ _ _ a ha
    · intro c hc
      rw [hRcons] at hc
      rcases constrainPvcWild_cons_inv _ _ _ c hc with h | ⟨a, ha, rfl⟩
      · exact Or.inl h
      · refine Or.inr ?_
        intro a2 ha2
        have ha3 : a2 ∈ [a] := ha2
        rw [List.mem_singleton.1 ha3]
        exact freshPvcOfType_atoms _ st a ha
  · intro h1 h2 hm h3
    have hre := resolveExpr_icast_invalid env st ty2 sub h1 h2 h3
    have hm1 : memoLookup (constrainAllWild (resolveExpr env st sub).1
        (castReason (RExpr.implicitCast ty2 sub)) (resolveExpr env st sub).2)
        (RExpr.implicitCast ty2 sub) = none := by
      have hcg : memoLookup (constrainAllWild (resolveExpr env st sub).1
          (castReason (RExpr.implicitCast ty2 sub)) (resolveExpr env st sub).2)
          (RExpr.implicitCast ty2 sub) =
          memoLookup (resolveExpr env st sub).2 (RExpr.implicitCast ty2 sub) :=
        memoLookup_congr _ _ (by rw [constrainAllWild_memo]) _
      rw [hcg]
      exact resolve_memo_fresh env sub st (RExpr.implicitCast ty2 sub) hm (Nat.lt_succ_self _)
    have hg := gicp_miss (RExpr.implicitCast ty2 sub) _ hm1
    constructor
    · intro p hp a ha
      rw [hre]
      refine (gicp_ext _ _).2 _ ?_
      exact constrainAllWild_mem _ _ _ p hp a ha
    · refine ⟨(freshPvcOfType (typeOfR (RExpr.implicitCast ty2 sub))
        (constrainAllWild (resolveExpr env st sub).1
          (castReason (RExpr.implicitCast ty2 sub)) (resolveExpr env st sub).2)).1, ?_, ?_⟩
      · rw [hre, hg]
      · intro a ha
        have h4 := freshPvcOfType_atoms (typeOfR (RExpr.implicitCast ty2 sub))
          (constrainAllWild (resolveExpr env st sub).1
            (castReason (RExpr.implicitCast ty2 sub)) (resolveExpr env st sub).2) a ha
        have h5 : (constrainAllWild (resolveExpr env st sub).1
            (castReason (RExpr.implicitCast ty2 sub)) (resolveExpr env st sub).2).fresh =
            (resolveExpr env st sub).2.fresh := constrainAllWild_fresh _ _ _
        rw [h5] at h4
        exact h4

/-- Witness for C4 at the concrete unsafe casts `(int *) x` and the unsafe
implicit conversion of `x : char *` to `int *`. -/
theorem c4_unsafe_cast_flow_witness :
    (memoLookup c4St (RExpr.explicitCast (CType.ptr CType.intT)
      (RExpr.varRef "x" (CType.ptr CType.charT))) = none) ∧
    (∃ p, (resolveExpr c4Env c4St (RExpr.explicitCast (CType.ptr CType.intT)
        (RExpr.varRef "x" (CType.ptr CType.charT)))).1 = [p] ∧
      (∀ a ∈ p.atoms, c4St.fresh ≤ a) ∧
      (∀ a ∈ p.atoms,
        RCon.geqConst a .Wild (castReason (RExpr.explicitCast (CType.ptr CType.intT)
          (RExpr.varRef "x" (CType.ptr CType.charT)))) ∈
          (resolveExpr c4Env c4St (RExpr.explicitCast (CType.ptr CType.intT)
            (RExpr.varRef "x" (CType.ptr CType.charT)))).2.cons) ∧
      (∀ c ∈ (resolveExpr c4Env c4St (RExpr.explicitCast (CType.ptr CType.intT)
          (RExpr.varRef "x" (CType.ptr CType.charT)))).2.cons,
        c ∈ c4St.cons ∨ ∀ a ∈ conAtoms c, c4St.fresh ≤ a)) ∧
    ((∀ p ∈ (resolveExpr c4Env c4St (RExpr.varRef "x" (CType.ptr CType.charT))).1,
        ∀ a ∈ p.atoms,
        RCon.geqConst a .Wild (castReason (RExpr.implicitCast (CType.ptr CType.intT)
          (RExpr.varRef "x" (CType.ptr CType.charT)))) ∈
          (resolveExpr c4Env c4St (RExpr.implicitCast (CType.ptr CType.intT)
            (RExpr.varRef "x" (CType.ptr CType.charT)))).2.cons) ∧
      ∃ p, (resolveExpr c4Env c4St (RExpr.implicitCast (CType.ptr CType.intT)
          (RExpr.varRef "x" (CType.ptr CType.charT)))).1 = [p] ∧
        ∀ a ∈ p.atoms,
          (resolveExpr c4Env c4St (RExpr.varRef "x" (CType.ptr CType.charT))).2.fresh ≤ a) :=
  ⟨rfl,
   (c4_unsafe_cast_flow c4Env c4St (CType.ptr CType.intT)
     (RExpr.varRef "x" (CType.ptr CType.charT))).1 rfl rfl rfl,
   (c4_unsafe_cast_flow c4Env c4St (CType.ptr CType.intT)
     (RExpr.varRef "x" (CType.ptr CType.charT))).2 rfl rfl rfl rfl⟩

end CConv
